import Mathlib

/-!
# getTV3Videos: the resolution pipeline, the download proxy and the page

A shallow embedding of `src/pages/api/download.js`, `src/pages/api/video-url.js`,
`src/pages/api/episodes.js`, `src/pages/api/series-info.js` and of the file name
builder and the download handler of `src/pages/index.js`.

JavaScript strings are Lean `String`s; the string primitives used by the
sources (`startsWith`, `endsWith`, `trim`, `encodeURIComponent`,
`String.prototype.replace` with a literal pattern, the regular expression
`/(\d+)/`) are defined on the character lists of the strings.  Services of the
platform that the sources call but do not define (the WHATWG URL parser, the
network) are parameters of the definitions.  Integer Numbers are Lean integers.
The Numbers that `parseInt` returns for the keys of the two sorts are the
doubles nearest to the parsed values, `Infinity` included (`JS.Num`).  The one
computation on fractions, the progress percentage of a transfer, is carried out
on rationals, each operation followed by the rounding to the nearest double
(`JS.toDouble`).
-/

namespace JS

/-- The test `s.startsWith(p)`. -/
def startsWith (s p : String) : Bool := p.data.isPrefixOf s.data

/-- The test `s.endsWith(p)`. -/
def endsWith (s p : String) : Bool := p.data.isSuffixOf s.data

/-- Truthiness of a value that is `undefined` or a string: `undefined` and the
empty string are falsy.  Returns the string when it is truthy. -/
def truthy : Option String → Option String
  | none => none
  | some s => if s = "" then none else some s

/-- The expression `v || d` for a value that is `undefined` or a string. -/
def orElse (v : Option String) (d : String) : String :=
  match truthy v with
  | some s => s
  | none => d

/-- The characters `String.prototype.trim` removes: the ECMAScript `WhiteSpace`
and `LineTerminator` code points. -/
def isTrimChar (c : Char) : Bool :=
  let n := c.toNat
  n == 0x09 || n == 0x0A || n == 0x0B || n == 0x0C || n == 0x0D || n == 0x20 ||
  n == 0xA0 || n == 0x1680 || (0x2000 ≤ n && n ≤ 0x200A) || n == 0x2028 ||
  n == 0x2029 || n == 0x202F || n == 0x205F || n == 0x3000 || n == 0xFEFF

/-- The method `s.trim()`. -/
def trim (s : String) : String :=
  ⟨((s.data.dropWhile isTrimChar).reverse.dropWhile isTrimChar).reverse⟩

/-- The UTF-8 encoding of a code point, as a list of byte values. -/
def utf8Bytes (n : Nat) : List Nat :=
  if n < 0x80 then [n]
  else if n < 0x800 then [0xC0 + n / 64, 0x80 + n % 64]
  else if n < 0x10000 then [0xE0 + n / 4096, 0x80 + n / 64 % 64, 0x80 + n % 64]
  else [0xF0 + n / 262144, 0x80 + n / 4096 % 64, 0x80 + n / 64 % 64, 0x80 + n % 64]

/-- An upper-case hexadecimal digit. -/
def hexDigit (n : Nat) : Char := "0123456789ABCDEF".data.getD n '0'

/-- The escape `%XX` of a byte. -/
def percentByte (b : Nat) : List Char := ['%', hexDigit (b / 16), hexDigit (b % 16)]

/-- The characters `encodeURIComponent` leaves as they are:
`A-Z a-z 0-9 - _ . ! ~ * ' ( )`. -/
def isUriUnreserved (c : Char) : Bool :=
  let n := c.toNat
  (0x41 ≤ n && n ≤ 0x5A) || (0x61 ≤ n && n ≤ 0x7A) || (0x30 ≤ n && n ≤ 0x39) ||
  n == 0x2D || n == 0x5F || n == 0x2E || n == 0x21 || n == 0x7E || n == 0x2A ||
  n == 0x27 || n == 0x28 || n == 0x29

/-- The function `encodeURIComponent(s)`: every character outside the unreserved
set is replaced by the escapes of its UTF-8 bytes.  (A Lean `String` holds no
lone surrogate, the one input on which the JavaScript function throws.) -/
def encodeURIComponent (s : String) : String :=
  ⟨s.data.flatMap (fun c =>
    if isUriUnreserved c then [c] else (utf8Bytes c.toNat).flatMap percentByte)⟩

/-- The method `Array.prototype.sort(cmp)`, as a stable insertion sort: `x` is
put before the first element `y` with `cmp(x, y) <= 0`.  ECMAScript fixes the
result for a consistent comparator: the stable sorted arrangement. -/
def insertSorted {α : Type} (cmp : α → α → Int) (x : α) : List α → List α
  | [] => [x]
  | y :: ys => if cmp x y ≤ 0 then x :: y :: ys else y :: insertSorted cmp x ys

/-- The method `Array.prototype.sort(cmp)`. -/
def sort {α : Type} (cmp : α → α → Int) : List α → List α
  | [] => []
  | x :: xs => insertSorted cmp x (sort cmp xs)

/-- The method `s.replace(pattern, replacement)` for a string pattern and a
replacement without `$`: the first occurrence of the pattern is replaced. -/
def replaceChars (pattern replacement : List Char) : List Char → List Char
  | [] => if pattern.isEmpty then replacement else []
  | c :: cs =>
      if pattern.isPrefixOf (c :: cs) then replacement ++ (c :: cs).drop pattern.length
      else c :: replaceChars pattern replacement cs

/-- The method `s.replace(pattern, replacement)` on strings. -/
def replace (s pattern replacement : String) : String :=
  ⟨replaceChars pattern.data replacement.data s.data⟩

/-- The character class `\d`: an ASCII digit. -/
def isDigit (c : Char) : Bool := 0x30 ≤ c.toNat && c.toNat ≤ 0x39

/-- The capture of `s.match(/(\d+)/)`: the first maximal run of digits, `none`
when the string has no digit. -/
def matchDigits (s : String) : Option (List Char) :=
  match s.data.dropWhile (fun c => !isDigit c) with
  | [] => none
  | rest => some (rest.takeWhile isDigit)

/-- A Number that is an integer, `Infinity` or `-Infinity`: the values that
`parseInt` returns, `NaN` apart. -/
inductive Num where
  | negInfinity
  | finite (value : Int)
  | infinity
deriving DecidableEq, Repr

/-- The comparison `x <= y` of two such Numbers. -/
def Num.le : Num → Num → Bool
  | .negInfinity, _ => true
  | .finite _, .negInfinity => false
  | .finite a, .finite b => decide (a ≤ b)
  | .finite _, .infinity => true
  | .infinity, .infinity => true
  | .infinity, _ => false

/-- What `Array.prototype.sort` makes of the result `x - y` of a comparator: it
reads the sign of the result and takes `NaN`, the difference of two equal
infinities, as 0.  The difference of two other Numbers has the sign of the exact
difference, whatever its rounding. -/
def Num.sortSign : Num → Num → Int
  | .finite a, .finite b => Int.sign (a - b)
  | .infinity, .infinity => 0
  | .negInfinity, .negInfinity => 0
  | .infinity, _ => 1
  | _, .infinity => -1
  | .negInfinity, _ => -1
  | _, .negInfinity => 1

/-- The distance between the doubles around a natural number `n`: the least
power of two `u`, from `u` on, with `n < 2^53 * u`; `fuel` bounds the search. -/
def roundingUnit (n : Nat) : Nat → Nat → Nat
  | 0, u => u
  | fuel + 1, u => if n < 2 ^ 53 * u then u else roundingUnit n fuel (2 * u)

/-- The multiple of `u` nearest to `n`; of the two nearest ones, the even
multiple. -/
def roundToMultiple (n u : Nat) : Nat :=
  if 2 * (n % u) < u then n / u * u
  else if u < 2 * (n % u) then (n / u + 1) * u
  else if n / u % 2 = 0 then n / u * u
  else (n / u + 1) * u

/-- The double nearest to a natural number, the one with the even significand of
the two nearest ones, were the exponent of a double unbounded. -/
def nearestDouble (n : Nat) : Nat := roundToMultiple n (roundingUnit n n 1)

/-- The number `2^1024`: the doubles are smaller. -/
def doubleBound : Nat := (2 ^ 32) ^ 32

/-- The Number of a natural number: the nearest double, and `Infinity` when that
is beyond the doubles. -/
def numberOfNat (n : Nat) : Num :=
  if nearestDouble n < doubleBound then .finite (nearestDouble n) else .infinity

/-- The Number of an integer. -/
def numberOfInt (n : Int) : Num :=
  if n < 0 then
    match numberOfNat n.natAbs with
    | .finite v => .finite (-v)
    | _ => .negInfinity
  else numberOfNat n.natAbs

/-- The call `parseInt(digits, 10)` on a run of digits: the Number of its decimal
value, which is the double nearest to it, as the engine of Node computes it. -/
def parseInt (digits : List Char) : Num :=
  numberOfNat (digits.foldl (fun acc c => 10 * acc + (c.toNat - 0x30)) 0)

end JS

namespace Download

/-- The platform services `download.js` relies on. -/
structure Runtime where
  /-- The field `new URL(u).hostname`; `none` when the constructor throws. -/
  urlHostname : String → Option String
  /-- The field `new URL(location, base).href`; `none` when the constructor
  throws. -/
  urlResolve : String → String → Option String

/-- The constant `ALLOWED_DOMAINS`. -/
def ALLOWED_DOMAINS : List String := ["3catvideos.cat", "ccma.cat", "amazonaws.com"]

/-- The constant `MAX_REDIRECTS`. -/
def MAX_REDIRECTS : Nat := 5

/-- The function `isDomainAllowed(url)`: the `catch` branch is the `none` case. -/
def isDomainAllowed (rt : Runtime) (url : String) : Bool :=
  match rt.urlHostname url with
  | some hostname =>
      ALLOWED_DOMAINS.any (fun d => hostname == d || JS.endsWith hostname ("." ++ d))
  | none => false

/-- An upstream response as `fetchUrl` and the handler read it: the status code
and the response headers (lower-cased names, as Node delivers them). -/
structure UpstreamResponse where
  statusCode : Nat
  headers : List (String × String)
deriving DecidableEq, Repr

/-- The lookup `res.headers[name]`; `none` is `undefined`. -/
def UpstreamResponse.header (res : UpstreamResponse) (name : String) : Option String :=
  res.headers.lookup name

/-- What an outbound `protocol.get` leads to: the response callback runs, or the
request emits `error`. -/
inductive NetResult where
  | response (res : UpstreamResponse)
  | error (message : String)
deriving DecidableEq, Repr

/-- The errors `fetchUrl` rejects with. -/
inductive FetchError where
  /-- `new Error('Massa redireccions')` -/
  | tooManyRedirects
  /-- `new Error('Domini no permès: ' + url)` -/
  | domainNotAllowed (url : String)
  /-- `new Error('Redirecció sense Location')` -/
  | missingLocation
  /-- The error passed on by `req.on('error', reject)`. -/
  | network (message : String)
deriving DecidableEq, Repr

/-- The field `err.message`. -/
def FetchError.message : FetchError → String
  | .tooManyRedirects => "Massa redireccions"
  | .domainNotAllowed url => "Domini no permès: " ++ url
  | .missingLocation => "Redirecció sense Location"
  | .network m => m

/-- How the promise returned by `fetchUrl` ends.  `uncaught` is the case where
`new URL(location, url)` throws inside the response callback: the exception
leaves the callback and the promise is never settled. -/
inductive Outcome where
  | resolved (res : UpstreamResponse)
  | rejected (err : FetchError)
  | uncaught
deriving DecidableEq, Repr

/-- A run of `fetchUrl`: the URLs handed to `protocol.get`, in order, and the
outcome. -/
structure FetchRun where
  requests : List String
  outcome : Outcome
deriving DecidableEq, Repr

/-- The status test of `fetchUrl`:
`statusCode === 301 || statusCode === 302 || statusCode === 307 || statusCode === 308`. -/
def isRedirectStatus (statusCode : Nat) : Bool :=
  statusCode == 301 || statusCode == 302 || statusCode == 307 || statusCode == 308

/-- The expression
`location.startsWith('http') ? location : new URL(location, url).href`;
`none` when the constructor throws. -/
def nextUrl (rt : Runtime) (location url : String) : Option String :=
  if JS.startsWith location "http" then some location else rt.urlResolve location url

/-- The function `fetchUrl(url, redirectCount)`.  `net i u` is what the upstream
does with the request for `u` issued at redirect count `i` (each call of
`fetchUrl` issues at most one request, so `i` also numbers the requests). -/
def fetchUrl (rt : Runtime) (net : Nat → String → NetResult) (url : String)
    (redirectCount : Nat) : FetchRun :=
  if redirectCount > MAX_REDIRECTS then
    ⟨[], .rejected .tooManyRedirects⟩
  else if !isDomainAllowed rt url then
    ⟨[], .rejected (.domainNotAllowed url)⟩
  else
    match net redirectCount url with
    | .error message => ⟨[url], .rejected (.network message)⟩
    | .response res =>
        if isRedirectStatus res.statusCode then
          match JS.truthy (res.header "location") with
          | none => ⟨[url], .rejected .missingLocation⟩
          | some location =>
              match nextUrl rt location url with
              | none => ⟨[url], .uncaught⟩
              | some next =>
                  let run := fetchUrl rt net next (redirectCount + 1)
                  ⟨url :: run.requests, run.outcome⟩
        else
          ⟨[url], .resolved res⟩
termination_by MAX_REDIRECTS + 1 - redirectCount
decreasing_by
  simp only [MAX_REDIRECTS] at *
  omega

/-- The query of a request to the proxy: `req.query.url` and
`req.query.filename`, each `undefined` or a string (a parameter given several
times, which arrives as an array, is not modelled). -/
structure Query where
  url : Option String
  filename : Option String
deriving DecidableEq, Repr

/-- The body the handler gives the client: a text passed to `send`, or the
upstream body piped through (`proxyRes.pipe(res)`). -/
inductive Body where
  | text (s : String)
  | piped (res : UpstreamResponse)
deriving DecidableEq, Repr

/-- The response of the handler: the status, the headers the handler sets with
`res.setHeader`, in order, and the body. -/
structure ClientResponse where
  status : Nat
  headers : List (String × String)
  body : Body
deriving DecidableEq, Repr

/-- A run of the handler: the outbound requests it caused and its response;
`none` when `await fetchUrl(url)` never settles. -/
structure HandlerRun where
  requests : List String
  response : Option ClientResponse
deriving DecidableEq, Repr

/-- The headers set on a terminal 200 response: `Content-Disposition`,
`Content-Type`, and `Content-Length` when the upstream has one. -/
def successHeaders (filename : String) (proxyRes : UpstreamResponse) : List (String × String) :=
  let safeFilename := JS.trim filename
  [("Content-Disposition", "attachment; filename*=UTF-8''" ++ JS.encodeURIComponent safeFilename),
   ("Content-Type", JS.orElse (proxyRes.header "content-type") "video/mp4")] ++
  (match JS.truthy (proxyRes.header "content-length") with
   | some len => [("Content-Length", len)]
   | none => [])

/-- The function `handler(req, res)` of `download.js`. -/
def handler (rt : Runtime) (net : Nat → String → NetResult) (query : Query) : HandlerRun :=
  match JS.truthy query.url, JS.truthy query.filename with
  | some url, some filename =>
      if !isDomainAllowed rt url then
        ⟨[], some ⟨403, [], .text "Domini no permès"⟩⟩
      else
        let run := fetchUrl rt net url 0
        match run.outcome with
        | .resolved proxyRes =>
            if proxyRes.statusCode ≠ 200 then
              ⟨run.requests, some ⟨proxyRes.statusCode, [],
                .text ("Error del servidor de vídeo: " ++ toString proxyRes.statusCode)⟩⟩
            else
              ⟨run.requests, some ⟨200, successHeaders filename proxyRes, .piped proxyRes⟩⟩
        | .rejected err =>
            ⟨run.requests, some ⟨500, [], .text ("Error en la descàrrega: " ++ err.message)⟩⟩
        | .uncaught => ⟨run.requests, none⟩
  | _, _ => ⟨[], some ⟨400, [], .text "Falten paràmetres: url i filename"⟩⟩

/-- A small URL parser used to instantiate the theorems at concrete inputs: it
accepts `http://host/...` and `https://host/...` and returns the host. -/
def sampleHostname (u : String) : Option String :=
  let rest :=
    if JS.startsWith u "https://" then some (u.data.drop 8)
    else if JS.startsWith u "http://" then some (u.data.drop 7)
    else none
  match rest with
  | some cs => if cs.takeWhile (· != '/') = [] then none else some ⟨cs.takeWhile (· != '/')⟩
  | none => none

/-- A runtime used to instantiate the theorems at concrete inputs: a relative
reference starting with `/` is resolved against the scheme and host of the base. -/
def sampleRuntime : Runtime where
  urlHostname := sampleHostname
  urlResolve := fun location base =>
    match sampleHostname base with
    | some host =>
        if JS.startsWith location "/" then
          some ((if JS.startsWith base "https://" then "https://" else "http://") ++ host ++ location)
        else none
    | none => none

/-- The request for `a`, issued at redirect count `i`, is answered by a redirect
that `fetchUrl` follows to `b`: `a` is allowed, the response has one of the four
redirect statuses and a non-empty `Location`, and `b` is the next URL computed
from that header. -/
def Hop (rt : Runtime) (net : Nat → String → NetResult) (i : Nat) (a b : String) : Prop :=
  isDomainAllowed rt a = true ∧
  ∃ res location, net i a = .response res ∧ isRedirectStatus res.statusCode = true ∧
    JS.truthy (res.header "location") = some location ∧ nextUrl rt location a = some b

/-- The URLs `u 0, u 1, ..., u k` form a chain of `k` consecutive redirects. -/
def Chain (rt : Runtime) (net : Nat → String → NetResult) (u : Nat → String) (k : Nat) : Prop :=
  ∀ i, i < k → Hop rt net i (u i) (u (i + 1))

/-- A sample upstream: the first request is answered by a 302 pointing to a host
outside the allow-list. -/
def evilRedirectNet : Nat → String → NetResult := fun i _ =>
  if i = 0 then .response ⟨302, [("location", "https://evil.example.com/v.mp4")]⟩
  else .response ⟨200, []⟩

/-- A sample upstream: every request is answered by a 404. -/
def notFoundNet : Nat → String → NetResult := fun _ _ => .response ⟨404, []⟩

/-- The sample chain of `evilRedirectNet`. -/
def evilChain : Nat → String := fun i =>
  if i = 0 then "https://ccma.cat/v.mp4" else "https://evil.example.com/v.mp4"

/-- A sample upstream: an endless redirect loop on one allowed URL. -/
def loopNet : Nat → String → NetResult := fun _ _ =>
  .response ⟨302, [("location", "https://ccma.cat/loop")]⟩

/-- A sample upstream: five relative redirects, then a 200. -/
def fiveHopNet : Nat → String → NetResult := fun i _ =>
  if i < 5 then .response ⟨307, [("location", "/next")]⟩
  else .response ⟨200, [("content-type", "video/mp4")]⟩

/-- The sample chain of `fiveHopNet`. -/
def fiveHopChain : Nat → String := fun i =>
  if i = 0 then "https://ccma.cat/start" else "https://ccma.cat/next"

/-- A sample upstream: the first request is answered by a 303 with a Location on
an allowed host. -/
def seeOtherNet : Nat → String → NetResult := fun i _ =>
  if i = 0 then .response ⟨303, [("location", "https://ccma.cat/b.mp4")]⟩
  else .response ⟨200, []⟩

/-- A sample upstream: a 200 response with a type and a length. -/
def okNet : Nat → String → NetResult := fun _ _ =>
  .response ⟨200, [("content-type", "video/webm"), ("content-length", "1024")]⟩

/-- A sample upstream: every request is answered by a 303 whose Location is one
URL on an allowed host. -/
def seeOtherLoopNet : Nat → String → NetResult := fun _ _ =>
  .response ⟨303, [("location", "https://ccma.cat/loop")]⟩

/-- A sample upstream: every request is answered by a 304. -/
def notModifiedNet : Nat → String → NetResult := fun _ _ => .response ⟨304, []⟩

/-- A sample upstream: a 200 response without any header. -/
def bareOkNet : Nat → String → NetResult := fun _ _ => .response ⟨200, []⟩

end Download

namespace VideoUrl

/-- The constant `URL_REPLACEMENTS`, as pairs `(from, to)`. -/
def URL_REPLACEMENTS : List (String × String) :=
  [("mp4-high-es.ccma.cat.s3.eu-west-1.amazonaws.com/MP4_ALTA_IPTV_ES",
      "mp4-down-high-es.3catvideos.cat"),
   ("mp4-high-int.ccma.cat.s3.eu-west-1.amazonaws.com/MP4_ALTA_IPTV_MON",
      "mp4-down-high-int.3catvideos.cat"),
   ("mp4-medium-es.ccma.cat.s3.eu-west-1.amazonaws.com/MP4_MITJA_WEB_ES",
      "mp4-down-medium-es.3catvideos.cat"),
   ("mp4-medium-int.ccma.cat.s3.eu-west-1.amazonaws.com/MP4_MITJA_WEB_MON",
      "mp4-down-medium-int.3catvideos.cat")]

/-- The function `replaceUrl(url)`. -/
def replaceUrl (url : String) : String :=
  URL_REPLACEMENTS.foldl (fun acc r => JS.replace acc r.1 r.2) url

/-- The function `qualityToNumber(label)`. -/
def qualityToNumber (label : String) : JS.Num :=
  match JS.matchDigits label with
  | some digits => JS.parseInt digits
  | none => .finite 0

/-- An entry of `media.url`: the fields the handler reads, each possibly absent. -/
structure RawUrl where
  file : Option String
  label : Option String
  active : Option Bool
deriving DecidableEq, Repr

/-- The field `media.url`: an array of entries or a single entry; an entry can be
`null` or `undefined` (`none`). -/
inductive MediaUrl where
  | many (entries : List (Option RawUrl))
  | single (entry : Option RawUrl)
deriving DecidableEq, Repr

/-- The object `data.media`. -/
structure Media where
  url : MediaUrl
  format : Option String
deriving DecidableEq, Repr

/-- The object `data.informacio.estat`. -/
structure Estat where
  actiu : Option Bool
deriving DecidableEq, Repr

/-- The object `data.informacio`. -/
structure Informacio where
  estat : Option Estat
  titol : Option String
  titol_complet : Option String
deriving DecidableEq, Repr

/-- The body of the media service, as far as the handler reads it. -/
structure Data where
  informacio : Option Informacio
  media : Option Media
deriving DecidableEq, Repr

/-- What `fetch` and `r.json()` lead to. -/
inductive Upstream where
  /-- `fetch` rejects. -/
  | failed
  /-- `r.ok` is false. -/
  | notOk
  /-- `r.json()` rejects. -/
  | badJson
  /-- The parsed body; `none` is the JSON value `null`. -/
  | ok (data : Option Data)
deriving DecidableEq, Repr

/-- An element of `videos`. -/
structure Video where
  quality : String
  url : String
  format : String
  active : Bool
deriving DecidableEq, Repr

/-- The object passed to `res.json` on success; `title` and `titol_complet` are
absent (`none`) in the answer for content that is not active. -/
structure Result where
  videos : List Video
  best : Option Video
  available : Bool
  title : Option String
  titol_complet : Option String
deriving DecidableEq, Repr

/-- The response of the handler. -/
inductive Response where
  /-- `res.json(result)`, with the default status 200. -/
  | json (status : Nat) (result : Result)
  /-- `res.status(status).json({ error })`. -/
  | error (status : Nat) (message : String)
deriving DecidableEq, Repr

/-- The test `data?.informacio?.estat?.actiu`. -/
def isActive (data : Option Data) : Bool :=
  match data with
  | some d =>
      match d.informacio with
      | some i =>
          match i.estat with
          | some e => e.actiu == some true
          | none => false
      | none => false
  | none => false

/-- The expression `Array.isArray(media.url) ? media.url : [media.url]`. -/
def rawUrls (media : Media) : List (Option RawUrl) :=
  match media.url with
  | .many entries => entries
  | .single entry => [entry]

/-- The test `u && u.file`. -/
def hasFile (u : Option RawUrl) : Bool :=
  match u with
  | some r => (JS.truthy r.file).isSome
  | none => false

/-- The object built by the `map` callback.  It only runs on entries that passed
`u && u.file`, so the defaults for a missing entry or file are never used. -/
def toVideo (media : Media) (u : Option RawUrl) : Video :=
  { quality := JS.orElse (u.bind (·.label)) "?"
    url := replaceUrl ((u.bind (·.file)).getD "")
    format := JS.orElse media.format "MP4"
    active := u.bind (·.active) != some false }

/-- The comparator `(a, b) => qualityToNumber(b.quality) - qualityToNumber(a.quality)`,
as the sort reads its result. -/
def byQuality (a b : Video) : Int :=
  JS.Num.sortSign (qualityToNumber b.quality) (qualityToNumber a.quality)

/-- The chain `rawUrls.filter(...).map(...).filter(v => v.active).sort(...)`. -/
def buildVideos (media : Media) : List Video :=
  JS.sort byQuality
    ((((rawUrls media).filter hasFile).map (toVideo media)).filter (fun v => v.active))

/-- The URL the handler fetches. -/
def mediaServiceUrl (id : String) : String :=
  "https://dinamics.ccma.cat/pvideo/media.jsp?media=video&version=0s&idint=" ++ id

/-- The function `handler(req, res)` of `video-url.js`; `id` is `req.query.id`
and `fetch` the media service.  Reading `media.url` when `data.media` is missing
throws, which the `catch` turns into the 500 answer. -/
def handler (fetch : String → Upstream) (id : Option String) : Response :=
  match JS.truthy id with
  | none => .error 400 "Falta el paràmetre id"
  | some id =>
      match fetch (mediaServiceUrl id) with
      | .failed => .error 500 "Error obtenint la URL del vídeo"
      | .notOk => .error 404 "Vídeo no trobat"
      | .badJson => .error 500 "Error obtenint la URL del vídeo"
      | .ok data =>
          if !isActive data then
            .json 200 { videos := [], best := none, available := false,
                        title := none, titol_complet := none }
          else
            match data.bind (·.media) with
            | none => .error 500 "Error obtenint la URL del vídeo"
            | some media =>
                let videos := buildVideos media
                let informacio := data.bind (·.informacio)
                .json 200
                  { videos := videos
                    best := videos.head?
                    available := decide (videos.length > 0)
                    title := some (JS.orElse (informacio.bind (·.titol)) "")
                    titol_complet := some (JS.orElse (informacio.bind (·.titol_complet)) "") }

/-- The list of C9 in the words of the specification: the raw entries (the list
`media.url`, or the one-element list when it is a single object), keeping the
entries that have a non-empty file and whose active flag is true or absent, each
mapped to its variant with `active: true`. -/
def expectedVideos (media : Media) : List Video :=
  let entries : List (Option RawUrl) :=
    match media.url with
    | .many l => l
    | .single e => [e]
  entries.filterMap (fun u =>
    match u with
    | some r =>
        match r.file with
        | some file =>
            if file ≠ "" ∧ (r.active = some true ∨ r.active = none) then
              some
                { quality := (match r.label with
                    | some l => if l = "" then "?" else l
                    | none => "?")
                  url := replaceUrl file
                  format := (match media.format with
                    | some f => if f = "" then "MP4" else f
                    | none => "MP4")
                  active := true }
            else none
        | none => none
    | none => none)

/-- A sample body of the media service. -/
def sampleData : Data :=
  { informacio := some { estat := some { actiu := some true }, titol := some "Cap 1",
                         titol_complet := none }
    media := some
      { url := .many
          [some ⟨some "https://mp4-medium-es.ccma.cat.s3.eu-west-1.amazonaws.com/MP4_MITJA_WEB_ES/1.mp4",
              some "480p", none⟩,
           none,
           some ⟨some "https://x.ccma.cat/hd.mp4", some "HD", some true⟩,
           some ⟨some "https://x.ccma.cat/off.mp4", some "1080p", some false⟩,
           some ⟨some "https://mp4-high-es.ccma.cat.s3.eu-west-1.amazonaws.com/MP4_ALTA_IPTV_ES/1.mp4",
              some "720p", none⟩,
           some ⟨none, some "1080p", none⟩]
        format := none } }

/-- A sample media service: it answers every request with `sampleData`. -/
def sampleFetch : String → Upstream := fun _ => .ok (some sampleData)

/-- A sample media service: the content is flagged as not active. -/
def inactiveFetch : String → Upstream := fun _ =>
  .ok (some { informacio := some { estat := some { actiu := some false }, titol := none,
                                   titol_complet := none },
              media := none })

/-- The answer of the handler to the sample media service. -/
def sampleResult : Result :=
  { videos :=
      [⟨"720p", "https://mp4-down-high-es.3catvideos.cat/1.mp4", "MP4", true⟩,
       ⟨"480p", "https://mp4-down-medium-es.3catvideos.cat/1.mp4", "MP4", true⟩,
       ⟨"HD", "https://x.ccma.cat/hd.mp4", "MP4", true⟩]
    best := some ⟨"720p", "https://mp4-down-high-es.3catvideos.cat/1.mp4", "MP4", true⟩
    available := true
    title := some "Cap 1"
    titol_complet := some "" }

/-- A sample body of the media service whose labels have digit runs beyond
`2^53`: two of them have the same Number, one has the Number `Infinity`. -/
def tieData : Data :=
  { informacio := some { estat := some { actiu := some true }, titol := some "Cap 2",
                         titol_complet := none }
    media := some
      { url := .many
          [some ⟨some "https://x.ccma.cat/a.mp4", some "9007199254740992", none⟩,
           some ⟨some "https://x.ccma.cat/b.mp4", some "720p", none⟩,
           some ⟨some "https://x.ccma.cat/c.mp4", some "9007199254740993", none⟩,
           some ⟨some "https://x.ccma.cat/d.mp4",
             some ("1" ++ String.mk (List.replicate 400 '0')), none⟩]
        format := none } }

/-- A sample media service: it answers every request with `tieData`. -/
def tieFetch : String → Upstream := fun _ => .ok (some tieData)

/-- The answer of the handler to `tieFetch`: the two variants of equal rank keep
their order. -/
def tieResult : Result :=
  { videos :=
      [⟨"1" ++ String.mk (List.replicate 400 '0'), "https://x.ccma.cat/d.mp4", "MP4", true⟩,
       ⟨"9007199254740992", "https://x.ccma.cat/a.mp4", "MP4", true⟩,
       ⟨"9007199254740993", "https://x.ccma.cat/c.mp4", "MP4", true⟩,
       ⟨"720p", "https://x.ccma.cat/b.mp4", "MP4", true⟩]
    best := some ⟨"1" ++ String.mk (List.replicate 400 '0'), "https://x.ccma.cat/d.mp4", "MP4",
      true⟩
    available := true
    title := some "Cap 2"
    titol_complet := some "" }

end VideoUrl

namespace JS

/-- The decimal value of a run of digits, most significant digit first. -/
def decimalValue (digits : List Char) : Nat :=
  Nat.ofDigits 10 ((digits.map (fun c => c.toNat - 0x30)).reverse)

end JS

namespace JS

/-- The test `s.includes(pattern)` on character lists: the pattern starts at
some position of the list. -/
def includesChars (pattern : List Char) : List Char → Bool
  | [] => pattern.isEmpty
  | c :: cs => pattern.isPrefixOf (c :: cs) || includesChars pattern cs

/-- The test `s.includes(pattern)`. -/
def includes (s pattern : String) : Bool := includesChars pattern.data s.data

/-- The number of positions of a character list at which the pattern starts. -/
def occurrencesChars (pattern : List Char) : List Char → Nat
  | [] => if pattern.isEmpty then 1 else 0
  | c :: cs => (if pattern.isPrefixOf (c :: cs) then 1 else 0) + occurrencesChars pattern cs

/-- The number of occurrences of the pattern in a string. -/
def occurrences (s pattern : String) : Nat := occurrencesChars pattern.data s.data

/-- The ways an occurrence of `p` can share characters with a text `t` put in the
middle of a string: `t` lies inside `p`, `p` lies inside `t`, a beginning of `t`
ends `p`, or an end of `t` begins `p`. -/
def overlaps (p t : List Char) : Bool :=
  includesChars t p || includesChars p t ||
  (List.range t.length).any (fun n => (t.take (n + 1)).isSuffixOf p) ||
  (List.range t.length).any (fun n => (t.drop n).isPrefixOf p)

end JS

namespace JS

/-- The value of a character as a digit, for radices up to 36. -/
def digitValue (c : Char) : Option Nat :=
  let n := c.toNat
  if 0x30 ≤ n ∧ n ≤ 0x39 then some (n - 0x30)
  else if 0x61 ≤ n ∧ n ≤ 0x7A then some (n - 0x61 + 10)
  else if 0x41 ≤ n ∧ n ≤ 0x5A then some (n - 0x41 + 10)
  else none

/-- The test that a character is a digit of the radix. -/
def isRadixDigit (radix : Nat) (c : Char) : Bool :=
  match digitValue c with
  | some d => decide (d < radix)
  | none => false

/-- The value of a run of digits of the radix, most significant digit first. -/
def radixValue (radix : Nat) (digits : List Char) : Nat :=
  digits.foldl (fun acc c => radix * acc + (digitValue c).getD 0) 0

/-- The call `parseInt(s, radix)` on a string; radix 0 stands for an omitted
radix.  Leading white space is skipped, a sign is read, `0x` selects radix 16
when the radix is omitted or 16, and the longest run of digits is read; `none`
is `NaN`.  (As a JavaScript number the value is exact below `2^53`.) -/
def parseIntString (s : String) (radix : Nat) : Option Int :=
  let trimmed := s.data.dropWhile isTrimChar
  let negative := trimmed.head? == some '-'
  let unsigned :=
    match trimmed with
    | c :: rest => if c == '-' || c == '+' then rest else trimmed
    | [] => []
  if radix ≠ 0 ∧ (radix < 2 ∨ 36 < radix) then none
  else
    let stripPrefix := radix == 0 || radix == 16
    let hex :=
      stripPrefix && (("0x".data).isPrefixOf unsigned || ("0X".data).isPrefixOf unsigned)
    let r := if hex then 16 else if radix == 0 then 10 else radix
    let body := if hex then unsigned.drop 2 else unsigned
    let digits := body.takeWhile (isRadixDigit r)
    if digits.isEmpty then none
    else
      let value : Int := (radixValue r digits : Nat)
      some (if negative then -value else value)

/-- The call `parseInt(v)` on a value that is `undefined` or a string:
`parseInt(undefined)` is `NaN`. -/
def parseIntValue (v : Option String) : Option Int :=
  match v with
  | some s => parseIntString s 0
  | none => none

end JS

namespace Api

/-- An episode object of the listing service: the fields the sources read. -/
structure Episode where
  id : String
  capitol : Option String
  titol : Option String
  titol_complet : Option String
deriving DecidableEq, Repr

/-- The field `items.item`: an array of episodes or a single episode. -/
inductive ItemField where
  | many (items : List Episode)
  | single (item : Episode)
deriving DecidableEq, Repr

/-- The object `resposta.items`. -/
structure Items where
  num : Option String
  item : ItemField
deriving DecidableEq, Repr

/-- The object `resposta.paginacio`. -/
structure Paginacio where
  total_pagines : Option String
  total_items : Option Nat
deriving DecidableEq, Repr

/-- The object `data.resposta`. -/
structure Resposta where
  items : Option Items
  paginacio : Option Paginacio
deriving DecidableEq, Repr

/-- The body of the listing service. -/
structure Listing where
  resposta : Option Resposta
deriving DecidableEq, Repr

/-- What a `fetch` of the listing service leads to: the fetch rejects, or it
gives a response with its `ok` flag and the result of `r.json()` (`none` when it
rejects, `some none` for the JSON value `null`). -/
inductive Reply where
  | failed
  | response (ok : Bool) (json : Option (Option Listing))
deriving DecidableEq, Repr

/-- The expression `data?.resposta?.items`. -/
def itemsOf (data : Option Listing) : Option Items :=
  (data.bind (·.resposta)).bind (·.items)

/-- The expression `data?.resposta?.paginacio`. -/
def paginacioOf (data : Option Listing) : Option Paginacio :=
  (data.bind (·.resposta)).bind (·.paginacio)

end Api

namespace Episodes

open Api

/-- The URL of a page of the listing; the final `replace('json&', 'json&')` of
the source is kept. -/
def listingUrl (programId season : String) (page : Nat) : String :=
  JS.replace
    (String.intercalate "&"
      ["https://api.ccma.cat/videos?_format=json",
       "ordre=capitol",
       "origen=llistat",
       "perfil=pc",
       "programatv_id=" ++ programId,
       "tipus_contingut=PPD",
       "items_pagina=50",
       "pagina=" ++ toString page,
       "version=2.0",
       "temporada=PUTEMP_" ++ season,
       "https=true"])
    "json&" "json&"

/-- How the `while (true)` loop ends: an exception reaches the `catch`, or a
`break` leaves the loop with the episodes pushed so far. -/
inductive LoopEnd where
  | threw
  | finished (episodes : List Episode)
deriving DecidableEq, Repr

/-- The expression `Array.isArray(items.item) ? items.item : [items.item]`. -/
def batchOf (items : Items) : List Episode :=
  match items.item with
  | .many l => l
  | .single e => [e]

/-- The `while (true)` loop, from the state `(page, episodes)`; `fuel` bounds the
number of iterations and `none` means that the loop is still running when the
fuel is used up. -/
def collect (fetch : String → Reply) (programId season : String) :
    Nat → Nat → List Episode → Option LoopEnd
  | 0, _, _ => none
  | fuel + 1, page, episodes =>
      match fetch (listingUrl programId season page) with
      | .failed => some .threw
      | .response false _ => some (.finished episodes)
      | .response true none => some .threw
      | .response true (some data) =>
          match itemsOf data with
          | none => some (.finished episodes)
          | some items =>
              if JS.parseIntValue items.num = some 0 then some (.finished episodes)
              else
                let episodes := episodes ++ batchOf items
                match paginacioOf data with
                | none => some (.finished episodes)
                | some pagination =>
                    match JS.parseIntValue pagination.total_pagines with
                    | some total =>
                        if (page : Int) ≥ total then some (.finished episodes)
                        else collect fetch programId season fuel (page + 1) episodes
                    | none => collect fetch programId season fuel (page + 1) episodes

/-- The sort key `parseInt(e.capitol) || 0`: the Number of the integer that
`parseInt` reads, and 0 for `NaN`. -/
def capitolKey (e : Episode) : JS.Num :=
  match JS.parseIntValue e.capitol with
  | some n => JS.numberOfInt n
  | none => .finite 0

/-- The comparator `(a, b) => (parseInt(a.capitol) || 0) - (parseInt(b.capitol) || 0)`,
as the sort reads its result. -/
def byCapitol (a b : Episode) : Int := JS.Num.sortSign (capitolKey a) (capitolKey b)

/-- The object passed to `res.json`. -/
structure Result where
  episodes : List Episode
  total : Nat
deriving DecidableEq, Repr

/-- The response of the handler. -/
inductive Response where
  | json (status : Nat) (result : Result)
  | error (status : Nat) (message : String)
deriving DecidableEq, Repr

/-- The end of the `try` block: the accumulated episodes are sorted and sent with
their number. -/
def respond (accumulated : List Episode) : Response :=
  let episodes := JS.sort byCapitol accumulated
  .json 200 { episodes := episodes, total := episodes.length }

/-- The function `handler(req, res)` of `episodes.js`; `none` means that the loop
is still running when the fuel is used up. -/
def handler (fetch : String → Reply) (programId season : Option String) (fuel : Nat) :
    Option Response :=
  match JS.truthy programId, JS.truthy season with
  | some programId, some season =>
      match collect fetch programId season fuel 1 [] with
      | none => none
      | some .threw => some (.error 500 "Error obtenint els episodis")
      | some (.finished accumulated) => some (respond accumulated)
  | _, _ => some (.error 400 "Falten paràmetres: programId i season")

/-- A sample listing of one page. -/
def sampleEpisodes : List Episode :=
  [⟨"e3", some "3", some "Tres", none⟩, ⟨"e1", some "1", some "U", none⟩,
   ⟨"x", none, some "Extra", none⟩, ⟨"e1b", some "1", some "U bis", none⟩,
   ⟨"e2", some " 2a", some "Dos", none⟩]

/-- A sample listing service: one page with `sampleEpisodes`. -/
def sampleFetch : String → Reply := fun _ =>
  .response true (some (some
    { resposta := some
        { items := some { num := some "5", item := .many sampleEpisodes }
          paginacio := some { total_pagines := some "1", total_items := some 5 } } }))

/-- What one pass through the body of the `while (true)` loop does once the
reply for its page has arrived: an exception leaves the `try`, a `break` leaves
the loop after `batch` was pushed (nothing for the two `break`s at the top), or
`page++` follows the push of `batch`. -/
inductive Pass where
  | threw
  | stop (batch : List Episode)
  | next (batch : List Episode)
deriving DecidableEq, Repr

/-- The body of the `while (true)` loop for the page `page`, after the `fetch`. -/
def pass (reply : Reply) (page : Nat) : Pass :=
  match reply with
  | .failed => .threw
  | .response false _ => .stop []
  | .response true none => .threw
  | .response true (some data) =>
      match itemsOf data with
      | none => .stop []
      | some items =>
          if JS.parseIntValue items.num = some 0 then .stop []
          else
            match paginacioOf data with
            | none => .stop (batchOf items)
            | some pagination =>
                match JS.parseIntValue pagination.total_pagines with
                | some total =>
                    if (page : Int) ≥ total then .stop (batchOf items)
                    else .next (batchOf items)
                | none => .next (batchOf items)

/-- The `while (true)` loop together with the list of the URLs it fetches, in the
order of the calls of `fetch`; the second component is how the loop ends, as in
`collect`. -/
def collectLog (fetch : String → Reply) (programId season : String) :
    Nat → Nat → List Episode → List String × Option LoopEnd
  | 0, _, _ => ([], none)
  | fuel + 1, page, episodes =>
      let url := listingUrl programId season page
      match pass (fetch url) page with
      | .threw => ([url], some .threw)
      | .stop batch => ([url], some (.finished (episodes ++ batch)))
      | .next batch =>
          let rest := collectLog fetch programId season fuel (page + 1) (episodes ++ batch)
          (url :: rest.1, rest.2)

/-- The URLs of the pages `1, ..., k` of a listing, in that order. -/
def pageUrls (programId season : String) (k : Nat) : List String :=
  (List.range k).map (fun j => listingUrl programId season (j + 1))

/-- A listing service of two pages: two episodes on page 1, and on page 2 a
single episode that is not wrapped in an array. -/
def twoPageFetch : String → Reply := fun url =>
  if JS.includes url "&pagina=1&" then
    .response true (some (some
      { resposta := some
          { items := some
              { num := some "2"
                item := .many [⟨"e1", some "1", some "U", none⟩, ⟨"e2", some "2", some "Dos", none⟩] }
            paginacio := some { total_pagines := some "2", total_items := some 3 } } }))
  else
    .response true (some (some
      { resposta := some
          { items := some { num := some "1", item := .single ⟨"e3", some "3", some "Tres", none⟩ }
            paginacio := some { total_pagines := some "2", total_items := some 3 } } }))

/-- A listing service whose pages all hold two episodes and no `paginacio`
object. -/
def unpagedFetch : String → Reply := fun _ =>
  .response true (some (some
    { resposta := some
        { items := some
            { num := some "2"
              item := .many [⟨"e1", some "1", some "U", none⟩, ⟨"e2", some "2", some "Dos", none⟩] }
          paginacio := none } }))

/-- A listing service whose pages all hold one episode and report a total of
zero pages. -/
def zeroPagesFetch : String → Reply := fun _ =>
  .response true (some (some
    { resposta := some
        { items := some { num := some "1", item := .many [⟨"e1", some "1", some "U", none⟩] }
          paginacio := some { total_pagines := some "0", total_items := some 1 } } }))

/-- A sample listing with episode numbers beyond `2^53`: the first two have the
same Number. -/
def bigEpisodes : List Episode :=
  [⟨"a", some "9007199254740993", some "A", none⟩,
   ⟨"b", some "9007199254740992", some "B", none⟩,
   ⟨"c", some "7", some "C", none⟩]

end Episodes

namespace JS

/-- The split of a character list around the first occurrence of a pattern: the
part before it and the part after it. -/
def splitAtFirst (pattern : List Char) : List Char → Option (List Char × List Char)
  | [] => if pattern.isEmpty then some ([], []) else none
  | c :: cs =>
      if pattern.isPrefixOf (c :: cs) then some ([], (c :: cs).drop pattern.length)
      else
        match splitAtFirst pattern cs with
        | some (before, after) => some (c :: before, after)
        | none => none

end JS

namespace SeriesInfo

open Api

/-- An element of `finalProps.imatges`. -/
structure Image where
  rel_name : Option String
  mida : Option String
  text : Option String
deriving DecidableEq, Repr

/-- The object `finalProps` of a structural node. -/
structure FinalProps where
  titol : Option String
  descripcio : Option String
  imatges : Option (List Image)
deriving DecidableEq, Repr

/-- A node of the page structure. -/
structure Node where
  finalProps : Option FinalProps
deriving DecidableEq, Repr

/-- The parsed `__NEXT_DATA__`, as far as the handler reads it: `nodes` is
`nextData?.props?.pageProps?.layout?.structure`, `none` when a link of the path
is missing. -/
structure NextData where
  nodes : Option (List Node)
deriving DecidableEq, Repr

/-- The result of `JSON.parse` together with `JSON.stringify` of it. -/
structure Parsed where
  nextData : NextData
  fullText : String
deriving DecidableEq, Repr

/-- What the `fetch` of the series page leads to: the fetch rejects, or it gives
a response with its `ok` flag and the result of `pageRes.text()` (`none` when it
rejects). -/
inductive PageReply where
  | failed
  | response (ok : Bool) (text : Option String)
deriving DecidableEq, Repr

/-- The services the handler calls. -/
structure Env where
  /-- The `fetch` of the series page. -/
  fetchPage : String → PageReply
  /-- The call `JSON.parse(text)` followed by `JSON.stringify`; `none` when
  `JSON.parse` throws. -/
  parseJson : String → Option Parsed
  /-- The capture of
  `fullText.match(/programatv[_=%5F]{1,6}id[=%5F]{0,3}?(\d{5,12})/i)`; `none`
  when there is no match. -/
  programIdMatch : String → Option String
  /-- The `fetch` of the listing service. -/
  fetchListing : String → Reply

/-- The capture of `url.match(/3cat\.cat\/3cat\/([^/?#]+)/)` on character
lists: the leftmost `3cat.cat/3cat/` that is followed by a character other than
`/`, `?`, `#`, and the run of such characters after it. -/
def slugMatchChars : List Char → Option (List Char)
  | [] => none
  | c :: cs =>
      if ("3cat.cat/3cat/".data).isPrefixOf (c :: cs) then
        let slug := ((c :: cs).drop 14).takeWhile (fun x => x != '/' && x != '?' && x != '#')
        if slug.isEmpty then slugMatchChars cs else some slug
      else slugMatchChars cs

/-- The capture `slugMatch[1]`; `none` when there is no match. -/
def slugMatch (url : String) : Option String :=
  (slugMatchChars url.data).map String.mk

/-- The capture of
`html.match(/<script id="__NEXT_DATA__" type="application\/json">([\s\S]*?)<\/script>/)`:
the text between the first opening tag and the first closing tag after it. -/
def nextDataMatch (html : String) : Option String :=
  match JS.splitAtFirst "<script id=\"__NEXT_DATA__\" type=\"application/json\">".data html.data with
  | some (_, rest) =>
      match JS.splitAtFirst "</script>".data rest with
      | some (inner, _) => some ⟨inner⟩
      | none => none
  | none => none

/-- The URL of the series page. -/
def pageUrl (slug : String) : String :=
  "https://www.3cat.cat/3cat/" ++ slug ++ "/capitols/temporada/1/"

/-- The expression `structure[0]?.finalProps`. -/
def firstProps (nextData : NextData) : Option FinalProps :=
  ((nextData.nodes.getD []).head?).bind (·.finalProps)

/-- The test `i.rel_name === 'IMATGE_169' || i.rel_name === 'imatge_169'`. -/
def isWide (i : Image) : Bool :=
  i.rel_name == some "IMATGE_169" || i.rel_name == some "imatge_169"

/-- The test `i.mida === 'MASTER'`. -/
def isMaster (i : Image) : Bool := i.mida == some "MASTER"

/-- The chain `images.find(wide)?.text || images.find(master)?.text ||
images[0]?.text || null`. -/
def thumbnailOf (images : List Image) : Option String :=
  match JS.truthy ((images.find? isWide).bind (·.text)) with
  | some t => some t
  | none =>
      match JS.truthy ((images.find? isMaster).bind (·.text)) with
      | some t => some t
      | none => JS.truthy (images.head?.bind (·.text))

/-- An element of `seasons`. -/
structure Season where
  num : Nat
  total : Nat
  id : String
  name : String
deriving DecidableEq, Repr

/-- The URL of the probe of a season. -/
def seasonUrl (programId : String) (s : Nat) : String :=
  "https://api.ccma.cat/videos?_format=json&programatv_id=" ++ programId ++
    "&tipus_contingut=PPD&items_pagina=1&pagina=1&version=2.0&temporada=PUTEMP_" ++
    toString s ++ "&https=true"

/-- The callback of `seasonChecks`: the probe of season `s`; `none` is `null`. -/
def seasonCheck (fetch : String → Reply) (programId : String) (s : Nat) : Option Season :=
  match fetch (seasonUrl programId s) with
  | .failed => none
  | .response _ none => none
  | .response _ (some data) =>
      let total := ((paginacioOf data).bind (·.total_items)).getD 0
      if total > 0 then
        some { num := s, total := total, id := "PUTEMP_" ++ toString s,
               name := toString s ++ "a Temporada" }
      else none

/-- The array `Array.from({ length: 15 }, (_, i) => i + 1)`. -/
def seasonNumbers : List Nat := (List.range 15).map (· + 1)

/-- The array `seasons`: the probes in the order of `seasonNumbers`
(`Promise.all` keeps the order of its input), without the `null` results. -/
def seasonsOf (fetch : String → Reply) (programId : String) : List Season :=
  seasonNumbers.filterMap (seasonCheck fetch programId)

/-- The object passed to `res.json` on success. -/
structure Result where
  programId : String
  title : String
  description : String
  slug : String
  thumbnail : Option String
  seasons : List Season
deriving DecidableEq, Repr

/-- The response of the handler. -/
inductive Response where
  | json (status : Nat) (result : Result)
  | error (status : Nat) (message : String)
deriving DecidableEq, Repr

/-- The function `handler(req, res)` of `series-info.js`. -/
def handler (env : Env) (url : Option String) : Response :=
  match JS.truthy url with
  | none => .error 400 "Falta el paràmetre url"
  | some url =>
      match slugMatch url with
      | none => .error 400 "URL no vàlida. Exemple: https://www.3cat.cat/3cat/teo/"
      | some slug =>
          match env.fetchPage (pageUrl slug) with
          | .failed => .error 500 "Error intern del servidor"
          | .response false _ => .error 404 ("Sèrie \"" ++ slug ++ "\" no trobada")
          | .response true none => .error 500 "Error intern del servidor"
          | .response true (some html) =>
              match nextDataMatch html with
              | none => .error 500 "No s'ha pogut extreure les dades de la sèrie"
              | some text =>
                  match env.parseJson text with
                  | none => .error 500 "Error intern del servidor"
                  | some parsed =>
                      match env.programIdMatch parsed.fullText with
                      | none => .error 500 "No s'ha pogut obtenir l'ID del programa"
                      | some programId =>
                          let props := firstProps parsed.nextData
                          let title := JS.orElse (props.bind (·.titol)) slug
                          let description := JS.orElse (props.bind (·.descripcio)) ""
                          let images := (props.bind (·.imatges)).getD []
                          let thumbnail := thumbnailOf images
                          let seasons := seasonsOf env.fetchListing programId
                          if seasons.length = 0 then
                            .error 404 "No s'han trobat temporades per a aquesta sèrie"
                          else
                            .json 200
                              { programId := programId, title := title,
                                description := description, slug := slug,
                                thumbnail := thumbnail, seasons := seasons }

/-- The outcome of the probe of season `s`: the total it reports (0 when the
body has none), or `none` when the probe fails. -/
def probeTotal (fetch : String → Reply) (programId : String) (s : Nat) : Option Nat :=
  match fetch (seasonUrl programId s) with
  | .failed => none
  | .response _ none => none
  | .response _ (some data) => some (((paginacioOf data).bind (·.total_items)).getD 0)

/-- The URL of an image variant: the text of the variant when the variant exists
and its text is not empty. -/
def urlOf (i : Option Image) : Option String :=
  match i with
  | some img =>
      match img.text with
      | some t => if t = "" then none else some t
      | none => none
  | none => none

/-- A sample listing service: seasons 1 and 3 report 26 and 13 items, the
others none. -/
def sampleListing : String → Reply := fun u =>
  if JS.includes u "PUTEMP_1&" then
    .response true (some (some ⟨some ⟨none, some ⟨some "26", some 26⟩⟩⟩))
  else if JS.includes u "PUTEMP_3&" then
    .response true (some (some ⟨some ⟨none, some ⟨some "13", some 13⟩⟩⟩))
  else .response true (some (some ⟨some ⟨none, some ⟨some "0", some 0⟩⟩⟩))

/-- A sample image list: the widescreen variant has no text. -/
def sampleImages : List Image :=
  [⟨some "IMATGE_169", some "670x378", none⟩,
   ⟨none, some "MASTER", some "https://img.3cat.cat/master.jpg"⟩]

/-- A sample environment: the page carries `__NEXT_DATA__` with one structural
node and the program identifier 201088598. -/
def sampleEnv : Env where
  fetchPage := fun _ =>
    .response true
      (some "<script id=\"__NEXT_DATA__\" type=\"application/json\">DATA</script>")
  parseJson := fun _ =>
    some
      { nextData := ⟨some [⟨some ⟨some "Teo", none, some sampleImages⟩⟩]⟩
        fullText := "programatv_id=201088598" }
  programIdMatch := fun _ => some "201088598"
  fetchListing := sampleListing

end SeriesInfo

namespace JS

/-- The method `s.padStart(targetLength, pad)` for a pad of one character (on the
decimal strings it is used for, the number of characters is the JavaScript
length). -/
def padStart (s : String) (targetLength : Nat) (pad : Char) : String :=
  ⟨List.replicate (targetLength - s.length) pad ++ s.data⟩

/-- The integer nearest to a rational; of the two nearest ones, the even one. -/
def roundHalfEven (y : ℚ) : ℤ :=
  if y - ⌊y⌋ < 1 / 2 then ⌊y⌋
  else if 1 / 2 < y - ⌊y⌋ then ⌊y⌋ + 1
  else if ⌊y⌋ % 2 = 0 then ⌊y⌋ else ⌊y⌋ + 1

/-- The Number that an arithmetic operation gives for the exact result `x`: the
double nearest to `x`, the one with the even significand of the two nearest
ones.  With `e` the exponent of `x` (the integer with `2^e ≤ |x| < 2^(e+1)`), the
doubles around `x` are the multiples of `2^(e-52)`.  Overflow and the subnormal
range are left out: the results of the sources stay within the normal range. -/
def toDouble (x : ℚ) : ℚ :=
  (roundHalfEven (x / 2 ^ (Int.log 2 |x| - 52)) : ℚ) * 2 ^ (Int.log 2 |x| - 52)

/-- The function `Math.round` on a Number: the nearest integer, the larger one
of the two nearest ones. -/
def mathRound (x : ℚ) : ℤ := ⌊x + 1 / 2⌋

end JS

namespace Index

open Api

/-- The character class `[/\\?*:<>"|]` of `sanitizeFilename`. -/
def isUnsafeChar (c : Char) : Bool :=
  let n := c.toNat
  n == 0x2F || n == 0x5C || n == 0x3F || n == 0x2A || n == 0x3A || n == 0x3C ||
  n == 0x3E || n == 0x22 || n == 0x7C

/-- The function `sanitizeFilename(name)`. -/
def sanitizeFilename (name : String) : String :=
  JS.trim ⟨name.data.filter (fun c => !isUnsafeChar c)⟩

/-- The test of the class `[-–]`: a hyphen or an en dash. -/
def isDash (c : Char) : Bool := c.toNat == 0x2D || c.toNat == 0x2013

/-- The replacement `rawTitle.replace(/^T\d+xC\d+\s*[-–]\s*/u, '')` on character
lists: a leading `T`, digits, `xC`, digits, white space, one dash and white space
are removed; a title that does not start so is left as it is. -/
def stripTagChars (cs : List Char) : List Char :=
  match cs with
  | 'T' :: r1 =>
      if (r1.takeWhile JS.isDigit).isEmpty then cs
      else
        match r1.dropWhile JS.isDigit with
        | 'x' :: 'C' :: r2 =>
            if (r2.takeWhile JS.isDigit).isEmpty then cs
            else
              match (r2.dropWhile JS.isDigit).dropWhile JS.isTrimChar with
              | dash :: r3 => if isDash dash then r3.dropWhile JS.isTrimChar else cs
              | [] => cs
        | _ => cs
  | _ => cs

/-- The replacement `rawTitle.replace(/^T\d+xC\d+\s*[-–]\s*/u, '')`. -/
def stripTag (rawTitle : String) : String := ⟨stripTagChars rawTitle.data⟩

/-- The argument `episode` of `buildFilename`: a string or an episode object. -/
inductive EpisodeArg where
  | title (s : String)
  | object (e : Episode)
deriving DecidableEq, Repr

/-- The constant `rawTitle` of `buildFilename`. -/
def rawTitleOf (episodeNum : Nat) (episode : EpisodeArg) : String :=
  match episode with
  | .title s => s
  | .object e => JS.orElse e.titol ("Episodi " ++ toString episodeNum)

/-- The variable `episodePart` of `buildFilename`, for a format other than
`titol_complet`. -/
def episodePart (seasonNum episodeNum : Nat) (episode : EpisodeArg) (titleFormat : String) :
    String :=
  if titleFormat = "txcx" then
    let cap :=
      match episode with
      | .object e => JS.orElse e.capitol (toString episodeNum)
      | .title _ => toString episodeNum
    "T" ++ toString seasonNum ++ "xC" ++ cap
  else
    "S" ++ JS.padStart (toString seasonNum) 2 '0' ++ "E" ++
      JS.padStart (toString episodeNum) 2 '0'

/-- The function `buildFilename(seriesTitle, seasonNum, episodeNum, episode,
titleFormat)`. -/
def buildFilename (seriesTitle : String) (seasonNum episodeNum : Nat) (episode : EpisodeArg)
    (titleFormat : String) : String :=
  let rawTitle := rawTitleOf episodeNum episode
  let clean := JS.trim (stripTag rawTitle)
  if titleFormat = "titol_complet" then
    let full :=
      match episode with
      | .object e => JS.orElse e.titol_complet (seriesTitle ++ " - " ++ rawTitle)
      | .title _ => seriesTitle ++ " - " ++ rawTitle
    sanitizeFilename full ++ ".mp4"
  else
    sanitizeFilename
      (seriesTitle ++ " - " ++ episodePart seasonNum episodeNum episode titleFormat ++ " - " ++
        clean) ++ ".mp4"

end Index

namespace Index

open Api

/-- The values of `downloadStatus`: the strings `loading`, `done` and `error`. -/
inductive Status where
  | loading
  | done
  | error
deriving DecidableEq, Repr

/-- A value of `downloadSpeed`: the quotient `(received - lastSpeedBytes) / elapsed`
kept as its two parts, the bytes and the elapsed milliseconds. -/
structure Speed where
  bytes : Nat
  elapsedMs : Nat
deriving DecidableEq, Repr

/-- The four state maps of the page and the controllers of
`abortControllersRef.current`, all keyed by episode id; for a controller the
value tells whether its signal is aborted. -/
structure Store where
  downloadStatus : String → Option Status
  downloadProgress : String → Option Int
  downloadSpeed : String → Option Speed
  downloadTotalBytes : String → Option Int
  abortControllers : String → Option Bool

/-- The updates of a map at one key: `{ ...prev, [id]: v }` for `some v`, and
`cleanExtra` (`delete next[id]`) for `none`. -/
def update {β : Type} (m : String → Option β) (id : String) (v : Option β) :
    String → Option β :=
  fun k => if k = id then v else m k

/-- What the page does besides updating its maps. -/
inductive Effect where
  /-- A `fetch` is issued. -/
  | request (url : String)
  /-- The click on the link to the blob, with its `download` attribute. -/
  | save (filename : String)
  /-- The click on the link to the media URL (the fallback). -/
  | navigate (url : String)
deriving DecidableEq, Repr

/-- The `await` at which a call of `handleDownloadEpisode` is suspended, with the
local variables that are live there. -/
inductive Phase where
  /-- The awaits `await fetch('/api/video-url?id=...')` and `await res.json()`. -/
  | resolving
  /-- The await `await fetch(data.best.url, ...)`. -/
  | fetching (filename url : String)
  /-- The await `await reader.read()`. -/
  | reading (filename url : String) (total : Option Int) (received lastSpeedTime
      lastSpeedBytes : Nat)
deriving DecidableEq, Repr

/-- A call of `handleDownloadEpisode` that is in flight. -/
structure Attempt where
  id : String
  episode : Episode
  episodeNum : Nat
  seasonNum : Nat
  seriesTitle : String
  titleFormat : String
  phase : Phase
deriving DecidableEq, Repr

/-- The page: its store, the calls in flight, the pending `setTimeout(..., 1500)`
callbacks (by episode id) and the effects so far. -/
structure System where
  store : Store
  attempts : List Attempt
  timers : List String
  effects : List Effect

/-- The body of the answer of `/api/video-url` as the page reads it. -/
structure VideoData where
  best : Option VideoUrl.Video
  titol_complet : Option String
deriving DecidableEq, Repr

/-- How the resolution (`fetch` and `res.json()`) settles. -/
inductive Resolution where
  | abortError
  | failure
  | response (ok : Bool) (data : VideoData)
deriving DecidableEq, Repr

/-- How the `fetch` of the media settles; `now` is the `Date.now()` read after
it. -/
inductive Fetched where
  | abortError
  | failure
  | response (ok : Bool) (contentLength : Option String) (now : Nat)
deriving DecidableEq, Repr

/-- How a `reader.read()` settles; `now` is the `Date.now()` read after a chunk. -/
inductive ReadResult where
  | chunk (length now : Nat)
  | done
  | abortError
  | failure
deriving DecidableEq, Repr

/-- What happens to the page: the two actions of the user, and the settling of
the `await` of the call at position `i` of the calls in flight, or the firing of
the pending timer at position `i`. -/
inductive Event where
  /-- The call `handleDownloadEpisode(episode, episodeNum, seasonNum, seriesTitle)`,
  with the `titleFormat` of the page. -/
  | download (episode : Episode) (episodeNum seasonNum : Nat) (seriesTitle titleFormat : String)
  /-- The call `handleAbortDownload(id)`. -/
  | abort (id : String)
  | resolved (i : Nat) (r : Resolution)
  | fetched (i : Nat) (r : Fetched)
  | read (i : Nat) (r : ReadResult)
  | timer (i : Nat)
deriving DecidableEq, Repr

/-- The `catch` branch for an `AbortError`, followed by the `finally`. -/
def endAborted (s : System) (i : Nat) (id : String) : System :=
  { s with
    store :=
      { downloadStatus := update s.store.downloadStatus id none
        downloadProgress := update s.store.downloadProgress id none
        downloadSpeed := update s.store.downloadSpeed id none
        downloadTotalBytes := update s.store.downloadTotalBytes id none
        abortControllers := update s.store.abortControllers id none }
    attempts := s.attempts.eraseIdx i }

/-- The `catch` branch for another error, followed by the `finally`. -/
def endFailed (s : System) (i : Nat) (id : String) : System :=
  { s with
    store :=
      { downloadStatus := update s.store.downloadStatus id (some .error)
        downloadProgress := update s.store.downloadProgress id none
        downloadSpeed := update s.store.downloadSpeed id none
        downloadTotalBytes := update s.store.downloadTotalBytes id none
        abortControllers := update s.store.abortControllers id none }
    attempts := s.attempts.eraseIdx i }

/-- The statements after the inner `try`: progress 100, the speed removed, the
timer set; followed by the `finally`.  `effect` is the click made just before:
the save of the blob, or the fallback navigation of the inner `catch`. -/
def endCompleted (s : System) (i : Nat) (id : String) (effect : Effect) : System :=
  { store :=
      { s.store with
        downloadProgress := update s.store.downloadProgress id (some 100)
        downloadSpeed := update s.store.downloadSpeed id none
        abortControllers := update s.store.abortControllers id none }
    attempts := s.attempts.eraseIdx i
    timers := s.timers ++ [id]
    effects := s.effects ++ [effect] }

/-- The expression `Math.min(Math.round((received / total) * 100), 99)` for a
truthy `total`: the quotient and the product are Numbers, each the double
nearest to the exact result; `received` and `total` are taken as they are, which
they are below `2^53`. -/
def percent (received : Nat) (total : Int) : Int :=
  min (JS.mathRound (JS.toDouble (JS.toDouble ((received : ℚ) / (total : ℚ)) * 100))) 99

/-- The formula of the specification, `min(round(100 * received / total), 99)`,
in exact arithmetic, with the rounding of `Math.round`. -/
def percentExact (received : Nat) (total : Int) : Int :=
  min (JS.mathRound (100 * (received : ℚ) / (total : ℚ))) 99

/-- The constant `total`: `contentLength ? parseInt(contentLength, 10) : null`;
`none` is `null` or `NaN`. -/
def totalOf (contentLength : Option String) : Option Int :=
  match JS.truthy contentLength with
  | some s => JS.parseIntString s 10
  | none => none

/-- The test `if (total)`: the value when it is truthy. -/
def truthyTotal (total : Option Int) : Option Int :=
  match total with
  | some t => if t = 0 then none else some t
  | none => none

/-- One event of the page. -/
def step (s : System) : Event → System
  | .download episode episodeNum seasonNum seriesTitle titleFormat =>
      let id := episode.id
      match s.store.abortControllers id with
      | some _ =>
          { s with store := { s.store with
              abortControllers := update s.store.abortControllers id (some true) } }
      | none =>
          { s with
            store := { s.store with
              abortControllers := update s.store.abortControllers id (some false)
              downloadStatus := update s.store.downloadStatus id (some .loading) }
            attempts := s.attempts ++
              [{ id := id, episode := episode, episodeNum := episodeNum, seasonNum := seasonNum,
                 seriesTitle := seriesTitle, titleFormat := titleFormat, phase := .resolving }]
            effects := s.effects ++ [.request ("/api/video-url?id=" ++ id)] }
  | .abort id =>
      match s.store.abortControllers id with
      | some _ =>
          { s with store := { s.store with
              abortControllers := update s.store.abortControllers id (some true) } }
      | none => s
  | .resolved i r =>
      match s.attempts.get? i with
      | some a =>
          match a.phase, r with
          | .resolving, .abortError => endAborted s i a.id
          | .resolving, .failure => endFailed s i a.id
          | .resolving, .response ok data =>
              match data.best with
              | some best =>
                  if ok then
                    let enriched : Episode :=
                      match JS.truthy data.titol_complet with
                      | some t => { a.episode with titol_complet := some t }
                      | none => a.episode
                    let filename :=
                      buildFilename a.seriesTitle a.seasonNum a.episodeNum (.object enriched)
                        a.titleFormat
                    { s with
                      attempts := s.attempts.set i { a with phase := .fetching filename best.url }
                      effects := s.effects ++ [.request best.url] }
                  else endFailed s i a.id
              | none => endFailed s i a.id
          | _, _ => s
      | none => s
  | .fetched i r =>
      match s.attempts.get? i with
      | some a =>
          match a.phase, r with
          | .fetching _ _, .abortError => endAborted s i a.id
          | .fetching _ url, .failure => endCompleted s i a.id (.navigate url)
          | .fetching _ url, .response false _ _ => endCompleted s i a.id (.navigate url)
          | .fetching filename url, .response true contentLength now =>
              let total := totalOf contentLength
              { s with
                store := { s.store with
                  downloadProgress := update s.store.downloadProgress a.id (some 0)
                  downloadTotalBytes :=
                    match truthyTotal total with
                    | some t => update s.store.downloadTotalBytes a.id (some t)
                    | none => s.store.downloadTotalBytes }
                attempts :=
                  s.attempts.set i { a with phase := .reading filename url total 0 now 0 } }
          | _, _ => s
      | none => s
  | .read i r =>
      match s.attempts.get? i with
      | some a =>
          match a.phase, r with
          | .reading filename url total received lastSpeedTime lastSpeedBytes,
              .chunk length now =>
              let received := received + length
              let progress :=
                match truthyTotal total with
                | some t => update s.store.downloadProgress a.id (some (percent received t))
                | none => s.store.downloadProgress
              if lastSpeedTime + 500 ≤ now then
                { s with
                  store := { s.store with
                    downloadProgress := progress
                    downloadSpeed :=
                      update s.store.downloadSpeed a.id
                        (some ⟨received - lastSpeedBytes, now - lastSpeedTime⟩) }
                  attempts :=
                    s.attempts.set i
                      { a with phase := .reading filename url total received now received } }
              else
                { s with
                  store := { s.store with downloadProgress := progress }
                  attempts :=
                    s.attempts.set i
                      { a with phase :=
                          .reading filename url total received lastSpeedTime lastSpeedBytes } }
          | .reading filename _ _ _ _ _, .done => endCompleted s i a.id (.save filename)
          | .reading _ _ _ _ _ _, .abortError => endAborted s i a.id
          | .reading _ url _ _ _ _, .failure => endCompleted s i a.id (.navigate url)
          | _, _ => s
      | none => s
  | .timer i =>
      match s.timers.get? i with
      | some id =>
          { s with
            store := { s.store with
              downloadStatus := update s.store.downloadStatus id (some .done)
              downloadProgress := update s.store.downloadProgress id none }
            timers := s.timers.eraseIdx i }
      | none => s

/-- The page before any download. -/
def initial : System :=
  { store :=
      { downloadStatus := fun _ => none, downloadProgress := fun _ => none,
        downloadSpeed := fun _ => none, downloadTotalBytes := fun _ => none,
        abortControllers := fun _ => none }
    attempts := [], timers := [], effects := [] }

/-- The page after a sequence of events. -/
def run (events : List Event) : System := events.foldl step initial

/-- The page after the `reader.read()` calls of the call at position `i` have
delivered the given chunks, each with its length and the time of its arrival. -/
def readChunks (s : System) (i : Nat) (chunks : List (Nat × Nat)) : System :=
  chunks.foldl (fun s c => step s (.read i (.chunk c.1 c.2))) s

/-- A sample episode. -/
def sampleEpisode : Episode := ⟨"e1", some "1", some "T1xC1 - Pilot", none⟩

/-- A sample answer of `/api/video-url`. -/
def sampleVideoData : VideoData :=
  { best := some ⟨"720p", "https://mp4-down-high-es.3catvideos.cat/1.mp4", "MP4", true⟩
    titol_complet := none }

/-- The facts that hold of the page after every sequence of events: a call in
flight has its controller registered, no two calls in flight have the same
episode id, the status of an episode with a call in flight is not `error`, and a
registered controller belongs to a call in flight. -/
def Inv (s : System) : Prop :=
  (∀ a ∈ s.attempts, (s.store.abortControllers a.id).isSome = true) ∧
  (s.attempts.map (·.id)).Nodup ∧
  (∀ a ∈ s.attempts, s.store.downloadStatus a.id ≠ some .error) ∧
  (∀ id, (s.store.abortControllers id).isSome = true → ∃ a ∈ s.attempts, a.id = id)

/-- The event delivers an `AbortError` to the call `a` at position `i`, at the
`await` where it is suspended. -/
def IsAbortOf (i : Nat) (a : Attempt) (ev : Event) : Prop :=
  (a.phase = .resolving ∧ ev = .resolved i .abortError) ∨
  (∃ filename url, a.phase = .fetching filename url ∧ ev = .fetched i .abortError) ∨
  (∃ filename url total received lastSpeedTime lastSpeedBytes,
    a.phase = .reading filename url total received lastSpeedTime lastSpeedBytes ∧
    ev = .read i .abortError)

/-- The event makes the resolution of the call `a` at position `i` fail: the
request fails for another reason than an abort, the answer is not `ok`, or it
has no best variant. -/
def IsResolutionFailureOf (i : Nat) (a : Attempt) (ev : Event) : Prop :=
  a.phase = .resolving ∧
  (ev = .resolved i .failure ∨ (∃ data, ev = .resolved i (.response false data)) ∨
    (∃ ok data, data.best = none ∧ ev = .resolved i (.response ok data)))

/-- The event makes the direct transfer of the call `a` at position `i` fail, for
another reason than an abort: the `fetch` of `url` fails or answers with a status
that is not `ok`, or a `reader.read()` fails. -/
def IsTransferFailureOf (i : Nat) (a : Attempt) (url : String) (ev : Event) : Prop :=
  (∃ filename, a.phase = .fetching filename url ∧
    (ev = .fetched i .failure ∨
      ∃ contentLength now, ev = .fetched i (.response false contentLength now))) ∨
  (∃ filename total received lastSpeedTime lastSpeedBytes,
    a.phase = .reading filename url total received lastSpeedTime lastSpeedBytes ∧
    ev = .read i .failure)

/-- A sample run: a download whose direct transfer fails. -/
def failedTransfer : List Event :=
  [.download sampleEpisode 1 1 "Teo" "txcx", .resolved 0 (.response true sampleVideoData),
   .fetched 0 .failure]

/-- A sample run: a download whose transfer fails after the first chunk. -/
def failedRead : List Event :=
  [.download sampleEpisode 1 1 "Teo" "txcx", .resolved 0 (.response true sampleVideoData),
   .fetched 0 (.response true (some "1000") 0), .read 0 (.chunk 100 10), .read 0 .failure]

/-- A sample run: a download whose transfer has started, with a `Content-Length`
of 200 bytes. -/
def startedTransfer : List Event :=
  [.download sampleEpisode 1 1 "Teo" "txcx", .resolved 0 (.response true sampleVideoData),
   .fetched 0 (.response true (some "200") 0)]

/-- The call in flight after `handleDownloadEpisode(sampleEpisode, 1, 1, 'Teo')`. -/
def sampleAttempt : Attempt :=
  { id := "e1", episode := sampleEpisode, episodeNum := 1, seasonNum := 1, seriesTitle := "Teo",
    titleFormat := "txcx", phase := .resolving }

end Index

namespace JS

/-! ## The sort -/

theorem insertSorted_perm {α : Type} (cmp : α → α → Int) (x : α) (l : List α) :
    (insertSorted cmp x l).Perm (x :: l) := by
  induction l with
  | nil => exact List.Perm.refl _
  | cons y ys ih =>
    unfold insertSorted
    split
    · exact List.Perm.refl _
    · exact (List.Perm.cons y ih).trans (List.Perm.swap x y ys)

theorem sort_perm {α : Type} (cmp : α → α → Int) (l : List α) : (sort cmp l).Perm l := by
  induction l with
  | nil => exact List.Perm.refl _
  | cons x xs ih =>
    unfold sort
    exact (insertSorted_perm cmp x (sort cmp xs)).trans (List.Perm.cons x ih)

theorem insertSorted_pairwise {α : Type} (cmp : α → α → Int)
    (htotal : ∀ a b, cmp a b ≤ 0 ∨ cmp b a ≤ 0)
    (htrans : ∀ a b c, cmp a b ≤ 0 → cmp b c ≤ 0 → cmp a c ≤ 0) (x : α) (l : List α)
    (hl : l.Pairwise (fun a b => cmp a b ≤ 0)) :
    (insertSorted cmp x l).Pairwise (fun a b => cmp a b ≤ 0) := by
  induction l with
  | nil => simp [insertSorted]
  | cons y ys ih =>
    rw [List.pairwise_cons] at hl
    unfold insertSorted
    split
    · rename_i hxy
      rw [List.pairwise_cons]
      refine ⟨?_, List.pairwise_cons.2 hl⟩
      intro z hz
      rcases List.mem_cons.1 hz with rfl | hz
      · exact hxy
      · exact htrans x y z hxy (hl.1 z hz)
    · rename_i hxy
      rw [List.pairwise_cons]
      refine ⟨?_, ih hl.2⟩
      intro z hz
      have hz' : z ∈ x :: ys := (insertSorted_perm cmp x ys).subset hz
      rcases List.mem_cons.1 hz' with rfl | hz'
      · rcases htotal z y with h | h
        · exact absurd h hxy
        · exact h
      · exact hl.1 z hz'

theorem sort_pairwise {α : Type} (cmp : α → α → Int)
    (htotal : ∀ a b, cmp a b ≤ 0 ∨ cmp b a ≤ 0)
    (htrans : ∀ a b c, cmp a b ≤ 0 → cmp b c ≤ 0 → cmp a c ≤ 0) (l : List α) :
    (sort cmp l).Pairwise (fun a b => cmp a b ≤ 0) := by
  induction l with
  | nil => exact List.Pairwise.nil
  | cons x xs ih =>
    unfold sort
    exact insertSorted_pairwise cmp htotal htrans x (sort cmp xs) ih

end JS

namespace JS

/-! ## The Numbers of `parseInt` -/

theorem Num.le_refl (x : Num) : Num.le x x = true := by
  cases x <;> simp [Num.le]

/-- The order `<=` of the Numbers spelled out: that of the integers on the
finite ones, with `-Infinity` below them and `Infinity` above them. -/
theorem Num.le_spec :
    (∀ x y : Int, Num.le (.finite x) (.finite y) = true ↔ x ≤ y) ∧
    (∀ x : Num, Num.le x .infinity = true) ∧
    (∀ x : Int, Num.le .infinity (.finite x) = false) ∧
    (∀ x : Num, Num.le .negInfinity x = true) ∧
    (∀ x : Int, Num.le (.finite x) .negInfinity = false) ∧
    Num.le .infinity .negInfinity = false := by
  refine ⟨fun x y => by simp [Num.le], fun x => by cases x <;> rfl, fun _ => rfl,
    fun x => by cases x <;> rfl, fun _ => rfl, rfl⟩

theorem Num.le_total (x y : Num) : Num.le x y = true ∨ Num.le y x = true := by
  cases x <;> cases y <;> simp [Num.le]
  omega

theorem Num.le_trans {x y z : Num} (h1 : Num.le x y = true) (h2 : Num.le y z = true) :
    Num.le x z = true := by
  cases x <;> cases y <;> cases z <;> simp [Num.le] at h1 h2 ⊢
  omega

theorem Num.le_antisymm {x y : Num} (h1 : Num.le x y = true) (h2 : Num.le y x = true) :
    x = y := by
  cases x <;> cases y <;> simp [Num.le] at h1 h2 ⊢
  omega

/-- The sort takes `x` as not after `y` exactly when `x <= y`. -/
theorem Num.sortSign_le (x y : Num) : Num.sortSign x y ≤ 0 ↔ Num.le x y = true := by
  cases x <;> cases y <;> simp [Num.sortSign, Num.le]
  rename_i a b
  rcases lt_trichotomy (a - b) 0 with h | h | h
  · rw [Int.sign_eq_neg_one_of_neg h]
    constructor <;> intro <;> omega
  · rw [h, Int.sign_zero]
    constructor <;> intro <;> omega
  · rw [Int.sign_eq_one_of_pos h]
    constructor <;> intro <;> omega

theorem roundingUnit_spec (n : Nat) :
    ∀ (fuel u : Nat), (∃ k, u = 2 ^ k) → (u = 1 ∨ 2 ^ 52 * u ≤ n) →
      n < 2 ^ 53 * u * 2 ^ fuel →
      (∃ k, roundingUnit n fuel u = 2 ^ k) ∧ n < 2 ^ 53 * roundingUnit n fuel u ∧
        (roundingUnit n fuel u = 1 ∨ 2 ^ 52 * roundingUnit n fuel u ≤ n)
  | 0, u, hk, hu, hn => by
      simp only [roundingUnit]
      exact ⟨hk, by simpa using hn, hu⟩
  | fuel + 1, u, hk, hu, hn => by
      simp only [roundingUnit]
      split
      · next h => exact ⟨hk, h, hu⟩
      · next h =>
          obtain ⟨k, rfl⟩ := hk
          refine roundingUnit_spec n fuel (2 * 2 ^ k) ⟨k + 1, by ring⟩ (Or.inr ?_) ?_
          · omega
          · calc n < 2 ^ 53 * 2 ^ k * 2 ^ (fuel + 1) := hn
              _ = 2 ^ 53 * (2 * 2 ^ k) * 2 ^ fuel := by ring

/-- The unit in which `nearestDouble` rounds: a power of two `u` with
`n < 2^53 * u`, and with `2^52 * u ≤ n` unless it is 1. -/
theorem roundingUnit_nearest (n : Nat) :
    (∃ k, roundingUnit n n 1 = 2 ^ k) ∧ n < 2 ^ 53 * roundingUnit n n 1 ∧
      (roundingUnit n n 1 = 1 ∨ 2 ^ 52 * roundingUnit n n 1 ≤ n) := by
  refine roundingUnit_spec n n 1 ⟨0, rfl⟩ (Or.inl rfl) ?_
  have h : n < 2 ^ n := Nat.lt_two_pow n
  have h53 : 1 ≤ 2 ^ 53 := Nat.one_le_two_pow
  calc n < 2 ^ n := h
    _ = 1 * 1 * 2 ^ n := by ring
    _ ≤ 2 ^ 53 * 1 * 2 ^ n := by gcongr

/-- The rounding to a multiple of `u`: the result is a multiple of `u` at a
distance of at most `u / 2`. -/
theorem roundToMultiple_spec (n u : Nat) (hu : 0 < u) :
    (∃ q, roundToMultiple n u = q * u) ∧ 2 * roundToMultiple n u ≤ 2 * n + u ∧
      2 * n ≤ 2 * roundToMultiple n u + u := by
  have hdm := Nat.div_add_mod n u
  have hm := Nat.mod_lt n hu
  have hq : u * (n / u) = n / u * u := Nat.mul_comm _ _
  have hs : (n / u + 1) * u = n / u * u + u := by ring
  unfold roundToMultiple
  split_ifs
  · exact ⟨⟨_, rfl⟩, by omega, by omega⟩
  · exact ⟨⟨_, rfl⟩, by omega, by omega⟩
  · exact ⟨⟨_, rfl⟩, by omega, by omega⟩
  · exact ⟨⟨_, rfl⟩, by omega, by omega⟩

theorem roundToMultiple_of_dvd (n u : Nat) (hu : 0 < u) (h : u ∣ n) :
    roundToMultiple n u = n := by
  have hm : n % u = 0 := Nat.mod_eq_zero_of_dvd h
  have hd : n / u * u = n := Nat.div_mul_cancel h
  unfold roundToMultiple
  rw [hm, if_pos (by omega), hd]

/-- Below `2^53`, and at `2^53`, the nearest double is the number itself. -/
theorem nearestDouble_exact (n : Nat) (h : n ≤ 2 ^ 53) : nearestDouble n = n := by
  rcases Nat.lt_or_eq_of_le h with hlt | heq
  · have hu : roundingUnit n n 1 = 1 := by
      cases n with
      | zero => rfl
      | succ m =>
        simp only [roundingUnit]
        rw [if_pos (by omega)]
    unfold nearestDouble
    rw [hu]
    exact roundToMultiple_of_dvd n 1 (by decide) (one_dvd n)
  · subst heq
    decide

/-- The nearest double is at a relative distance of at most `2^-53`. -/
theorem nearestDouble_error (n : Nat) :
    2 ^ 53 * nearestDouble n ≤ (2 ^ 53 + 1) * n ∧ (2 ^ 53 - 1) * n ≤ 2 ^ 53 * nearestDouble n := by
  obtain ⟨⟨k, hk⟩, hlt, hge⟩ := roundingUnit_nearest n
  have hu : 0 < roundingUnit n n 1 := by rw [hk]; exact Nat.two_pow_pos k
  rcases hge with h1 | hge
  · have hex : nearestDouble n = n := by
      unfold nearestDouble
      rw [h1]
      exact roundToMultiple_of_dvd n 1 (by decide) (one_dvd n)
    rw [hex]
    constructor <;> omega
  · obtain ⟨_, h2, h3⟩ := roundToMultiple_spec n (roundingUnit n n 1) hu
    unfold nearestDouble
    constructor <;> omega

end JS

namespace JS

theorem two_pow_le (k m : Nat) (h : k ≤ m) : 2 ^ k ≤ 2 ^ m :=
  Nat.pow_le_pow_right (by decide) h

theorem doubleBound_eq : doubleBound = 2 ^ 1024 := by
  unfold doubleBound
  rw [← pow_mul]

theorem numberOfNat_exact (n : Nat) (h : n ≤ 2 ^ 53) : numberOfNat n = .finite n := by
  have hb : 2 ^ 53 < doubleBound := by decide
  unfold numberOfNat
  rw [nearestDouble_exact n h, if_pos (by omega)]

theorem numberOfNat_cases (n : Nat) :
    (numberOfNat n = .finite (nearestDouble n) ∧ nearestDouble n < doubleBound) ∨
      (numberOfNat n = .infinity ∧ doubleBound ≤ nearestDouble n) := by
  unfold numberOfNat
  split
  · next h => exact Or.inl ⟨rfl, h⟩
  · next h => exact Or.inr ⟨rfl, by omega⟩

/-- The nearest double is beyond the doubles exactly from `2^1024 - 2^970` on. -/
theorem doubleBound_le_nearestDouble (n : Nat) :
    doubleBound ≤ nearestDouble n ↔ 2 ^ 1024 - 2 ^ 970 ≤ n := by
  obtain ⟨⟨k, hk⟩, hlt, hge⟩ := roundingUnit_nearest n
  have hu : 0 < roundingUnit n n 1 := by rw [hk]; exact Nat.two_pow_pos k
  obtain ⟨⟨q, hq⟩, h2, h3⟩ := roundToMultiple_spec n (roundingUnit n n 1) hu
  have hdef : nearestDouble n = roundToMultiple n (roundingUnit n n 1) := rfl
  rw [doubleBound_eq, hdef]
  -- the powers of two that matter, as multiples of `H = 2^970`
  obtain ⟨H, hH⟩ : ∃ H, H = (2 ^ 97) ^ 10 := ⟨_, rfl⟩
  have h970 : (2 ^ 97) ^ 10 = 2 ^ 970 := by rw [← pow_mul]
  rw [h970] at hH
  have e971 : 2 ^ 971 = 2 * H := by rw [hH]; ring
  have e972 : 2 ^ 972 = 4 * H := by rw [hH]; ring
  have e1023 : 2 ^ 1023 = 2 ^ 53 * H := by rw [hH, ← pow_add]
  have e1024 : 2 ^ 1024 = 2 ^ 54 * H := by rw [hH, ← pow_add]
  have e52 : 2 ^ 52 * (4 * H) = 2 ^ 54 * H := by ring
  rw [e1024, ← hH]
  -- the unit is at most `2^970`, is `2^971`, or is at least `2^972`
  have hcases : roundingUnit n n 1 ≤ H ∨ roundingUnit n n 1 = 2 * H ∨
      4 * H ≤ roundingUnit n n 1 := by
    rw [hk]
    rcases Nat.lt_trichotomy k 971 with h | h | h
    · left
      rw [hH]
      exact two_pow_le k 970 (by omega)
    · right; left
      rw [h, e971]
    · right; right
      rw [← e972]
      exact two_pow_le 972 k (by omega)
  rcases hcases with hc | hc | hc
  · -- small unit: the number is below `2^53 * 2^970`, and so is its double
    have hn : n < 2 ^ 53 * H := lt_of_lt_of_le hlt (Nat.mul_le_mul_left _ hc)
    constructor
    · intro h
      omega
    · intro h
      omega
  · -- the unit `2^971`
    rw [hc] at hlt hge h2 h3 hq ⊢
    have hge' : 2 ^ 52 * (2 * H) ≤ n := by
      rcases hge with h | h
      · omega
      · exact h
    constructor
    · intro h
      omega
    · intro h
      have hdiv : n / (2 * H) = 2 ^ 53 - 1 := by
        apply Nat.div_eq_of_lt_le
        · omega
        · omega
      have hmod : n % (2 * H) = n - (2 ^ 53 - 1) * (2 * H) := by
        have := Nat.div_add_mod n (2 * H)
        rw [hdiv] at this
        omega
      unfold roundToMultiple
      rw [hdiv, hmod]
      split_ifs <;> first | omega | (exfalso; assumption)
  · -- large unit: the number is at least `2^52 * 2^972`
    have hge' : 2 ^ 52 * roundingUnit n n 1 ≤ n := by
      rcases hge with h | h
      · omega
      · exact h
    have hn : 2 ^ 54 * H ≤ n := by
      calc 2 ^ 54 * H = 2 ^ 52 * (4 * H) := e52.symm
        _ ≤ 2 ^ 52 * roundingUnit n n 1 := Nat.mul_le_mul_left _ hc
        _ ≤ n := hge'
    constructor
    · intro _
      omega
    · intro _
      rw [hq] at h3 ⊢
      have hq52 : 2 ^ 52 ≤ q := by
        by_contra hcon
        have hq' : q + 1 ≤ 2 ^ 52 := by omega
        have : (q + 1) * roundingUnit n n 1 ≤ 2 ^ 52 * roundingUnit n n 1 :=
          Nat.mul_le_mul_right _ hq'
        have hs : (q + 1) * roundingUnit n n 1 = q * roundingUnit n n 1 + roundingUnit n n 1 := by
          ring
        omega
      calc 2 ^ 54 * H = 2 ^ 52 * (4 * H) := e52.symm
        _ ≤ q * roundingUnit n n 1 := Nat.mul_le_mul hq52 hc

theorem numberOfNat_infinity_iff (n : Nat) :
    numberOfNat n = .infinity ↔ 2 ^ 1024 - 2 ^ 970 ≤ n := by
  rw [← doubleBound_le_nearestDouble]
  rcases numberOfNat_cases n with ⟨h, hlt⟩ | ⟨h, hge⟩
  · rw [h]
    constructor
    · intro hh; cases hh
    · intro hh; omega
  · rw [h]
    exact ⟨fun _ => hge, fun _ => rfl⟩

end JS

namespace Download

/-! ## Unfolding `fetchUrl` -/

theorem fetchUrl_over_limit (rt : Runtime) (net : Nat → String → NetResult) (url : String)
    (n : Nat) (hn : MAX_REDIRECTS < n) :
    fetchUrl rt net url n = ⟨[], .rejected .tooManyRedirects⟩ := by
  rw [fetchUrl]; simp [hn]

theorem fetchUrl_not_allowed (rt : Runtime) (net : Nat → String → NetResult) (url : String)
    (n : Nat) (hn : n ≤ MAX_REDIRECTS) (hd : isDomainAllowed rt url = false) :
    fetchUrl rt net url n = ⟨[], .rejected (.domainNotAllowed url)⟩ := by
  rw [fetchUrl]; simp [Nat.not_lt.mpr hn, hd]

theorem fetchUrl_network_error (rt : Runtime) (net : Nat → String → NetResult) (url : String)
    (n : Nat) (hn : n ≤ MAX_REDIRECTS) (hd : isDomainAllowed rt url = true) (message : String)
    (hr : net n url = .error message) :
    fetchUrl rt net url n = ⟨[url], .rejected (.network message)⟩ := by
  rw [fetchUrl]; simp [Nat.not_lt.mpr hn, hd, hr]

theorem fetchUrl_terminal (rt : Runtime) (net : Nat → String → NetResult) (url : String)
    (n : Nat) (hn : n ≤ MAX_REDIRECTS) (hd : isDomainAllowed rt url = true)
    (res : UpstreamResponse) (hr : net n url = .response res)
    (hs : isRedirectStatus res.statusCode = false) :
    fetchUrl rt net url n = ⟨[url], .resolved res⟩ := by
  rw [fetchUrl]; simp [Nat.not_lt.mpr hn, hd, hr, hs]

theorem fetchUrl_missing_location (rt : Runtime) (net : Nat → String → NetResult) (url : String)
    (n : Nat) (hn : n ≤ MAX_REDIRECTS) (hd : isDomainAllowed rt url = true)
    (res : UpstreamResponse) (hr : net n url = .response res)
    (hs : isRedirectStatus res.statusCode = true)
    (hl : JS.truthy (res.header "location") = none) :
    fetchUrl rt net url n = ⟨[url], .rejected .missingLocation⟩ := by
  rw [fetchUrl]; simp [Nat.not_lt.mpr hn, hd, hr, hs, hl]

theorem fetchUrl_unresolvable (rt : Runtime) (net : Nat → String → NetResult) (url : String)
    (n : Nat) (hn : n ≤ MAX_REDIRECTS) (hd : isDomainAllowed rt url = true)
    (res : UpstreamResponse) (hr : net n url = .response res)
    (hs : isRedirectStatus res.statusCode = true) (location : String)
    (hl : JS.truthy (res.header "location") = some location)
    (hx : nextUrl rt location url = none) :
    fetchUrl rt net url n = ⟨[url], .uncaught⟩ := by
  rw [fetchUrl]; simp [Nat.not_lt.mpr hn, hd, hr, hs, hl, hx]

theorem fetchUrl_follow (rt : Runtime) (net : Nat → String → NetResult) (url : String)
    (n : Nat) (hn : n ≤ MAX_REDIRECTS) (hd : isDomainAllowed rt url = true)
    (res : UpstreamResponse) (hr : net n url = .response res)
    (hs : isRedirectStatus res.statusCode = true) (location next : String)
    (hl : JS.truthy (res.header "location") = some location)
    (hx : nextUrl rt location url = some next) :
    fetchUrl rt net url n =
      ⟨url :: (fetchUrl rt net next (n + 1)).requests, (fetchUrl rt net next (n + 1)).outcome⟩ := by
  rw [fetchUrl]; simp [Nat.not_lt.mpr hn, hd, hr, hs, hl, hx]

/-- Every run of `fetchUrl` falls under one of the seven cases above. -/
theorem fetchUrl_cases (rt : Runtime) (net : Nat → String → NetResult) (url : String) (n : Nat) :
    (MAX_REDIRECTS < n ∧ fetchUrl rt net url n = ⟨[], .rejected .tooManyRedirects⟩) ∨
    (n ≤ MAX_REDIRECTS ∧ isDomainAllowed rt url = false ∧
      fetchUrl rt net url n = ⟨[], .rejected (.domainNotAllowed url)⟩) ∨
    (n ≤ MAX_REDIRECTS ∧ isDomainAllowed rt url = true ∧
      ((∃ message, net n url = .error message ∧
          fetchUrl rt net url n = ⟨[url], .rejected (.network message)⟩) ∨
       (∃ res, net n url = .response res ∧ isRedirectStatus res.statusCode = false ∧
          fetchUrl rt net url n = ⟨[url], .resolved res⟩) ∨
       (∃ res, net n url = .response res ∧ isRedirectStatus res.statusCode = true ∧
          JS.truthy (res.header "location") = none ∧
          fetchUrl rt net url n = ⟨[url], .rejected .missingLocation⟩) ∨
       (∃ res location, net n url = .response res ∧ isRedirectStatus res.statusCode = true ∧
          JS.truthy (res.header "location") = some location ∧
          nextUrl rt location url = none ∧
          fetchUrl rt net url n = ⟨[url], .uncaught⟩) ∨
       (∃ res location next, net n url = .response res ∧
          isRedirectStatus res.statusCode = true ∧
          JS.truthy (res.header "location") = some location ∧
          nextUrl rt location url = some next ∧
          fetchUrl rt net url n =
            ⟨url :: (fetchUrl rt net next (n + 1)).requests,
              (fetchUrl rt net next (n + 1)).outcome⟩))) := by
  by_cases hn : MAX_REDIRECTS < n
  · exact Or.inl ⟨hn, fetchUrl_over_limit rt net url n hn⟩
  have hn' : n ≤ MAX_REDIRECTS := Nat.not_lt.mp hn
  cases hd : isDomainAllowed rt url with
  | false => exact Or.inr (Or.inl ⟨hn', rfl, fetchUrl_not_allowed rt net url n hn' hd⟩)
  | true =>
    refine Or.inr (Or.inr ⟨hn', rfl, ?_⟩)
    cases hr : net n url with
    | error message =>
      exact Or.inl ⟨message, rfl, fetchUrl_network_error rt net url n hn' hd message hr⟩
    | response res =>
      cases hs : isRedirectStatus res.statusCode with
      | false =>
        exact Or.inr (Or.inl ⟨res, rfl, hs, fetchUrl_terminal rt net url n hn' hd res hr hs⟩)
      | true =>
        cases hl : JS.truthy (res.header "location") with
        | none =>
          exact Or.inr (Or.inr (Or.inl
            ⟨res, rfl, hs, hl, fetchUrl_missing_location rt net url n hn' hd res hr hs hl⟩))
        | some location =>
          cases hx : nextUrl rt location url with
          | none =>
            exact Or.inr (Or.inr (Or.inr (Or.inl ⟨res, location, rfl, hs, hl, hx,
              fetchUrl_unresolvable rt net url n hn' hd res hr hs location hl hx⟩)))
          | some next =>
            exact Or.inr (Or.inr (Or.inr (Or.inr ⟨res, location, next, rfl, hs, hl, hx,
              fetchUrl_follow rt net url n hn' hd res hr hs location next hl hx⟩)))

/-! ## General facts about `fetchUrl` -/

/-- Only allowed URLs are requested. -/
theorem fetchUrl_requests_allowed (rt : Runtime) (net : Nat → String → NetResult) :
    ∀ (d n : Nat) (url : String), MAX_REDIRECTS + 1 - n ≤ d →
      ∀ u ∈ (fetchUrl rt net url n).requests, isDomainAllowed rt u = true := by
  intro d
  induction d with
  | zero =>
    intro n url h u hu
    have hn : MAX_REDIRECTS < n := by omega
    rw [fetchUrl_over_limit rt net url n hn] at hu
    simp at hu
  | succ d ih =>
    intro n url h u hu
    rcases fetchUrl_cases rt net url n with ⟨_, e⟩ | ⟨_, _, e⟩ | ⟨hn, hd, hc⟩
    · rw [e] at hu; simp at hu
    · rw [e] at hu; simp at hu
    · rcases hc with ⟨_, _, e⟩ | ⟨_, _, _, e⟩ | ⟨_, _, _, _, e⟩ | ⟨_, _, _, _, _, _, e⟩ |
        ⟨_, _, next, _, _, _, _, e⟩
      · rw [e] at hu; simp at hu; rw [hu]; exact hd
      · rw [e] at hu; simp at hu; rw [hu]; exact hd
      · rw [e] at hu; simp at hu; rw [hu]; exact hd
      · rw [e] at hu; simp at hu; rw [hu]; exact hd
      · rw [e] at hu
        simp only [List.mem_cons] at hu
        rcases hu with hu | hu
        · rw [hu]; exact hd
        · exact ih (n + 1) next (by omega) u hu

/-- A run started at redirect count `n` issues at most `MAX_REDIRECTS + 1 - n`
requests. -/
theorem fetchUrl_requests_length (rt : Runtime) (net : Nat → String → NetResult) :
    ∀ (d n : Nat) (url : String), MAX_REDIRECTS + 1 - n ≤ d →
      (fetchUrl rt net url n).requests.length ≤ d := by
  intro d
  induction d with
  | zero =>
    intro n url h
    have hn : MAX_REDIRECTS < n := by omega
    rw [fetchUrl_over_limit rt net url n hn]
    simp
  | succ d ih =>
    intro n url h
    rcases fetchUrl_cases rt net url n with ⟨_, e⟩ | ⟨_, _, e⟩ | ⟨hn, hd, hc⟩
    · rw [e]; simp
    · rw [e]; simp
    · rcases hc with ⟨_, _, e⟩ | ⟨_, _, _, e⟩ | ⟨_, _, _, _, e⟩ | ⟨_, _, _, _, _, _, e⟩ |
        ⟨_, _, next, _, _, _, _, e⟩
      · rw [e]; simp
      · rw [e]; simp
      · rw [e]; simp
      · rw [e]; simp
      · rw [e]
        have := ih (n + 1) next (by omega)
        simpa using this

/-- A response that `fetchUrl` resolves with has no redirect status. -/
theorem fetchUrl_resolved_not_redirect (rt : Runtime) (net : Nat → String → NetResult) :
    ∀ (d n : Nat) (url : String) (res : UpstreamResponse), MAX_REDIRECTS + 1 - n ≤ d →
      (fetchUrl rt net url n).outcome = .resolved res →
      isRedirectStatus res.statusCode = false := by
  intro d
  induction d with
  | zero =>
    intro n url res h ho
    have hn : MAX_REDIRECTS < n := by omega
    rw [fetchUrl_over_limit rt net url n hn] at ho
    simp at ho
  | succ d ih =>
    intro n url res h ho
    rcases fetchUrl_cases rt net url n with ⟨_, e⟩ | ⟨_, _, e⟩ | ⟨hn, hd, hc⟩
    · rw [e] at ho; simp at ho
    · rw [e] at ho; simp at ho
    · rcases hc with ⟨_, _, e⟩ | ⟨r, _, hs, e⟩ | ⟨_, _, _, _, e⟩ | ⟨_, _, _, _, _, _, e⟩ |
        ⟨_, _, next, _, _, _, _, e⟩
      · rw [e] at ho; simp at ho
      · rw [e] at ho
        simp only [Outcome.resolved.injEq] at ho
        rw [← ho]; exact hs
      · rw [e] at ho; simp at ho
      · rw [e] at ho; simp at ho
      · rw [e] at ho
        exact ih (n + 1) next res (by omega) ho

theorem fetchUrl_hop (rt : Runtime) (net : Nat → String → NetResult) (i : Nat) (a b : String)
    (hi : i ≤ MAX_REDIRECTS) (h : Hop rt net i a b) :
    fetchUrl rt net a i =
      ⟨a :: (fetchUrl rt net b (i + 1)).requests, (fetchUrl rt net b (i + 1)).outcome⟩ := by
  obtain ⟨hd, res, location, hr, hs, hl, hx⟩ := h
  exact fetchUrl_follow rt net a i hi hd res hr hs location b hl hx

/-- Along a chain of `k ≤ MAX_REDIRECTS + 1` redirects, the run from `u 0`
requests `u 0, ..., u (k - 1)` and then continues as the run from `u k` at
redirect count `k`. -/
theorem fetchUrl_chain (rt : Runtime) (net : Nat → String → NetResult) (u : Nat → String) :
    ∀ k, k ≤ MAX_REDIRECTS + 1 → Chain rt net u k →
      fetchUrl rt net (u 0) 0 =
        ⟨(List.range k).map u ++ (fetchUrl rt net (u k) k).requests,
          (fetchUrl rt net (u k) k).outcome⟩ := by
  intro k
  induction k with
  | zero => intro _ _; simp
  | succ k ih =>
    intro hk hc
    have hc' : Chain rt net u k := fun i hi => hc i (Nat.lt_succ_of_lt hi)
    rw [ih (Nat.le_of_succ_le hk) hc',
      fetchUrl_hop rt net k (u k) (u (k + 1)) (Nat.le_of_succ_le_succ hk) (hc k (Nat.lt_succ_self k))]
    simp [List.range_succ]

/-! ## The allow-list -/

theorem endsWith_iff (h p : String) : JS.endsWith h p = true ↔ ∃ q : String, h = q ++ p := by
  unfold JS.endsWith
  rw [List.isSuffixOf_iff_suffix]
  constructor
  · rintro ⟨t, ht⟩
    exact ⟨⟨t⟩, String.ext (by simp [ht])⟩
  · rintro ⟨q, rfl⟩
    exact ⟨q.data, by simp⟩

/-- C1: `isDomainAllowed(u)` is true exactly when `u` parses as a URL whose
hostname is one of `3catvideos.cat`, `ccma.cat`, `amazonaws.com` or ends with a
dot followed by one of the three; it is false when `u` does not parse, and false
for the host `evil-3catvideos.cat.example.com`. -/
theorem isDomainAllowed_iff (rt : Runtime) (u : String) :
    (isDomainAllowed rt u = true ↔
      ∃ h, rt.urlHostname u = some h ∧
        (h = "3catvideos.cat" ∨ h = "ccma.cat" ∨ h = "amazonaws.com" ∨
          (∃ q : String, h = q ++ ".3catvideos.cat") ∨ (∃ q : String, h = q ++ ".ccma.cat") ∨
          (∃ q : String, h = q ++ ".amazonaws.com"))) ∧
    (rt.urlHostname u = none → isDomainAllowed rt u = false) ∧
    (rt.urlHostname u = some "evil-3catvideos.cat.example.com" →
      isDomainAllowed rt u = false) := by
  refine ⟨?_, ?_, ?_⟩
  · unfold isDomainAllowed
    cases hh : rt.urlHostname u with
    | none => simp
    | some h =>
      have e1 : ("." ++ "3catvideos.cat" : String) = ".3catvideos.cat" := by decide
      have e2 : ("." ++ "ccma.cat" : String) = ".ccma.cat" := by decide
      have e3 : ("." ++ "amazonaws.com" : String) = ".amazonaws.com" := by decide
      simp only [ALLOWED_DOMAINS, List.any_cons, List.any_nil, Bool.or_false, Bool.or_eq_true,
        beq_iff_eq, endsWith_iff, e1, e2, e3, Option.some.injEq, exists_eq_left']
      tauto
  · intro hh
    simp [isDomainAllowed, hh]
  · intro hh
    unfold isDomainAllowed
    rw [hh]
    decide

theorem isDomainAllowed_iff_witness :
    isDomainAllowed sampleRuntime "https://mp4-down-high-es.3catvideos.cat/a.mp4" = true ∧
    isDomainAllowed sampleRuntime "not a url" = false ∧
    isDomainAllowed sampleRuntime "https://evil-3catvideos.cat.example.com/a.mp4" = false :=
  ⟨(isDomainAllowed_iff sampleRuntime "https://mp4-down-high-es.3catvideos.cat/a.mp4").1.mpr
      ⟨"mp4-down-high-es.3catvideos.cat", by decide,
        Or.inr (Or.inr (Or.inr (Or.inl ⟨"mp4-down-high-es", by decide⟩)))⟩,
   (isDomainAllowed_iff sampleRuntime "not a url").2.1 (by decide),
   (isDomainAllowed_iff sampleRuntime "https://evil-3catvideos.cat.example.com/a.mp4").2.2
      (by decide)⟩

/-! ## The handler's status codes -/

theorem truthy_eq_none (v : Option String) : JS.truthy v = none ↔ v = none ∨ v = some "" := by
  cases v with
  | none => simp [JS.truthy]
  | some s => by_cases h : s = "" <;> simp [JS.truthy, h]

theorem truthy_eq_some (v : Option String) (s : String) :
    JS.truthy v = some s ↔ v = some s ∧ s ≠ "" := by
  cases v with
  | none => simp [JS.truthy]
  | some t =>
    by_cases h : t = ""
    · subst h
      simp only [JS.truthy, if_true]
      constructor
      · intro e; cases e
      · rintro ⟨e, ne⟩; exact absurd (Option.some.inj e).symm ne
    · simp only [JS.truthy, h, if_false, Option.some.injEq]
      constructor
      · intro e; subst e; exact ⟨rfl, h⟩
      · intro e; exact e.1

/-- C2: a request without `url` or `filename` (missing or empty) is answered with
400; otherwise a URL whose host is not allowed is answered with 403 and no
outbound request; otherwise, when `fetchUrl` resolves with a response of status
`s` other than 200, the answer has status `s` and a body naming `s`. -/
theorem handler_status (rt : Runtime) (net : Nat → String → NetResult) (q : Query) :
    ((q.url = none ∨ q.url = some "" ∨ q.filename = none ∨ q.filename = some "") →
      handler rt net q = ⟨[], some ⟨400, [], .text "Falten paràmetres: url i filename"⟩⟩) ∧
    (∀ url filename, q.url = some url → url ≠ "" → q.filename = some filename → filename ≠ "" →
      (isDomainAllowed rt url = false →
        handler rt net q = ⟨[], some ⟨403, [], .text "Domini no permès"⟩⟩) ∧
      (isDomainAllowed rt url = true →
        ∀ res, (fetchUrl rt net url 0).outcome = .resolved res → res.statusCode ≠ 200 →
          (handler rt net q).response =
            some ⟨res.statusCode, [],
              .text ("Error del servidor de vídeo: " ++ toString res.statusCode)⟩)) := by
  constructor
  · intro h
    have h' : JS.truthy q.url = none ∨ JS.truthy q.filename = none := by
      rcases h with h | h | h | h
      · exact Or.inl ((truthy_eq_none _).2 (Or.inl h))
      · exact Or.inl ((truthy_eq_none _).2 (Or.inr h))
      · exact Or.inr ((truthy_eq_none _).2 (Or.inl h))
      · exact Or.inr ((truthy_eq_none _).2 (Or.inr h))
    unfold handler
    rcases h' with h' | h'
    · rw [h']
    · rw [h']
      cases JS.truthy q.url <;> rfl
  · intro url filename hu hu' hf hf'
    have tu : JS.truthy q.url = some url := (truthy_eq_some _ _).2 ⟨hu, hu'⟩
    have tf : JS.truthy q.filename = some filename := (truthy_eq_some _ _).2 ⟨hf, hf'⟩
    constructor
    · intro hd
      simp [handler, tu, tf, hd]
    · intro hd res ho hs
      simp [handler, tu, tf, hd, ho, hs]

theorem handler_status_witness :
    handler sampleRuntime notFoundNet ⟨none, some "a.mp4"⟩ =
      ⟨[], some ⟨400, [], .text "Falten paràmetres: url i filename"⟩⟩ ∧
    handler sampleRuntime notFoundNet ⟨some "https://example.com/a.mp4", some "a.mp4"⟩ =
      ⟨[], some ⟨403, [], .text "Domini no permès"⟩⟩ ∧
    (handler sampleRuntime notFoundNet ⟨some "https://ccma.cat/a.mp4", some "a.mp4"⟩).response =
      some ⟨404, [], .text "Error del servidor de vídeo: 404"⟩ :=
  ⟨(handler_status sampleRuntime notFoundNet ⟨none, some "a.mp4"⟩).1 (Or.inl rfl),
   ((handler_status sampleRuntime notFoundNet ⟨some "https://example.com/a.mp4", some "a.mp4"⟩).2
      "https://example.com/a.mp4" "a.mp4" rfl (by decide) rfl (by decide)).1 (by decide),
   ((handler_status sampleRuntime notFoundNet ⟨some "https://ccma.cat/a.mp4", some "a.mp4"⟩).2
      "https://ccma.cat/a.mp4" "a.mp4" rfl (by decide) rfl (by decide)).2 (by decide)
      ⟨404, []⟩
      (by rw [fetchUrl_terminal sampleRuntime notFoundNet "https://ccma.cat/a.mp4" 0 (by decide)
            (by decide) ⟨404, []⟩ rfl (by decide)])
      (by decide)⟩

theorem evilChain_chain : Chain sampleRuntime evilRedirectNet evilChain 1 := by
  intro i hi
  have hi0 : i = 0 := by omega
  subst hi0
  exact ⟨by decide, ⟨302, [("location", "https://evil.example.com/v.mp4")]⟩,
    "https://evil.example.com/v.mp4", rfl, by decide, by decide, by decide⟩

/-- When `fetchUrl` rejects, the handler answers 500 with the message of the
error. -/
theorem handler_rejected (rt : Runtime) (net : Nat → String → NetResult) (q : Query)
    (url filename : String) (hu : q.url = some url) (hu' : url ≠ "")
    (hf : q.filename = some filename) (hf' : filename ≠ "")
    (hd : isDomainAllowed rt url = true) (err : FetchError)
    (ho : (fetchUrl rt net url 0).outcome = .rejected err) :
    handler rt net q =
      ⟨(fetchUrl rt net url 0).requests,
        some ⟨500, [], .text ("Error en la descàrrega: " ++ err.message)⟩⟩ := by
  have tu : JS.truthy q.url = some url := (truthy_eq_some _ _).2 ⟨hu, hu'⟩
  have tf : JS.truthy q.filename = some filename := (truthy_eq_some _ _).2 ⟨hf, hf'⟩
  simp [handler, tu, tf, hd, ho]

/-- Along a chain of `k ≤ MAX_REDIRECTS` redirects that ends at a URL outside
the allow-list, `fetchUrl` requests the `k` URLs before it and rejects. -/
theorem fetchUrl_chain_not_allowed (rt : Runtime) (net : Nat → String → NetResult)
    (u : Nat → String) (k : Nat) (hk : k ≤ MAX_REDIRECTS) (hc : Chain rt net u k)
    (hbad : isDomainAllowed rt (u k) = false) :
    fetchUrl rt net (u 0) 0 = ⟨(List.range k).map u, .rejected (.domainNotAllowed (u k))⟩ := by
  rw [fetchUrl_chain rt net u k (Nat.le_succ_of_le hk) hc,
    fetchUrl_not_allowed rt net (u k) k hk hbad]
  simp

/-- C3, as stated, fails: a request whose first redirect points outside the
allow-list is answered with 500, not with 403. -/
theorem handler_redirect_rejected_counterexample :
    Chain sampleRuntime evilRedirectNet evilChain 1 ∧
    isDomainAllowed sampleRuntime (evilChain 1) = false ∧
    handler sampleRuntime evilRedirectNet ⟨some "https://ccma.cat/v.mp4", some "v.mp4"⟩ =
      ⟨["https://ccma.cat/v.mp4"],
        some ⟨500, [],
          .text "Error en la descàrrega: Domini no permès: https://evil.example.com/v.mp4"⟩⟩ ∧
    ((handler sampleRuntime evilRedirectNet
        ⟨some "https://ccma.cat/v.mp4", some "v.mp4"⟩).response.map (·.status)) ≠ some 403 := by
  have hrun : fetchUrl sampleRuntime evilRedirectNet "https://ccma.cat/v.mp4" 0 =
      ⟨["https://ccma.cat/v.mp4"],
        .rejected (.domainNotAllowed "https://evil.example.com/v.mp4")⟩ :=
    fetchUrl_chain_not_allowed sampleRuntime evilRedirectNet evilChain 1 (by decide)
      evilChain_chain (by decide)
  have hh := handler_rejected sampleRuntime evilRedirectNet
    ⟨some "https://ccma.cat/v.mp4", some "v.mp4"⟩ "https://ccma.cat/v.mp4" "v.mp4" rfl
    (by decide) rfl (by decide) (by decide) (.domainNotAllowed "https://evil.example.com/v.mp4")
    (by rw [hrun])
  rw [hrun] at hh
  refine ⟨evilChain_chain, by decide, ?_, ?_⟩
  · rw [hh]; decide
  · rw [hh]; decide

/-- C3, amended: a request whose chain of `k` followed redirects (`1 ≤ k ≤ 5`)
ends at a Location outside the allow-list is answered with status 500, no
header, and the body `Error en la descàrrega: Domini no permès: <target>`; the
target itself is not requested.  So is every request for which `fetchUrl`
rejects with the error of a target that is not allowed.  A request whose initial
URL is not allowed is answered with status 403, without any outbound request. -/
theorem handler_redirect_rejected (rt : Runtime) (net : Nat → String → NetResult) (q : Query)
    (url filename : String) (hu : q.url = some url) (hu' : url ≠ "")
    (hf : q.filename = some filename) (hf' : filename ≠ "") :
    (∀ (u : Nat → String) (k : Nat), u 0 = url → 1 ≤ k → k ≤ MAX_REDIRECTS →
      Chain rt net u k → isDomainAllowed rt (u k) = false →
      handler rt net q =
        ⟨(List.range k).map u,
          some ⟨500, [], .text ("Error en la descàrrega: Domini no permès: " ++ u k)⟩⟩ ∧
      u k ∉ (handler rt net q).requests) ∧
    (∀ target, isDomainAllowed rt url = true →
      (fetchUrl rt net url 0).outcome = .rejected (.domainNotAllowed target) →
      handler rt net q =
        ⟨(fetchUrl rt net url 0).requests,
          some ⟨500, [], .text ("Error en la descàrrega: Domini no permès: " ++ target)⟩⟩) ∧
    (isDomainAllowed rt url = false →
      handler rt net q = ⟨[], some ⟨403, [], .text "Domini no permès"⟩⟩) := by
  refine ⟨?_, ?_, ?_⟩
  · intro u k h0 hk1 hk hc hbad
    have hrun := fetchUrl_chain_not_allowed rt net u k hk hc hbad
    rw [h0] at hrun
    have hd : isDomainAllowed rt url = true := by
      rw [← h0]; exact (hc 0 (by omega)).1
    have hh := handler_rejected rt net q url filename hu hu' hf hf' hd (.domainNotAllowed (u k))
      (by rw [hrun])
    rw [hrun] at hh
    refine ⟨hh, ?_⟩
    rw [hh]
    intro hmem
    obtain ⟨i, hi, hiu⟩ := List.mem_map.1 hmem
    have hallowed := (hc i (List.mem_range.1 hi)).1
    rw [hiu, hbad] at hallowed
    exact Bool.false_ne_true hallowed
  · intro target hd ho
    exact handler_rejected rt net q url filename hu hu' hf hf' hd (.domainNotAllowed target) ho
  · intro hd
    have tu : JS.truthy q.url = some url := (truthy_eq_some _ _).2 ⟨hu, hu'⟩
    have tf : JS.truthy q.filename = some filename := (truthy_eq_some _ _).2 ⟨hf, hf'⟩
    simp [handler, tu, tf, hd]

theorem handler_redirect_rejected_witness :
    (handler sampleRuntime evilRedirectNet ⟨some "https://ccma.cat/v.mp4", some "v.mp4"⟩ =
        ⟨(List.range 1).map evilChain,
          some ⟨500, [],
            .text ("Error en la descàrrega: Domini no permès: " ++ evilChain 1)⟩⟩ ∧
      evilChain 1 ∉
        (handler sampleRuntime evilRedirectNet
          ⟨some "https://ccma.cat/v.mp4", some "v.mp4"⟩).requests) ∧
    handler sampleRuntime evilRedirectNet
        ⟨some "https://evil.example.com/v.mp4", some "v.mp4"⟩ =
      ⟨[], some ⟨403, [], .text "Domini no permès"⟩⟩ :=
  ⟨(handler_redirect_rejected sampleRuntime evilRedirectNet
      ⟨some "https://ccma.cat/v.mp4", some "v.mp4"⟩ "https://ccma.cat/v.mp4" "v.mp4"
      rfl (by decide) rfl (by decide)).1 evilChain 1 rfl (by decide) (by decide)
      evilChain_chain (by decide),
    (handler_redirect_rejected sampleRuntime evilRedirectNet
      ⟨some "https://evil.example.com/v.mp4", some "v.mp4"⟩ "https://evil.example.com/v.mp4"
      "v.mp4" rfl (by decide) rfl (by decide)).2.2 (by decide)⟩

/-! ## The redirect limit -/

theorem loopNet_hop (i : Nat) :
    Hop sampleRuntime loopNet i "https://ccma.cat/loop" "https://ccma.cat/loop" :=
  ⟨by decide, ⟨302, [("location", "https://ccma.cat/loop")]⟩, "https://ccma.cat/loop", rfl,
    by decide, by decide, by decide⟩

theorem fiveHopChain_chain : Chain sampleRuntime fiveHopNet fiveHopChain 5 := by
  intro i hi
  have h : i = 0 ∨ i = 1 ∨ i = 2 ∨ i = 3 ∨ i = 4 := by omega
  rcases h with h | h | h | h | h <;> subst h <;>
    exact ⟨by decide, ⟨307, [("location", "/next")]⟩, "/next", rfl, by decide, by decide,
      by decide⟩

/-- On a chain of six redirects `fetchUrl` requests the first six URLs and
rejects with the too-many-redirects error. -/
theorem fetchUrl_chain_over_limit (rt : Runtime) (net : Nat → String → NetResult)
    (u : Nat → String) (hc : Chain rt net u 6) :
    fetchUrl rt net (u 0) 0 = ⟨(List.range 6).map u, .rejected .tooManyRedirects⟩ := by
  rw [fetchUrl_chain rt net u 6 (by decide) hc,
    fetchUrl_over_limit rt net (u 6) 6 (by decide)]
  simp

/-- C4, as stated, fails for redirect responses of status 303.  One 303 response
with a Location on an allowed host, followed by a 200 response (`k = 1`):
`fetchUrl` does not resolve with the 200 response, it resolves with the 303
response after one request.  An endless loop of 303 responses, each with a
Location on an allowed host: `fetchUrl` does not reject with the
too-many-redirects error, it resolves with the first 303 response. -/
theorem fetchUrl_redirect_limit_counterexample :
    ((300 ≤ 303 ∧ 303 ≤ 399) ∧
      seeOtherNet 0 "https://ccma.cat/a.mp4" =
        .response ⟨303, [("location", "https://ccma.cat/b.mp4")]⟩ ∧
      seeOtherNet 1 "https://ccma.cat/b.mp4" = .response ⟨200, []⟩ ∧
      isDomainAllowed sampleRuntime "https://ccma.cat/a.mp4" = true ∧
      isDomainAllowed sampleRuntime "https://ccma.cat/b.mp4" = true ∧
      fetchUrl sampleRuntime seeOtherNet "https://ccma.cat/a.mp4" 0 =
        ⟨["https://ccma.cat/a.mp4"],
          .resolved ⟨303, [("location", "https://ccma.cat/b.mp4")]⟩⟩ ∧
      (fetchUrl sampleRuntime seeOtherNet "https://ccma.cat/a.mp4" 0).outcome ≠
        .resolved ⟨200, []⟩) ∧
    ((∀ i, seeOtherLoopNet i "https://ccma.cat/loop" =
        .response ⟨303, [("location", "https://ccma.cat/loop")]⟩) ∧
      isDomainAllowed sampleRuntime "https://ccma.cat/loop" = true ∧
      fetchUrl sampleRuntime seeOtherLoopNet "https://ccma.cat/loop" 0 =
        ⟨["https://ccma.cat/loop"],
          .resolved ⟨303, [("location", "https://ccma.cat/loop")]⟩⟩ ∧
      (fetchUrl sampleRuntime seeOtherLoopNet "https://ccma.cat/loop" 0).outcome ≠
        .rejected .tooManyRedirects) := by
  have h1 := fetchUrl_terminal sampleRuntime seeOtherNet "https://ccma.cat/a.mp4" 0 (by decide)
    (by decide) ⟨303, [("location", "https://ccma.cat/b.mp4")]⟩ rfl (by decide)
  have h := fetchUrl_terminal sampleRuntime seeOtherLoopNet "https://ccma.cat/loop" 0 (by decide)
    (by decide) ⟨303, [("location", "https://ccma.cat/loop")]⟩ rfl (by decide)
  refine ⟨⟨by decide, rfl, rfl, by decide, by decide, h1, ?_⟩, fun _ => rfl, by decide, h, ?_⟩
  · rw [h1]
    decide
  · rw [h]
    decide

/-- C4, amended: when the initial URL is answered by exactly `k` consecutive
redirects with status 301, 302, 307 or 308 (allowed URLs, each response with a
non-empty Location) and then by a response with any other status, a 3xx status
such as 303 included, `fetchUrl` started at redirect count 0 resolves with that
response if `k ≤ 5`; on a chain of `k ≥ 6` such redirects it rejects with the
too-many-redirects error after six requests, so also on an endless loop of them;
and no run issues more than six requests. -/
theorem fetchUrl_redirect_limit (rt : Runtime) (net : Nat → String → NetResult)
    (u : Nat → String) :
    (∀ k res, k ≤ 5 → Chain rt net u k → isDomainAllowed rt (u k) = true →
      net k (u k) = .response res →
      (res.statusCode ≠ 301 ∧ res.statusCode ≠ 302 ∧ res.statusCode ≠ 307 ∧
        res.statusCode ≠ 308) →
      fetchUrl rt net (u 0) 0 = ⟨(List.range (k + 1)).map u, .resolved res⟩) ∧
    (∀ k, 6 ≤ k → Chain rt net u k →
      fetchUrl rt net (u 0) 0 = ⟨(List.range 6).map u, .rejected .tooManyRedirects⟩) ∧
    ((∀ i, Hop rt net i (u i) (u (i + 1))) →
      fetchUrl rt net (u 0) 0 = ⟨(List.range 6).map u, .rejected .tooManyRedirects⟩) ∧
    (fetchUrl rt net (u 0) 0).requests.length ≤ 6 := by
  have h6 := fetchUrl_chain_over_limit rt net u
  refine ⟨?_, ?_, ?_, ?_⟩
  · intro k res hk hc hd hr hs
    have hk' : k ≤ MAX_REDIRECTS := hk
    have hs' : isRedirectStatus res.statusCode = false := by
      simp [isRedirectStatus, hs.1, hs.2.1, hs.2.2.1, hs.2.2.2]
    rw [fetchUrl_chain rt net u k (Nat.le_succ_of_le hk') hc,
      fetchUrl_terminal rt net (u k) k hk' hd res hr hs']
    simp [List.range_succ]
  · intro k hk hc
    exact h6 (fun i hi => hc i (by omega))
  · intro h
    exact h6 (fun i _ => h i)
  · exact fetchUrl_requests_length rt net 6 0 (u 0) (by decide)

theorem fetchUrl_redirect_limit_witness :
    fetchUrl sampleRuntime fiveHopNet (fiveHopChain 0) 0 =
      ⟨(List.range (5 + 1)).map fiveHopChain,
        .resolved ⟨200, [("content-type", "video/mp4")]⟩⟩ ∧
    fetchUrl sampleRuntime loopNet "https://ccma.cat/loop" 0 =
      ⟨(List.range 6).map (fun _ => "https://ccma.cat/loop"), .rejected .tooManyRedirects⟩ :=
  ⟨(fetchUrl_redirect_limit sampleRuntime fiveHopNet fiveHopChain).1 5
      ⟨200, [("content-type", "video/mp4")]⟩ (Nat.le_refl 5) fiveHopChain_chain (by decide) rfl
      (by decide),
   (fetchUrl_redirect_limit sampleRuntime loopNet (fun _ => "https://ccma.cat/loop")).2.2.1
      (fun i => loopNet_hop i)⟩

/-! ## Only allowed hosts are contacted -/

theorem handler_requests (rt : Runtime) (net : Nat → String → NetResult) (q : Query) :
    (handler rt net q).requests = [] ∨
      ∃ url, (handler rt net q).requests = (fetchUrl rt net url 0).requests := by
  unfold handler
  cases JS.truthy q.url with
  | none => exact Or.inl rfl
  | some url =>
    cases JS.truthy q.filename with
    | none => exact Or.inl rfl
    | some filename =>
      cases hd : isDomainAllowed rt url with
      | false => exact Or.inl (by simp [hd])
      | true =>
        refine Or.inr ⟨url, ?_⟩
        simp only [hd, Bool.not_true, Bool.false_eq_true, if_false]
        cases (fetchUrl rt net url 0).outcome with
        | resolved res => by_cases hs : res.statusCode = 200 <;> simp [hs]
        | rejected err => rfl
        | uncaught => rfl

/-- C5: every URL that `fetchUrl`, and so the handler, issues a request to (the
initial one and every redirect target, relative Locations resolved against the
current URL) satisfies `isDomainAllowed`; and when a chain of redirects reaches a
target that is not allowed, `fetchUrl` rejects, having requested only the URLs of
the chain before that target. -/
theorem fetchUrl_only_allowed (rt : Runtime) (net : Nat → String → NetResult) (url : String) :
    (∀ n, ∀ v ∈ (fetchUrl rt net url n).requests, isDomainAllowed rt v = true) ∧
    (∀ q, ∀ v ∈ (handler rt net q).requests, isDomainAllowed rt v = true) ∧
    (∀ (u : Nat → String) (k : Nat), u 0 = url → Chain rt net u k →
      isDomainAllowed rt (u k) = false →
      (∃ err, (fetchUrl rt net url 0).outcome = .rejected err) ∧
      (fetchUrl rt net url 0).requests = (List.range (min k 6)).map u ∧
      u k ∉ (fetchUrl rt net url 0).requests ∧
      (k ≤ 5 → (fetchUrl rt net url 0).outcome = .rejected (.domainNotAllowed (u k)))) := by
  have hall : ∀ (w : String) (n : Nat), ∀ v ∈ (fetchUrl rt net w n).requests,
      isDomainAllowed rt v = true :=
    fun w n => fetchUrl_requests_allowed rt net (MAX_REDIRECTS + 1 - n) n w (Nat.le_refl _)
  refine ⟨hall url, ?_, ?_⟩
  · intro q v hv
    rcases handler_requests rt net q with h | ⟨w, h⟩
    · rw [h] at hv; simp at hv
    · rw [h] at hv; exact hall w 0 v hv
  · intro u k h0 hc hbad
    have hnot : u k ∉ (fetchUrl rt net url 0).requests := by
      intro hmem
      have := hall url 0 (u k) hmem
      rw [hbad] at this
      exact Bool.false_ne_true this
    by_cases hk : k ≤ 5
    · have hrun := fetchUrl_chain_not_allowed rt net u k hk hc hbad
      rw [h0] at hrun
      refine ⟨⟨_, by rw [hrun]⟩, ?_, hnot, fun _ => by rw [hrun]⟩
      rw [hrun, Nat.min_eq_left (by omega)]
    · have hrun := fetchUrl_chain_over_limit rt net u (fun i hi => hc i (by omega))
      rw [h0] at hrun
      refine ⟨⟨_, by rw [hrun]⟩, ?_, hnot, fun h => absurd h hk⟩
      rw [hrun, Nat.min_eq_right (by omega)]

theorem fetchUrl_only_allowed_witness :
    (∃ err, (fetchUrl sampleRuntime evilRedirectNet "https://ccma.cat/v.mp4" 0).outcome =
      .rejected err) ∧
    (fetchUrl sampleRuntime evilRedirectNet "https://ccma.cat/v.mp4" 0).requests =
      (List.range (min 1 6)).map evilChain ∧
    evilChain 1 ∉ (fetchUrl sampleRuntime evilRedirectNet "https://ccma.cat/v.mp4" 0).requests ∧
    (1 ≤ 5 → (fetchUrl sampleRuntime evilRedirectNet "https://ccma.cat/v.mp4" 0).outcome =
      .rejected (.domainNotAllowed (evilChain 1))) :=
  (fetchUrl_only_allowed sampleRuntime evilRedirectNet "https://ccma.cat/v.mp4").2.2 evilChain 1
    rfl evilChain_chain (by decide)

/-! ## Which responses are followed -/

/-- C6, as stated, fails: a 303 response with a Location on an allowed host, with
all hops remaining, is not followed; `fetchUrl` resolves with the 303 response
after the one request. -/
theorem fetchUrl_follows_3xx_counterexample :
    (300 ≤ 303 ∧ 303 ≤ 399) ∧
    seeOtherNet 0 "https://ccma.cat/a.mp4" =
      .response ⟨303, [("location", "https://ccma.cat/b.mp4")]⟩ ∧
    isDomainAllowed sampleRuntime "https://ccma.cat/b.mp4" = true ∧
    fetchUrl sampleRuntime seeOtherNet "https://ccma.cat/a.mp4" 0 =
      ⟨["https://ccma.cat/a.mp4"],
        .resolved ⟨303, [("location", "https://ccma.cat/b.mp4")]⟩⟩ :=
  ⟨by decide, rfl, by decide,
    fetchUrl_terminal sampleRuntime seeOtherNet "https://ccma.cat/a.mp4" 0 (by decide)
      (by decide) ⟨303, [("location", "https://ccma.cat/b.mp4")]⟩ rfl (by decide)⟩

/-- C6, amended: for a response to a request for an allowed URL at redirect count
`n ≤ 5`.  When its status is 301, 302, 307 or 308: with a non-empty Location
whose target is allowed and `n < 5`, `fetchUrl` goes on with a request to that
target and its outcome is that of the run from the target, never the redirect
response itself; without a Location (missing or empty) it rejects with the
missing-Location error.  When its status is any other one, another 3xx status
included, `fetchUrl` resolves with the response, with or without a Location. -/
theorem fetchUrl_follows_redirect (rt : Runtime) (net : Nat → String → NetResult)
    (url : String) (n : Nat) (res : UpstreamResponse)
    (hn : n ≤ 5) (hd : isDomainAllowed rt url = true) (hr : net n url = .response res) :
    ((res.statusCode = 301 ∨ res.statusCode = 302 ∨ res.statusCode = 307 ∨
        res.statusCode = 308) →
      (∀ location next, res.header "location" = some location → location ≠ "" →
        nextUrl rt location url = some next → isDomainAllowed rt next = true → n < 5 →
        fetchUrl rt net url n =
          ⟨url :: (fetchUrl rt net next (n + 1)).requests,
            (fetchUrl rt net next (n + 1)).outcome⟩ ∧
        (fetchUrl rt net next (n + 1)).requests.head? = some next ∧
        (fetchUrl rt net url n).outcome ≠ .resolved res) ∧
      ((res.header "location" = none ∨ res.header "location" = some "") →
        fetchUrl rt net url n = ⟨[url], .rejected .missingLocation⟩)) ∧
    ((res.statusCode ≠ 301 ∧ res.statusCode ≠ 302 ∧ res.statusCode ≠ 307 ∧
        res.statusCode ≠ 308) →
      fetchUrl rt net url n = ⟨[url], .resolved res⟩) := by
  constructor
  · intro hs
    have hs' : isRedirectStatus res.statusCode = true := by
      rcases hs with h | h | h | h <;> rw [h] <;> decide
    constructor
    · intro location next hl hl' hx hd' hn'
      have tl : JS.truthy (res.header "location") = some location :=
        (truthy_eq_some _ _).2 ⟨hl, hl'⟩
      have hfollow := fetchUrl_follow rt net url n hn hd res hr hs' location next tl hx
      refine ⟨hfollow, ?_, ?_⟩
      · rcases fetchUrl_cases rt net next (n + 1) with ⟨h, _⟩ | ⟨_, h, _⟩ | ⟨_, _, hc⟩
        · exact absurd h (by simp only [MAX_REDIRECTS]; omega)
        · rw [hd'] at h; exact absurd h (by decide)
        · rcases hc with ⟨_, _, e⟩ | ⟨_, _, _, e⟩ | ⟨_, _, _, _, e⟩ | ⟨_, _, _, _, _, _, e⟩ |
            ⟨_, _, _, _, _, _, _, e⟩ <;> rw [e] <;> rfl
      · intro ho
        have := fetchUrl_resolved_not_redirect rt net (MAX_REDIRECTS + 1 - n) n url res
          (Nat.le_refl _) ho
        rw [hs'] at this
        exact absurd this (by decide)
    · intro hl
      exact fetchUrl_missing_location rt net url n hn hd res hr hs'
        ((truthy_eq_none _).2 hl)
  · intro hs
    have hs' : isRedirectStatus res.statusCode = false := by
      simp [isRedirectStatus, hs.1, hs.2.1, hs.2.2.1, hs.2.2.2]
    exact fetchUrl_terminal rt net url n hn hd res hr hs'

theorem fetchUrl_follows_redirect_witness :
    (fetchUrl sampleRuntime fiveHopNet "https://ccma.cat/start" 0 =
        ⟨"https://ccma.cat/start" ::
            (fetchUrl sampleRuntime fiveHopNet "https://ccma.cat/next" (0 + 1)).requests,
          (fetchUrl sampleRuntime fiveHopNet "https://ccma.cat/next" (0 + 1)).outcome⟩ ∧
      (fetchUrl sampleRuntime fiveHopNet "https://ccma.cat/next" (0 + 1)).requests.head? =
        some "https://ccma.cat/next" ∧
      (fetchUrl sampleRuntime fiveHopNet "https://ccma.cat/start" 0).outcome ≠
        .resolved ⟨307, [("location", "/next")]⟩) ∧
    fetchUrl sampleRuntime notModifiedNet "https://ccma.cat/a.mp4" 0 =
      ⟨["https://ccma.cat/a.mp4"], .resolved ⟨304, []⟩⟩ :=
  ⟨((fetchUrl_follows_redirect sampleRuntime fiveHopNet "https://ccma.cat/start" 0
      ⟨307, [("location", "/next")]⟩ (by decide) (by decide) rfl).1
      (Or.inr (Or.inr (Or.inl rfl)))).1
      "/next" "https://ccma.cat/next" (by decide) (by decide) (by decide) (by decide)
      (by decide),
    (fetchUrl_follows_redirect sampleRuntime notModifiedNet "https://ccma.cat/a.mp4" 0
      ⟨304, []⟩ (by decide) (by decide) rfl).2 (by decide)⟩

/-! ## The response headers -/

/-- The function `encodeURIComponent` spelled out: a character among
`A-Z a-z 0-9 - _ . ! ~ * ' ( )` stays, and every other character becomes the
escapes `%XX`, with upper-case hexadecimal digits, of the bytes of its UTF-8
encoding. -/
theorem encodeURIComponent_spec (s : String) :
    (JS.encodeURIComponent s).data =
      s.data.flatMap (fun c =>
        if (0x41 ≤ c.toNat ∧ c.toNat ≤ 0x5A) ∨ (0x61 ≤ c.toNat ∧ c.toNat ≤ 0x7A) ∨
            (0x30 ≤ c.toNat ∧ c.toNat ≤ 0x39) ∨
            c.toNat ∈ [0x2D, 0x5F, 0x2E, 0x21, 0x7E, 0x2A, 0x27, 0x28, 0x29] then [c]
        else
          (if c.toNat < 0x80 then [c.toNat]
            else if c.toNat < 0x800 then [0xC0 + c.toNat / 64, 0x80 + c.toNat % 64]
            else if c.toNat < 0x10000 then
              [0xE0 + c.toNat / 4096, 0x80 + c.toNat / 64 % 64, 0x80 + c.toNat % 64]
            else
              [0xF0 + c.toNat / 262144, 0x80 + c.toNat / 4096 % 64, 0x80 + c.toNat / 64 % 64,
                0x80 + c.toNat % 64]).flatMap
            (fun b =>
              ['%', "0123456789ABCDEF".data.getD (b / 16) '0',
                "0123456789ABCDEF".data.getD (b % 16) '0'])) := by
  unfold JS.encodeURIComponent
  simp only
  congr 1
  funext c
  have hP : (JS.isUriUnreserved c = true) ↔
      ((0x41 ≤ c.toNat ∧ c.toNat ≤ 0x5A) ∨ (0x61 ≤ c.toNat ∧ c.toNat ≤ 0x7A) ∨
        (0x30 ≤ c.toNat ∧ c.toNat ≤ 0x39) ∨
        c.toNat ∈ [0x2D, 0x5F, 0x2E, 0x21, 0x7E, 0x2A, 0x27, 0x28, 0x29]) := by
    simp only [JS.isUriUnreserved, Bool.or_eq_true, Bool.and_eq_true, decide_eq_true_eq,
      beq_iff_eq, List.mem_cons, List.mem_singleton, List.not_mem_nil, or_false]
    tauto
  by_cases h : JS.isUriUnreserved c = true
  · rw [if_pos h, if_pos (hP.1 h)]
  · rw [if_neg h, if_neg (fun hh => h (hP.2 hh))]
    rfl

/-- The method `trim` spelled out: the longest run of white space and line
terminators is dropped at each end. -/
theorem trim_spec (s : String) :
    (JS.trim s).data =
      ((s.data.dropWhile (fun c =>
          decide (c.toNat ∈ [0x09, 0x0A, 0x0B, 0x0C, 0x0D, 0x20, 0xA0, 0x1680, 0x2028, 0x2029,
              0x202F, 0x205F, 0x3000, 0xFEFF] ∨ (0x2000 ≤ c.toNat ∧ c.toNat ≤ 0x200A)))).reverse.dropWhile
        (fun c =>
          decide (c.toNat ∈ [0x09, 0x0A, 0x0B, 0x0C, 0x0D, 0x20, 0xA0, 0x1680, 0x2028, 0x2029,
              0x202F, 0x205F, 0x3000, 0xFEFF] ∨ (0x2000 ≤ c.toNat ∧ c.toNat ≤ 0x200A)))).reverse := by
  have hf : JS.isTrimChar = (fun c =>
      decide (c.toNat ∈ [0x09, 0x0A, 0x0B, 0x0C, 0x0D, 0x20, 0xA0, 0x1680, 0x2028, 0x2029,
          0x202F, 0x205F, 0x3000, 0xFEFF] ∨ (0x2000 ≤ c.toNat ∧ c.toNat ≤ 0x200A))) := by
    funext c
    rw [Bool.eq_iff_iff]
    simp only [JS.isTrimChar, Bool.or_eq_true, Bool.and_eq_true, decide_eq_true_eq,
      beq_iff_eq, List.mem_cons, List.mem_singleton, List.not_mem_nil, or_false]
    tauto
  unfold JS.trim
  rw [hf]

theorem encodeURIComponent_samples :
    JS.encodeURIComponent "a b.mp4" = "a%20b.mp4" ∧
    JS.encodeURIComponent "Az09-_.!~*()" = "Az09-_.!~*()" ∧
    JS.encodeURIComponent (String.mk [Char.ofNat 0x27]) = String.mk [Char.ofNat 0x27] ∧
    JS.encodeURIComponent "/?#&=+%" = "%2F%3F%23%26%3D%2B%25" ∧
    JS.encodeURIComponent "€𝄞é" = "%E2%82%AC%F0%9D%84%9E%C3%A9" ∧
    JS.encodeURIComponent (String.mk [Char.ofNat 0x7F, Char.ofNat 0x80, Char.ofNat 0x7FF,
        Char.ofNat 0x800, Char.ofNat 0xFFFF, Char.ofNat 0x10000, Char.ofNat 0x10FFFF]) =
      "%7F%C2%80%DF%BF%E0%A0%80%EF%BF%BF%F0%90%80%80%F4%8F%BF%BF" := by
  decide

theorem successHeaders_lookup (filename : String) (res : UpstreamResponse) :
    (successHeaders filename res).lookup "Content-Disposition" =
      some ("attachment; filename*=UTF-8''" ++ JS.encodeURIComponent (JS.trim filename)) ∧
    (successHeaders filename res).lookup "Content-Type" =
      some (JS.orElse (res.header "content-type") "video/mp4") ∧
    (successHeaders filename res).lookup "Content-Length" =
      JS.truthy (res.header "content-length") ∧
    (∀ name ∈ (successHeaders filename res).map Prod.fst,
      name = "Content-Disposition" ∨ name = "Content-Type" ∨ name = "Content-Length") := by
  unfold successHeaders
  cases JS.truthy (res.header "content-length") with
  | none => exact ⟨rfl, rfl, rfl, by simp⟩
  | some len => exact ⟨rfl, rfl, rfl, by simp⟩

/-- The run of `fetchUrl` on an allowed URL whose upstream answers with a 200
response at once resolves with that response. -/
theorem fetchUrl_ok (net : Nat → String → NetResult) (url : String)
    (res : UpstreamResponse) (hd : isDomainAllowed sampleRuntime url = true)
    (hr : net 0 url = .response res) (hs : res.statusCode = 200) :
    (fetchUrl sampleRuntime net url 0).outcome = .resolved res := by
  rw [fetchUrl_terminal sampleRuntime net url 0 (by decide) hd res hr (by rw [hs]; decide)]

/-- C7: the handler sets response headers only when `fetchUrl` resolved with a
response of status 200 (its own status is then 200); in that case
`Content-Disposition` is `attachment; filename*=UTF-8''` followed by
`encodeURIComponent` of the trimmed filename, `Content-Type` is the upstream
type, or `video/mp4` when the upstream has none (missing or empty), and
`Content-Length` is set, to the upstream value, exactly when the upstream has one;
no other header is set.  Here the trimmed filename is the filename without the
longest run of white space and line terminators at each end, and
`encodeURIComponent` keeps a character among `A-Z a-z 0-9 - _ . ! ~ * ' ( )` and
replaces every other one by the escapes `%XX`, with upper-case hexadecimal
digits, of the bytes of its UTF-8 encoding. -/
theorem handler_headers (rt : Runtime) (net : Nat → String → NetResult) (q : Query) :
    (∀ r, (handler rt net q).response = some r → r.headers ≠ [] →
      r.status = 200 ∧
      ∃ url res, q.url = some url ∧ (fetchUrl rt net url 0).outcome = .resolved res ∧
        res.statusCode = 200) ∧
    (∀ url filename res, q.url = some url → url ≠ "" → q.filename = some filename →
      filename ≠ "" → isDomainAllowed rt url = true →
      (fetchUrl rt net url 0).outcome = .resolved res → res.statusCode = 200 →
      ∃ r, (handler rt net q).response = some r ∧ r.status = 200 ∧ r.body = .piped res ∧
        r.headers.lookup "Content-Disposition" =
          some ("attachment; filename*=UTF-8''" ++ JS.encodeURIComponent (JS.trim filename)) ∧
        r.headers.lookup "Content-Type" =
          some (match res.header "content-type" with
            | some t => if t = "" then "video/mp4" else t
            | none => "video/mp4") ∧
        r.headers.lookup "Content-Length" =
          (match res.header "content-length" with
            | some len => if len = "" then none else some len
            | none => none) ∧
        (∀ name ∈ r.headers.map Prod.fst,
          name = "Content-Disposition" ∨ name = "Content-Type" ∨ name = "Content-Length")) ∧
    (∀ s : String,
      (JS.trim s).data =
        ((s.data.dropWhile (fun c =>
            decide (c.toNat ∈ [0x09, 0x0A, 0x0B, 0x0C, 0x0D, 0x20, 0xA0, 0x1680, 0x2028,
                0x2029, 0x202F, 0x205F, 0x3000, 0xFEFF] ∨
              (0x2000 ≤ c.toNat ∧ c.toNat ≤ 0x200A)))).reverse.dropWhile
          (fun c =>
            decide (c.toNat ∈ [0x09, 0x0A, 0x0B, 0x0C, 0x0D, 0x20, 0xA0, 0x1680, 0x2028,
                0x2029, 0x202F, 0x205F, 0x3000, 0xFEFF] ∨
              (0x2000 ≤ c.toNat ∧ c.toNat ≤ 0x200A)))).reverse ∧
      (JS.encodeURIComponent s).data =
        s.data.flatMap (fun c =>
          if (0x41 ≤ c.toNat ∧ c.toNat ≤ 0x5A) ∨ (0x61 ≤ c.toNat ∧ c.toNat ≤ 0x7A) ∨
              (0x30 ≤ c.toNat ∧ c.toNat ≤ 0x39) ∨
              c.toNat ∈ [0x2D, 0x5F, 0x2E, 0x21, 0x7E, 0x2A, 0x27, 0x28, 0x29] then [c]
          else
            (if c.toNat < 0x80 then [c.toNat]
              else if c.toNat < 0x800 then [0xC0 + c.toNat / 64, 0x80 + c.toNat % 64]
              else if c.toNat < 0x10000 then
                [0xE0 + c.toNat / 4096, 0x80 + c.toNat / 64 % 64, 0x80 + c.toNat % 64]
              else
                [0xF0 + c.toNat / 262144, 0x80 + c.toNat / 4096 % 64,
                  0x80 + c.toNat / 64 % 64, 0x80 + c.toNat % 64]).flatMap
              (fun b =>
                ['%', "0123456789ABCDEF".data.getD (b / 16) '0',
                  "0123456789ABCDEF".data.getD (b % 16) '0'])) ∧
      JS.encodeURIComponent "a b/ñ€𝄞.mp4" = "a%20b%2F%C3%B1%E2%82%AC%F0%9D%84%9E.mp4" ∧
      JS.trim " \t Capítol 1.mp4 \n" = "Capítol 1.mp4") := by
  refine ⟨?_, ?_, fun s => ⟨trim_spec s, encodeURIComponent_spec s, by decide, by decide⟩⟩
  · intro r hr hh
    unfold handler at hr
    cases hu : JS.truthy q.url with
    | none =>
      rw [hu] at hr
      simp only [Option.some.injEq] at hr
      rw [← hr] at hh; exact absurd rfl hh
    | some url =>
      cases hf : JS.truthy q.filename with
      | none =>
        rw [hu, hf] at hr
        simp only [Option.some.injEq] at hr
        rw [← hr] at hh; exact absurd rfl hh
      | some filename =>
        rw [hu, hf] at hr
        cases hd : isDomainAllowed rt url with
        | false =>
          simp only [hd, Bool.not_false, if_true, Option.some.injEq] at hr
          rw [← hr] at hh; exact absurd rfl hh
        | true =>
          simp only [hd, Bool.not_true, Bool.false_eq_true, if_false] at hr
          cases ho : (fetchUrl rt net url 0).outcome with
          | rejected err =>
            rw [ho] at hr
            simp only [Option.some.injEq] at hr
            rw [← hr] at hh; exact absurd rfl hh
          | uncaught =>
            rw [ho] at hr
            simp at hr
          | resolved res =>
            rw [ho] at hr
            by_cases hs : res.statusCode = 200
            · simp only [hs, ne_eq, not_true_eq_false, if_false, Option.some.injEq] at hr
              rw [← hr]
              exact ⟨rfl, url, res, ((truthy_eq_some _ _).1 hu).1, ho, hs⟩
            · simp only [ne_eq, hs, not_false_eq_true, if_true, Option.some.injEq] at hr
              rw [← hr] at hh; exact absurd rfl hh
  · intro url filename res hu hu' hf hf' hd ho hs
    have tu : JS.truthy q.url = some url := (truthy_eq_some _ _).2 ⟨hu, hu'⟩
    have tf : JS.truthy q.filename = some filename := (truthy_eq_some _ _).2 ⟨hf, hf'⟩
    refine ⟨⟨200, successHeaders filename res, .piped res⟩, ?_, rfl, rfl, ?_⟩
    · simp [handler, tu, tf, hd, ho, hs]
    · obtain ⟨h1, h2, h3, h4⟩ := successHeaders_lookup filename res
      refine ⟨h1, ?_, ?_, h4⟩
      · rw [h2]
        cases res.header "content-type" with
        | none => rfl
        | some t => by_cases ht : t = "" <;> simp [JS.orElse, JS.truthy, ht]
      · rw [h3]
        cases res.header "content-length" with
        | none => rfl
        | some t => rfl

theorem handler_headers_witness :
    (∃ r, (handler sampleRuntime okNet
          ⟨some "https://ccma.cat/v.mp4", some " Capítol 1.mp4 "⟩).response = some r ∧
        r.status = 200 ∧
        r.body = .piped ⟨200, [("content-type", "video/webm"), ("content-length", "1024")]⟩ ∧
        r.headers.lookup "Content-Disposition" =
          some ("attachment; filename*=UTF-8''" ++ "Cap%C3%ADtol%201.mp4") ∧
        r.headers.lookup "Content-Type" = some "video/webm" ∧
        r.headers.lookup "Content-Length" = some "1024" ∧
        (∀ name ∈ r.headers.map Prod.fst,
          name = "Content-Disposition" ∨ name = "Content-Type" ∨ name = "Content-Length")) ∧
    (∃ r, (handler sampleRuntime bareOkNet
          ⟨some "https://ccma.cat/v.mp4", some "a/b €.mp4"⟩).response = some r ∧
        r.status = 200 ∧
        r.headers =
          [("Content-Disposition", "attachment; filename*=UTF-8''" ++ "a%2Fb%20%E2%82%AC.mp4"),
            ("Content-Type", "video/mp4")] ∧
        r.headers.lookup "Content-Length" = none) := by
  obtain ⟨r, h1, h2, h3, h4, h5, h6, h7⟩ :=
    (handler_headers sampleRuntime okNet
        ⟨some "https://ccma.cat/v.mp4", some " Capítol 1.mp4 "⟩).2.1
      "https://ccma.cat/v.mp4" " Capítol 1.mp4 "
      ⟨200, [("content-type", "video/webm"), ("content-length", "1024")]⟩
      rfl (by decide) rfl (by decide) (by decide)
      (fetchUrl_ok okNet "https://ccma.cat/v.mp4" _ (by decide) rfl rfl)
      rfl
  refine ⟨⟨r, h1, h2, h3, ?_, ?_, ?_, h7⟩, ?_⟩
  · rw [h4]; decide
  · rw [h5]; decide
  · rw [h6]; decide
  · have ho := fetchUrl_ok bareOkNet "https://ccma.cat/v.mp4" ⟨200, []⟩ (by decide) rfl rfl
    refine ⟨⟨200, successHeaders "a/b €.mp4" ⟨200, []⟩, .piped ⟨200, []⟩⟩, ?_, rfl, ?_, ?_⟩
    · simp [handler, JS.truthy, ho]
      decide
    · decide
    · decide

end Download

namespace VideoUrl

/-! ## The variant list -/

theorem byQuality_le (a b : Video) :
    byQuality a b ≤ 0 ↔
      JS.Num.le (qualityToNumber b.quality) (qualityToNumber a.quality) = true :=
  JS.Num.sortSign_le _ _

/-- The sorted list is non-increasing in the rank, in the order `>=` of the
Numbers. -/
theorem buildVideos_pairwise (media : Media) :
    (buildVideos media).Pairwise
      (fun a b => JS.Num.le (qualityToNumber b.quality) (qualityToNumber a.quality) = true) := by
  have h := JS.sort_pairwise byQuality
    (fun a b => by simp only [byQuality_le]; exact JS.Num.le_total _ _)
    (fun a b c => by simp only [byQuality_le]; exact fun h1 h2 => JS.Num.le_trans h2 h1)
    ((((rawUrls media).filter hasFile).map (toVideo media)).filter (fun v => v.active))
  exact h.imp (fun {a b} hab => (byQuality_le a b).1 hab)

theorem qualityToNumber_no_digit (label : String)
    (h : ∀ c ∈ label.data, JS.isDigit c = false) : qualityToNumber label = .finite 0 := by
  have hd : label.data.dropWhile (fun c => !JS.isDigit c) = [] := by
    rw [List.dropWhile_eq_nil_iff]
    intro c hc
    simp [h c hc]
  simp [qualityToNumber, JS.matchDigits, hd]

/-- What the handler answers with `res.json`: the answer for content that is not
active, or the answer built from `data.media`. -/
theorem handler_json (fetch : String → Upstream) (id : Option String) (s : Nat) (r : Result)
    (h : handler fetch id = .json s r) :
    s = 200 ∧
    ((r.videos = [] ∧ r.best = none ∧ r.available = false) ∨
      ∃ media, r.videos = buildVideos media ∧ r.best = (buildVideos media).head? ∧
        r.available = decide ((buildVideos media).length > 0)) := by
  unfold handler at h
  cases hid : JS.truthy id with
  | none => rw [hid] at h; simp at h
  | some i =>
    rw [hid] at h
    simp only at h
    cases hf : fetch (mediaServiceUrl i) with
    | failed => rw [hf] at h; simp at h
    | notOk => rw [hf] at h; simp at h
    | badJson => rw [hf] at h; simp at h
    | ok data =>
      rw [hf] at h
      simp only at h
      cases ha : isActive data with
      | false =>
        simp only [ha, Bool.not_false, if_true, Response.json.injEq] at h
        obtain ⟨hs, hr⟩ := h
        subst hr
        exact ⟨hs.symm, Or.inl ⟨rfl, rfl, rfl⟩⟩
      | true =>
        simp only [ha, Bool.not_true, Bool.false_eq_true, if_false] at h
        cases hm : data.bind (·.media) with
        | none => rw [hm] at h; simp at h
        | some media =>
          rw [hm] at h
          simp only [Response.json.injEq] at h
          obtain ⟨hs, hr⟩ := h
          subst hr
          exact ⟨hs.symm, Or.inr ⟨media, rfl, rfl, rfl⟩⟩

theorem handler_sample : handler sampleFetch (some "3233330") = .json 200 sampleResult := by
  decide

set_option maxRecDepth 100000 in
theorem handler_tie :
    handler tieFetch (some "3233330") = .json 200 tieResult ∧
      tieResult.videos.map (fun v => qualityToNumber v.quality) =
        [.infinity, .finite 9007199254740992, .finite 9007199254740992, .finite 720] ∧
      tieResult.best.map (fun v => qualityToNumber v.quality) = some .infinity := by
  decide

/-- C8: the `videos` list of every answer is sorted non-increasing by quality
rank: for each variant `a` and its successor `b`,
`qualityToNumber(a.quality) >= qualityToNumber(b.quality)` holds of the two
Numbers; hence a variant whose label has no digit (rank 0) stands after every
variant of positive rank.  The order of the ranks is that of the integers, with
`Infinity`, the rank of a label whose digits go beyond the doubles, above
them. -/
theorem videos_sorted (fetch : String → Upstream) (id : Option String) (s : Nat) (r : Result)
    (h : handler fetch id = .json s r) :
    List.Chain'
      (fun a b => JS.Num.le (qualityToNumber b.quality) (qualityToNumber a.quality) = true)
      r.videos ∧
    (∀ (i j : Nat) (hi : i < r.videos.length) (hj : j < r.videos.length),
      (∀ c ∈ r.videos[i].quality.data, JS.isDigit c = false) →
      JS.Num.le (qualityToNumber r.videos[j].quality) (.finite 0) = false → j < i) ∧
    ((∀ x y : Int, JS.Num.le (.finite x) (.finite y) = true ↔ x ≤ y) ∧
      (∀ x : JS.Num, JS.Num.le x .infinity = true) ∧
      (∀ x : Int, JS.Num.le .infinity (.finite x) = false)) := by
  have hp : r.videos.Pairwise
      (fun a b => JS.Num.le (qualityToNumber b.quality) (qualityToNumber a.quality) = true) := by
    rcases (handler_json fetch id s r h).2 with ⟨hv, _, _⟩ | ⟨media, hv, _, _⟩
    · rw [hv]; exact List.Pairwise.nil
    · rw [hv]; exact buildVideos_pairwise media
  refine ⟨hp.chain', ?_, JS.Num.le_spec.1, JS.Num.le_spec.2.1, JS.Num.le_spec.2.2.1⟩
  intro i j hi hj hnd hpos
  have h0 := qualityToNumber_no_digit _ hnd
  by_contra hji
  rcases Nat.lt_or_eq_of_le (Nat.not_lt.1 hji) with hlt | heq
  · have := List.pairwise_iff_getElem.1 hp i j hi hj hlt
    rw [h0, hpos] at this
    cases this
  · subst heq
    rw [h0] at hpos
    cases hpos

theorem videos_sorted_witness :
    (handler sampleFetch (some "3233330") = .json 200 sampleResult ∧
      sampleResult.videos.map (fun v => (v.quality, qualityToNumber v.quality)) =
        [("720p", .finite 720), ("480p", .finite 480), ("HD", .finite 0)]) ∧
    (List.Chain'
        (fun a b => JS.Num.le (qualityToNumber b.quality) (qualityToNumber a.quality) = true)
        sampleResult.videos ∧
      (∀ (i j : Nat) (hi : i < sampleResult.videos.length)
        (hj : j < sampleResult.videos.length),
        (∀ c ∈ sampleResult.videos[i].quality.data, JS.isDigit c = false) →
        JS.Num.le (qualityToNumber sampleResult.videos[j].quality) (.finite 0) = false →
        j < i)) ∧
    ((handler tieFetch (some "3233330") = .json 200 tieResult ∧
        tieResult.videos.map (fun v => qualityToNumber v.quality) =
          [.infinity, .finite 9007199254740992, .finite 9007199254740992, .finite 720]) ∧
      List.Chain'
        (fun a b => JS.Num.le (qualityToNumber b.quality) (qualityToNumber a.quality) = true)
        tieResult.videos) ∧
    (JS.Num.le (.finite 480) (.finite 720) = true ∧
      JS.Num.le (.finite 720) (.finite 480) = false ∧
      JS.Num.le (.finite 0) (.finite 0) = true) :=
  ⟨⟨handler_sample, by decide⟩,
    ⟨(videos_sorted sampleFetch (some "3233330") 200 sampleResult handler_sample).1,
      (videos_sorted sampleFetch (some "3233330") 200 sampleResult handler_sample).2.1⟩,
    ⟨⟨handler_tie.1, handler_tie.2.1⟩, (videos_sorted tieFetch (some "3233330") 200 tieResult handler_tie.1).1⟩,
    by decide⟩

theorem unsorted_eq_expected (media : Media) (l : List (Option RawUrl)) :
    ((l.filter hasFile).map (toVideo media)).filter (fun v => v.active) =
      l.filterMap (fun u =>
        match u with
        | some r =>
            match r.file with
            | some file =>
                if file ≠ "" ∧ (r.active = some true ∨ r.active = none) then
                  some
                    { quality := (match r.label with
                        | some l => if l = "" then "?" else l
                        | none => "?")
                      url := replaceUrl file
                      format := (match media.format with
                        | some f => if f = "" then "MP4" else f
                        | none => "MP4")
                      active := true }
                else none
            | none => none
        | none => none) := by
  have horElse : ∀ (v : Option String) (d : String),
      JS.orElse v d = (match v with | some l => if l = "" then d else l | none => d) := by
    intro v d
    cases v with
    | none => rfl
    | some l => by_cases hl : l = "" <;> simp [JS.orElse, JS.truthy, hl]
  induction l with
  | nil => rfl
  | cons u us ih =>
    cases u with
    | none => simpa [hasFile] using ih
    | some r =>
      obtain ⟨file, label, active⟩ := r
      cases file with
      | none => simpa [hasFile, JS.truthy] using ih
      | some f =>
        by_cases hf : f = ""
        · simpa [hasFile, JS.truthy, hf] using ih
        · cases active with
          | none => simp [hasFile, JS.truthy, hf, toVideo, horElse, ih]
          | some b =>
            cases b with
            | true => simp [hasFile, JS.truthy, hf, toVideo, horElse, ih]
            | false => simpa [hasFile, JS.truthy, hf, toVideo] using ih

/-- C9: for a body flagged active (with its `media` object), the handler answers
with a `videos` list that is a permutation of the list obtained from the raw
entries by keeping the entries with a non-empty file whose active flag is true
or absent and mapping each to its variant with `active: true`. -/
theorem videos_perm (fetch : String → Upstream) (id : Option String) (i : String) (data : Data)
    (media : Media) (hid : id = some i) (hi : i ≠ "")
    (hf : fetch (mediaServiceUrl i) = .ok (some data)) (ha : isActive (some data) = true)
    (hm : data.media = some media) :
    ∃ r, handler fetch id = .json 200 r ∧ r.videos.Perm (expectedVideos media) ∧
      ∀ v ∈ r.videos, v.active = true := by
  have tid : JS.truthy id = some i := by
    rw [hid]; simp [JS.truthy, hi]
  have hpre : (((rawUrls media).filter hasFile).map (toVideo media)).filter (fun v => v.active) =
      expectedVideos media := unsorted_eq_expected media (rawUrls media)
  have hperm : (buildVideos media).Perm (expectedVideos media) := by
    have h1 : (buildVideos media).Perm
        ((((rawUrls media).filter hasFile).map (toVideo media)).filter (fun v => v.active)) :=
      JS.sort_perm byQuality _
    rw [hpre] at h1
    exact h1
  have hh : handler fetch id =
      .json 200
        { videos := buildVideos media
          best := (buildVideos media).head?
          available := decide ((buildVideos media).length > 0)
          title := some (JS.orElse ((some data).bind (·.informacio) |>.bind (·.titol)) "")
          titol_complet :=
            some (JS.orElse ((some data).bind (·.informacio) |>.bind (·.titol_complet)) "") } := by
    have hm' : ((some data).bind fun x => x.media) = some media := hm
    simp only [handler, tid, hf, ha, Bool.not_true, Bool.false_eq_true, if_false, hm']
  refine ⟨_, hh, hperm, ?_⟩
  intro v hv
  have hv' : v ∈ (((rawUrls media).filter hasFile).map (toVideo media)).filter
      (fun v => v.active) := (JS.sort_perm byQuality _).subset hv
  simpa using (List.mem_filter.1 hv').2

theorem videos_perm_witness :
    ∃ r, handler sampleFetch (some "3233330") = .json 200 r ∧
      r.videos.Perm
        (expectedVideos
          { url := .many
              [some ⟨some "https://mp4-medium-es.ccma.cat.s3.eu-west-1.amazonaws.com/MP4_MITJA_WEB_ES/1.mp4",
                  some "480p", none⟩,
               none,
               some ⟨some "https://x.ccma.cat/hd.mp4", some "HD", some true⟩,
               some ⟨some "https://x.ccma.cat/off.mp4", some "1080p", some false⟩,
               some ⟨some "https://mp4-high-es.ccma.cat.s3.eu-west-1.amazonaws.com/MP4_ALTA_IPTV_ES/1.mp4",
                  some "720p", none⟩,
               some ⟨none, some "1080p", none⟩]
            format := none }) ∧
      ∀ v ∈ r.videos, v.active = true :=
  videos_perm sampleFetch (some "3233330") "3233330" sampleData _ rfl (by decide) rfl
    (by decide) rfl

/-- C10: in every answer sent with `res.json` the status is 200, `best` is the
first element of `videos`, or `null` when `videos` is empty, so no variant has a
greater quality rank than `best`, and `available` is true exactly when `videos`
is not empty; a body that flags the content as not active is answered with
`videos = []`, `best = null`, `available = false`.  The ranks are compared as
Numbers: in the order of the integers, with `Infinity` above them. -/
theorem best_is_first (fetch : String → Upstream) (id : Option String) :
    (∀ s r, handler fetch id = .json s r →
      s = 200 ∧ r.best = r.videos.head? ∧ (r.videos = [] → r.best = none) ∧
      (∀ b, r.best = some b →
        ∀ v ∈ r.videos,
          JS.Num.le (qualityToNumber v.quality) (qualityToNumber b.quality) = true) ∧
      (r.available = true ↔ r.videos ≠ [])) ∧
    (∀ i data, id = some i → i ≠ "" → fetch (mediaServiceUrl i) = .ok data →
      isActive data = false →
      handler fetch id =
        .json 200 { videos := [], best := none, available := false,
                    title := none, titol_complet := none }) ∧
    ((∀ x y : Int, JS.Num.le (.finite x) (.finite y) = true ↔ x ≤ y) ∧
      (∀ x : JS.Num, JS.Num.le x .infinity = true) ∧
      (∀ x : Int, JS.Num.le .infinity (.finite x) = false)) := by
  refine ⟨?_, ?_, JS.Num.le_spec.1, JS.Num.le_spec.2.1, JS.Num.le_spec.2.2.1⟩
  · intro s r h
    obtain ⟨hs, hr⟩ := handler_json fetch id s r h
    refine ⟨hs, ?_⟩
    rcases hr with ⟨hv, hb, hav⟩ | ⟨media, hv, hb, hav⟩
    · rw [hv, hb, hav]
      simp
    · have hp := buildVideos_pairwise media
      rw [hv, hb, hav]
      refine ⟨rfl, fun h0 => by rw [h0]; rfl, ?_, ?_⟩
      · intro b hbest v hv'
        obtain ⟨ys, hys⟩ := List.head?_eq_some_iff.1 hbest
        rw [hys] at hp hv'
        rcases List.mem_cons.1 hv' with rfl | hmem
        · exact JS.Num.le_refl _
        · exact (List.pairwise_cons.1 hp).1 v hmem
      · cases buildVideos media with
        | nil => simp
        | cons a l => simp
  · intro i data hid hi hf ha
    have tid : JS.truthy id = some i := by
      rw [hid]; simp [JS.truthy, hi]
    simp [handler, tid, hf, ha]

theorem best_is_first_witness :
    (200 = 200 ∧ sampleResult.best = sampleResult.videos.head? ∧
      (sampleResult.videos = [] → sampleResult.best = none) ∧
      (∀ b, sampleResult.best = some b →
        ∀ v ∈ sampleResult.videos,
          JS.Num.le (qualityToNumber v.quality) (qualityToNumber b.quality) = true) ∧
      (sampleResult.available = true ↔ sampleResult.videos ≠ [])) ∧
    handler inactiveFetch (some "3233330") =
      .json 200 { videos := [], best := none, available := false,
                  title := none, titol_complet := none } ∧
    (sampleResult.best.map (fun v => (v.quality, qualityToNumber v.quality)) =
        some ("720p", .finite 720) ∧
      sampleResult.videos.map (fun v => qualityToNumber v.quality) =
        [.finite 720, .finite 480, .finite 0] ∧
      tieResult.best.map (fun v => qualityToNumber v.quality) = some .infinity) :=
  ⟨(best_is_first sampleFetch (some "3233330")).1 200 sampleResult handler_sample,
   (best_is_first inactiveFetch (some "3233330")).2.1 "3233330" _ rfl (by decide) rfl
      (by decide),
   by decide, by decide, handler_tie.2.2⟩

end VideoUrl

namespace JS

theorem parseInt_foldl (digits : List Char) (acc : Nat) :
    digits.foldl (fun acc c => 10 * acc + (c.toNat - 0x30)) acc =
      acc * 10 ^ digits.length + decimalValue digits := by
  induction digits generalizing acc with
  | nil => simp [decimalValue]
  | cons c cs ih =>
    rw [List.foldl_cons, ih]
    simp only [decimalValue, List.map_cons, List.reverse_cons, Nat.ofDigits_append,
      List.length_cons, List.length_reverse, List.length_map, Nat.ofDigits_singleton]
    ring

/-- The call `parseInt(digits, 10)` gives the Number of the decimal value of the
digits. -/
theorem parseInt_eq_decimalValue (digits : List Char) :
    parseInt digits = numberOfNat (decimalValue digits) := by
  unfold parseInt
  rw [parseInt_foldl]
  simp

theorem dropWhile_not_digit (pre rest : List Char) (c : Char)
    (hpre : ∀ x ∈ pre, isDigit x = false) (hc : isDigit c = true) :
    (pre ++ c :: rest).dropWhile (fun x => !isDigit x) = c :: rest := by
  induction pre with
  | nil => simp [List.dropWhile, hc]
  | cons x xs ih =>
    have hx : isDigit x = false := hpre x (List.mem_cons_self _ _)
    simp only [List.cons_append, List.dropWhile, hx, Bool.not_false]
    exact ih (fun y hy => hpre y (List.mem_cons_of_mem _ hy))

theorem takeWhile_digit (run post : List Char) (hrun : ∀ x ∈ run, isDigit x = true)
    (hpost : ∀ c, post.head? = some c → isDigit c = false) :
    (run ++ post).takeWhile isDigit = run := by
  induction run with
  | nil =>
    cases post with
    | nil => rfl
    | cons c cs => simp [List.takeWhile, hpost c rfl]
  | cons x xs ih =>
    have hx : isDigit x = true := hrun x (List.mem_cons_self _ _)
    have ih' := ih (fun y hy => hrun y (List.mem_cons_of_mem _ hy))
    simp only [List.cons_append, List.takeWhile_cons, hx, if_true, ih']

/-- A character list has no digit, or splits around its first maximal run of
digits. -/
theorem first_run_exists (l : List Char) :
    (∀ c ∈ l, isDigit c = false) ∨
    ∃ pre run post, l = pre ++ run ++ post ∧ (∀ c ∈ pre, isDigit c = false) ∧ run ≠ [] ∧
      (∀ c ∈ run, isDigit c = true) ∧ (∀ c, post.head? = some c → isDigit c = false) := by
  induction l with
  | nil => exact Or.inl (by simp)
  | cons x xs ih =>
    cases hx : isDigit x with
    | false =>
      rcases ih with h | ⟨pre, run, post, e, h1, h2, h3, h4⟩
      · left
        intro c hc
        rcases List.mem_cons.1 hc with rfl | hc
        · exact hx
        · exact h c hc
      · right
        refine ⟨x :: pre, run, post, by simp [e], ?_, h2, h3, h4⟩
        intro c hc
        rcases List.mem_cons.1 hc with rfl | hc
        · exact hx
        · exact h1 c hc
    | true =>
      right
      refine ⟨[], x :: xs.takeWhile isDigit, xs.dropWhile isDigit, ?_, by simp, by simp, ?_, ?_⟩
      · simp [List.takeWhile_append_dropWhile]
      · intro c hc
        rcases List.mem_cons.1 hc with rfl | hc
        · exact hx
        · exact List.mem_takeWhile_imp hc
      · intro c hc
        cases hd : xs.dropWhile isDigit with
        | nil => rw [hd] at hc; simp at hc
        | cons y ys =>
          rw [hd] at hc
          simp only [List.head?_cons, Option.some.injEq] at hc
          subst hc
          have := List.head_dropWhile_not isDigit xs (by rw [hd]; simp)
          simpa [hd] using this

end JS

namespace JS

/-! ## Literal replacement -/

theorem includesChars_nil_pattern (s : List Char) : includesChars [] s = true := by
  cases s <;> simp [includesChars]

theorem replaceChars_of_not_includes (p r s : List Char) (h : includesChars p s = false) :
    replaceChars p r s = s := by
  induction s with
  | nil =>
    simp only [includesChars] at h
    simp [replaceChars, h]
  | cons c cs ih =>
    simp only [includesChars, Bool.or_eq_false_iff] at h
    simp [replaceChars, h.1, ih h.2]

theorem includesChars_iff (p s : List Char) :
    includesChars p s = true ↔ ∃ a b, s = a ++ p ++ b := by
  induction s with
  | nil =>
    simp only [includesChars, List.isEmpty_iff]
    constructor
    · rintro rfl; exact ⟨[], [], rfl⟩
    · rintro ⟨a, b, h⟩
      have := congrArg List.length h
      simp at this
      exact List.length_eq_zero.1 (by omega)
  | cons c cs ih =>
    simp only [includesChars, Bool.or_eq_true, List.isPrefixOf_iff_prefix, ih]
    constructor
    · rintro (⟨b, hb⟩ | ⟨a, b, hab⟩)
      · exact ⟨[], b, by simp [hb]⟩
      · exact ⟨c :: a, b, by simp [hab]⟩
    · rintro ⟨a, b, hab⟩
      cases a with
      | nil => exact Or.inl ⟨b, by simpa using hab.symm⟩
      | cons x xs =>
        simp only [List.cons_append, List.cons.injEq] at hab
        exact Or.inr ⟨xs, b, hab.2⟩

theorem occurrencesChars_eq_zero (p s : List Char) :
    occurrencesChars p s = 0 ↔ includesChars p s = false := by
  induction s with
  | nil => by_cases h : p.isEmpty <;> simp [occurrencesChars, includesChars, h]
  | cons c cs ih =>
    by_cases h : p.isPrefixOf (c :: cs) <;> simp [occurrencesChars, includesChars, h, ih]

theorem occurrencesChars_cons (p : List Char) (c : Char) (cs : List Char) :
    occurrencesChars p (c :: cs) =
      (if p.isPrefixOf (c :: cs) then 1 else 0) + occurrencesChars p cs := rfl

theorem includesChars_cons (p : List Char) (c : Char) (cs : List Char) :
    includesChars p (c :: cs) = (p.isPrefixOf (c :: cs) || includesChars p cs) := rfl

theorem replaceChars_cons (p r : List Char) (c : Char) (cs : List Char) :
    replaceChars p r (c :: cs) =
      if p.isPrefixOf (c :: cs) then r ++ (c :: cs).drop p.length
      else c :: replaceChars p r cs := rfl

theorem occurrencesChars_append_ge (p x y : List Char) :
    occurrencesChars p y ≤ occurrencesChars p (x ++ y) := by
  induction x with
  | nil => exact Nat.le_refl _
  | cons c cs ih =>
    rw [List.cons_append, occurrencesChars_cons]
    omega

theorem occurrencesChars_self_append (p b : List Char) (hp : p ≠ []) :
    occurrencesChars p (p ++ b) = 1 + occurrencesChars p (p.tail ++ b) := by
  obtain ⟨c, cs, rfl⟩ := List.exists_cons_of_ne_nil hp
  have hpre : (c :: cs).isPrefixOf (c :: (cs ++ b)) = true := by
    rw [List.isPrefixOf_iff_prefix]; exact List.prefix_append (c :: cs) b
  rw [List.cons_append, occurrencesChars_cons, hpre]
  rfl

/-- When the pattern occurs exactly once, at the end of `a`, it occurs neither in
`a` nor in `b`, and the replacement rewrites that occurrence. -/
theorem replaceChars_single (p r b : List Char) (hp : p ≠ []) :
    ∀ a : List Char, occurrencesChars p (a ++ (p ++ b)) = 1 →
      includesChars p a = false ∧ includesChars p b = false ∧
      replaceChars p r (a ++ (p ++ b)) = a ++ (r ++ b) := by
  have hself := occurrencesChars_self_append p b hp
  intro a
  induction a with
  | nil =>
    intro h
    rw [List.nil_append] at h
    have h0 : occurrencesChars p (p.tail ++ b) = 0 := by omega
    have hb : occurrencesChars p b = 0 :=
      Nat.le_zero.1 (h0 ▸ occurrencesChars_append_ge p p.tail b)
    refine ⟨?_, (occurrencesChars_eq_zero _ _).1 hb, ?_⟩
    · cases p with
      | nil => exact absurd rfl hp
      | cons c cs => rfl
    · obtain ⟨c, cs, rfl⟩ := List.exists_cons_of_ne_nil hp
      have hpre : (c :: cs).isPrefixOf (c :: (cs ++ b)) = true := by
        rw [List.isPrefixOf_iff_prefix]; exact List.prefix_append (c :: cs) b
      rw [List.nil_append, List.nil_append, List.cons_append, replaceChars_cons, hpre, if_pos rfl]
      have : (c :: (cs ++ b)).drop (c :: cs).length = b := by
        rw [← List.cons_append]; exact List.drop_left _ _
      rw [this]
  | cons x xs ih =>
    intro h
    rw [List.cons_append, occurrencesChars_cons] at h
    have hge : 1 ≤ occurrencesChars p (xs ++ (p ++ b)) := by
      have h1 := occurrencesChars_append_ge p xs (p ++ b)
      omega
    have hxs : occurrencesChars p (xs ++ (p ++ b)) = 1 := by omega
    have hhead : p.isPrefixOf (x :: (xs ++ (p ++ b))) = false := by
      cases hh : p.isPrefixOf (x :: (xs ++ (p ++ b))) with
      | false => rfl
      | true =>
        rw [hh, if_pos rfl] at h
        omega
    obtain ⟨h1, h2, h3⟩ := ih hxs
    refine ⟨?_, h2, ?_⟩
    · rw [includesChars_cons, h1, Bool.or_false]
      cases hh : p.isPrefixOf (x :: xs) with
      | false => rfl
      | true =>
        rw [List.isPrefixOf_iff_prefix] at hh
        have hpx : p <+: x :: (xs ++ (p ++ b)) :=
          hh.trans (List.prefix_append (x :: xs) (p ++ b))
        rw [← List.isPrefixOf_iff_prefix, hhead] at hpx
        exact absurd hpx (by decide)
    · rw [List.cons_append, replaceChars_cons, hhead, if_neg (by decide), h3]
      rfl

theorem includesChars_append_left (p a x : List Char) (h : includesChars p a = true) :
    includesChars p (a ++ x) = true := by
  rw [includesChars_iff] at h ⊢
  obtain ⟨u, v, rfl⟩ := h
  exact ⟨u, v ++ x, by simp⟩

theorem includesChars_append_right (p b x : List Char) (h : includesChars p b = true) :
    includesChars p (x ++ b) = true := by
  rw [includesChars_iff] at h ⊢
  obtain ⟨u, v, rfl⟩ := h
  exact ⟨x ++ u, v, by simp⟩

theorem overlaps_of_includes_text (p t : List Char) (h : includesChars t p = true) :
    overlaps p t = true := by
  simp [overlaps, h]

theorem overlaps_of_includes_pattern (p t : List Char) (h : includesChars p t = true) :
    overlaps p t = true := by
  simp [overlaps, h]

theorem overlaps_of_take (p t : List Char) (n : Nat) (hn : n < t.length)
    (h : t.take (n + 1) <:+ p) : overlaps p t = true := by
  have : (List.range t.length).any (fun n => (t.take (n + 1)).isSuffixOf p) = true := by
    rw [List.any_eq_true]
    exact ⟨n, List.mem_range.2 hn, List.isSuffixOf_iff_suffix.2 h⟩
  simp [overlaps, this]

theorem overlaps_of_drop (p t : List Char) (n : Nat) (hn : n < t.length)
    (h : t.drop n <+: p) : overlaps p t = true := by
  have : (List.range t.length).any (fun n => (t.drop n).isPrefixOf p) = true := by
    rw [List.any_eq_true]
    exact ⟨n, List.mem_range.2 hn, List.isPrefixOf_iff_prefix.2 h⟩
  simp [overlaps, this]

/-- An occurrence of `p` that starts inside `t`. -/
theorem includes_from_text (p t b : List Char) :
    ∀ (w u : List Char), t = u ++ w → includesChars p (w ++ b) = true →
      includesChars p b = true ∨ overlaps p t = true := by
  intro w
  induction w with
  | nil => intro u _ h; exact Or.inl h
  | cons x w ih =>
    intro u hu h
    rw [List.cons_append, includesChars_cons, Bool.or_eq_true] at h
    rcases h with h | h
    · right
      rw [List.isPrefixOf_iff_prefix] at h
      have hw : (x :: w) <+: x :: (w ++ b) := List.prefix_append (x :: w) b
      rcases List.prefix_or_prefix_of_prefix h hw with h1 | h1
      · obtain ⟨v, hv⟩ := h1
        exact overlaps_of_includes_pattern p t
          ((includesChars_iff p t).2 ⟨u, v, by rw [hu, ← hv]; simp⟩)
      · have hlen : u.length < t.length := by rw [hu]; simp
        have hdrop : t.drop u.length = x :: w := by rw [hu]; exact List.drop_left _ _
        exact overlaps_of_drop p t u.length hlen (hdrop ▸ h1)
    · exact ih (u ++ [x]) (by rw [hu]; simp) h

/-- An occurrence of `p` in `a ++ t ++ b` lies in `a`, lies in `b`, or shares
characters with `t`. -/
theorem includes_around_text (p t b : List Char) :
    ∀ a : List Char, includesChars p (a ++ (t ++ b)) = true →
      includesChars p a = true ∨ includesChars p b = true ∨ overlaps p t = true := by
  intro a
  induction a with
  | nil =>
    intro h
    exact Or.inr (includes_from_text p t b t [] rfl h)
  | cons c a ih =>
    intro h
    rw [List.cons_append, includesChars_cons, Bool.or_eq_true] at h
    rcases h with h | h
    · rw [List.isPrefixOf_iff_prefix] at h
      have ha : (c :: a) <+: c :: (a ++ (t ++ b)) := List.prefix_append (c :: a) (t ++ b)
      rcases List.prefix_or_prefix_of_prefix h ha with h1 | h1
      · left
        rw [includesChars_cons, Bool.or_eq_true]
        exact Or.inl (List.isPrefixOf_iff_prefix.2 h1)
      · obtain ⟨v, hv⟩ := h1
        have hvt : v <+: t ++ b := by
          rw [← hv, ← List.cons_append] at h
          exact (List.prefix_append_right_inj (c :: a)).1 h
        cases v with
        | nil =>
          left
          rw [List.append_nil] at hv
          rw [includesChars_cons, Bool.or_eq_true]
          exact Or.inl (List.isPrefixOf_iff_prefix.2 (hv ▸ List.prefix_refl _))
        | cons y v' =>
          right; right
          rcases List.prefix_or_prefix_of_prefix hvt (List.prefix_append t b) with h2 | h2
          · have hlen : (y :: v').length ≤ t.length := h2.length_le
            have htake : t.take (v'.length + 1) = y :: v' :=
              (List.prefix_iff_eq_take.1 h2).symm
            exact overlaps_of_take p t v'.length (by simpa using hlen)
              (htake ▸ ⟨c :: a, hv⟩)
          · obtain ⟨w, hw⟩ := h2
            exact overlaps_of_includes_text p t
              ((includesChars_iff t p).2 ⟨c :: a, w, by rw [← hv, ← hw]; simp⟩)
    · rcases ih h with h1 | h1
      · left
        rw [includesChars_cons, h1, Bool.or_true]
      · exact Or.inr h1

end JS

namespace VideoUrl

/-! ## The CDN rewrite -/

set_option maxRecDepth 100000 in
theorem replacements_do_not_overlap :
    ∀ r ∈ URL_REPLACEMENTS, ∀ r' ∈ URL_REPLACEMENTS,
      JS.overlaps r'.1.data r.2.data = false := by
  decide

theorem replacements_patterns_ne_nil : ∀ r ∈ URL_REPLACEMENTS, r.1.data ≠ [] := by
  decide

theorem replacements_nodup : URL_REPLACEMENTS.Nodup := by
  decide

/-- The chain of replacements on character lists. -/
theorem replaceUrl_data (rs : List (String × String)) :
    ∀ url : String,
      (rs.foldl (fun acc r => JS.replace acc r.1 r.2) url).data =
        rs.foldl (fun acc r => JS.replaceChars r.1.data r.2.data acc) url.data := by
  induction rs with
  | nil => intro url; rfl
  | cons r rs ih =>
    intro url
    rw [List.foldl_cons, List.foldl_cons, ih]
    rfl

theorem foldl_replace_of_not_includes (rs : List (String × String)) :
    ∀ s : List Char, (∀ r ∈ rs, JS.includesChars r.1.data s = false) →
      rs.foldl (fun acc r => JS.replaceChars r.1.data r.2.data acc) s = s := by
  induction rs with
  | nil => intro s _; rfl
  | cons r rs ih =>
    intro s h
    rw [List.foldl_cons,
      JS.replaceChars_of_not_includes _ _ _ (h r (List.mem_cons_self _ _))]
    exact ih s (fun r' hr' => h r' (List.mem_cons_of_mem _ hr'))

/-- The rewrite of a URL with exactly one occurrence of one storage prefix and no
occurrence of the others, on character lists. -/
theorem replaceUrl_single_chars (r : String × String) (hr : r ∈ URL_REPLACEMENTS)
    (a b : List Char) (hone : JS.occurrencesChars r.1.data (a ++ (r.1.data ++ b)) = 1)
    (hothers : ∀ r' ∈ URL_REPLACEMENTS, r' ≠ r →
      JS.includesChars r'.1.data (a ++ (r.1.data ++ b)) = false) :
    URL_REPLACEMENTS.foldl (fun acc r => JS.replaceChars r.1.data r.2.data acc)
        (a ++ (r.1.data ++ b)) = a ++ (r.2.data ++ b) ∧
    ∀ r' ∈ URL_REPLACEMENTS, JS.includesChars r'.1.data (a ++ (r.2.data ++ b)) = false := by
  obtain ⟨h1, h2, h3⟩ :=
    JS.replaceChars_single r.1.data r.2.data b (replacements_patterns_ne_nil r hr) a hone
  have hclean : ∀ r' ∈ URL_REPLACEMENTS,
      JS.includesChars r'.1.data (a ++ (r.2.data ++ b)) = false := by
    intro r' hr'
    cases hinc : JS.includesChars r'.1.data (a ++ (r.2.data ++ b)) with
    | false => rfl
    | true =>
      exfalso
      have hov := replacements_do_not_overlap r hr r' hr'
      by_cases hrr : r' = r
      · subst hrr
        rcases JS.includes_around_text _ _ _ a hinc with h | h | h
        · rw [h1] at h; exact Bool.false_ne_true h
        · rw [h2] at h; exact Bool.false_ne_true h
        · rw [hov] at h; exact Bool.false_ne_true h
      · have hno := hothers r' hr' hrr
        rcases JS.includes_around_text _ _ _ a hinc with h | h | h
        · have := JS.includesChars_append_left _ a (r.1.data ++ b) h
          rw [hno] at this; exact Bool.false_ne_true this
        · have := JS.includesChars_append_right _ b (a ++ r.1.data) h
          rw [List.append_assoc, hno] at this; exact Bool.false_ne_true this
        · rw [hov] at h; exact Bool.false_ne_true h
  refine ⟨?_, hclean⟩
  obtain ⟨pre, post, hsplit⟩ := List.append_of_mem hr
  have hnodup := replacements_nodup
  rw [hsplit] at hnodup
  have hpre : ∀ r' ∈ pre, r' ≠ r := by
    intro r' hr' e
    subst e
    have := (List.nodup_append.1 hnodup).2.2
    exact this hr' (List.mem_cons_self _ _)
  have hmem : ∀ r', r' ∈ pre ∨ r' ∈ post → r' ∈ URL_REPLACEMENTS := by
    intro r' h
    rw [hsplit]
    rcases h with h | h
    · exact List.mem_append_left _ h
    · exact List.mem_append_right _ (List.mem_cons_of_mem _ h)
  rw [hsplit, List.foldl_append, List.foldl_cons,
    foldl_replace_of_not_includes pre _
      (fun r' hr' => hothers r' (hmem r' (Or.inl hr')) (hpre r' hr')),
    h3,
    foldl_replace_of_not_includes post _ (fun r' hr' => hclean r' (hmem r' (Or.inr hr')))]

/-- C20: a URL with exactly one occurrence of one of the four storage prefixes
and no occurrence of the other three is returned with that occurrence replaced by
the matching download prefix and the rest unchanged, and the result contains none
of the four storage prefixes; a URL that contains none of them is returned
unchanged. -/
theorem replaceUrl_single (url : String) :
    (∀ r ∈ URL_REPLACEMENTS, JS.occurrences url r.1 = 1 →
      (∀ r' ∈ URL_REPLACEMENTS, r' ≠ r → JS.includes url r'.1 = false) →
      ∃ a b : String, url = a ++ r.1 ++ b ∧ replaceUrl url = a ++ r.2 ++ b ∧
        ∀ r' ∈ URL_REPLACEMENTS, JS.includes (replaceUrl url) r'.1 = false) ∧
    ((∀ r ∈ URL_REPLACEMENTS, JS.includes url r.1 = false) → replaceUrl url = url) := by
  constructor
  · intro r hr hone hothers
    have hinc : JS.includesChars r.1.data url.data = true := by
      cases h : JS.includesChars r.1.data url.data with
      | true => rfl
      | false =>
        have := (JS.occurrencesChars_eq_zero _ _).2 h
        unfold JS.occurrences at hone
        omega
    obtain ⟨a, b, hab⟩ := (JS.includesChars_iff _ _).1 hinc
    rw [List.append_assoc] at hab
    have hone' : JS.occurrencesChars r.1.data (a ++ (r.1.data ++ b)) = 1 := by
      rw [← hab]; exact hone
    have hothers' : ∀ r' ∈ URL_REPLACEMENTS, r' ≠ r →
        JS.includesChars r'.1.data (a ++ (r.1.data ++ b)) = false := by
      intro r' hr' hne
      rw [← hab]; exact hothers r' hr' hne
    obtain ⟨hfold, hclean⟩ := replaceUrl_single_chars r hr a b hone' hothers'
    have hres : (replaceUrl url).data = a ++ (r.2.data ++ b) := by
      unfold replaceUrl
      rw [replaceUrl_data, hab]
      exact hfold
    refine ⟨⟨a⟩, ⟨b⟩, ?_, ?_, ?_⟩
    · apply String.ext
      simp [hab]
    · apply String.ext
      simp [hres]
    · intro r' hr'
      unfold JS.includes
      rw [hres]
      exact hclean r' hr'
  · intro h
    apply String.ext
    unfold replaceUrl
    rw [replaceUrl_data]
    exact foldl_replace_of_not_includes _ _ h

set_option maxRecDepth 100000 in
theorem replaceUrl_single_witness :
    (∃ a b : String,
      "https://mp4-high-es.ccma.cat.s3.eu-west-1.amazonaws.com/MP4_ALTA_IPTV_ES/1/2.mp4" =
        a ++ "mp4-high-es.ccma.cat.s3.eu-west-1.amazonaws.com/MP4_ALTA_IPTV_ES" ++ b ∧
      replaceUrl
          "https://mp4-high-es.ccma.cat.s3.eu-west-1.amazonaws.com/MP4_ALTA_IPTV_ES/1/2.mp4" =
        a ++ "mp4-down-high-es.3catvideos.cat" ++ b ∧
      ∀ r' ∈ URL_REPLACEMENTS,
        JS.includes
          (replaceUrl
            "https://mp4-high-es.ccma.cat.s3.eu-west-1.amazonaws.com/MP4_ALTA_IPTV_ES/1/2.mp4")
          r'.1 = false) ∧
    replaceUrl "https://x.ccma.cat/hd.mp4" = "https://x.ccma.cat/hd.mp4" :=
  ⟨(replaceUrl_single
      "https://mp4-high-es.ccma.cat.s3.eu-west-1.amazonaws.com/MP4_ALTA_IPTV_ES/1/2.mp4").1
      ("mp4-high-es.ccma.cat.s3.eu-west-1.amazonaws.com/MP4_ALTA_IPTV_ES",
        "mp4-down-high-es.3catvideos.cat")
      (by decide) (by decide) (by decide),
   (replaceUrl_single "https://x.ccma.cat/hd.mp4").2 (by decide)⟩

end VideoUrl

namespace JS

/-! ## Stability of the sort -/

theorem insertSorted_filter_key {α κ : Type} [DecidableEq κ] (cmp : α → α → Int) (key : α → κ)
    (hkey : ∀ a b, key a = key b → cmp a b ≤ 0) (k : κ) (x : α) (l : List α) :
    (insertSorted cmp x l).filter (fun e => key e == k) =
      (x :: l).filter (fun e => key e == k) := by
  induction l with
  | nil => rfl
  | cons y ys ih =>
    unfold insertSorted
    split
    · rfl
    · rename_i hxy
      have hne : key x ≠ key y := fun h => hxy (hkey x y h)
      rw [List.filter_cons, ih]
      by_cases hx : key x = k
      · have hy : ¬ key y = k := fun h => hne (hx.trans h.symm)
        simp [List.filter_cons, hx, hy]
      · simp [List.filter_cons, hx]

/-- The sort is stable: the elements of any one key keep their relative order,
for a key whose equal values the comparator takes as equal. -/
theorem sort_filter_key {α κ : Type} [DecidableEq κ] (cmp : α → α → Int) (key : α → κ)
    (hkey : ∀ a b, key a = key b → cmp a b ≤ 0) (k : κ) (l : List α) :
    (sort cmp l).filter (fun e => key e == k) = l.filter (fun e => key e == k) := by
  induction l with
  | nil => rfl
  | cons x xs ih =>
    unfold sort
    rw [insertSorted_filter_key cmp key hkey k x (sort cmp xs), List.filter_cons,
      List.filter_cons, ih]

/-! ## `parseInt` on a string of digits -/

theorem digitValue_of_isDigit (c : Char) (h : isDigit c = true) :
    digitValue c = some (c.toNat - 0x30) := by
  simp only [isDigit, Bool.and_eq_true, decide_eq_true_eq] at h
  unfold digitValue
  simp only
  rw [if_pos h]

theorem isRadixDigit_of_isDigit (c : Char) (h : isDigit c = true) :
    isRadixDigit 10 c = true := by
  have h' := h
  simp only [isDigit, Bool.and_eq_true, decide_eq_true_eq] at h'
  unfold isRadixDigit
  rw [digitValue_of_isDigit c h]
  simp only [decide_eq_true_eq]
  omega

theorem radixValue_foldl (digits : List Char) (hd : ∀ c ∈ digits, isDigit c = true) :
    ∀ acc, digits.foldl (fun acc c => 10 * acc + (digitValue c).getD 0) acc =
      digits.foldl (fun acc c => 10 * acc + (c.toNat - 0x30)) acc := by
  induction digits with
  | nil => intro acc; rfl
  | cons c cs ih =>
    intro acc
    have hc := digitValue_of_isDigit c (hd c (List.mem_cons_self _ _))
    simp only [List.foldl_cons, hc, Option.getD_some]
    exact ih (fun d hdm => hd d (List.mem_cons_of_mem _ hdm)) _

theorem radixValue_digits (digits : List Char) (hd : ∀ c ∈ digits, isDigit c = true) :
    radixValue 10 digits = decimalValue digits := by
  unfold radixValue
  rw [radixValue_foldl digits hd, parseInt_foldl]
  simp

/-- On a non-empty string of decimal digits, `parseInt` without radix reads the
decimal value. -/
theorem parseIntString_digits (digits : List Char) (hne : digits ≠ [])
    (hd : ∀ c ∈ digits, isDigit c = true) :
    parseIntString ⟨digits⟩ 0 = some (decimalValue digits : Int) := by
  cases digits with
  | nil => exact absurd rfl hne
  | cons c cs =>
    have hc : isDigit c = true := hd c (List.mem_cons_self _ _)
    have hc' := hc
    simp only [isDigit, Bool.and_eq_true, decide_eq_true_eq] at hc'
    have htrim : isTrimChar c = false := by
      cases ht : isTrimChar c with
      | false => rfl
      | true =>
        simp only [isTrimChar, Bool.or_eq_true, beq_iff_eq, Bool.and_eq_true,
          decide_eq_true_eq] at ht
        omega
    have hminus : c ≠ '-' := by
      intro h
      rw [h] at hc'
      simp at hc'
    have hplus : c ≠ '+' := by
      intro h
      rw [h] at hc'
      simp at hc'
    have hx : ∀ rest : List Char, ("0x".data).isPrefixOf (c :: cs) = false ∧
        ("0X".data).isPrefixOf (c :: cs) = false := by
      intro _
      cases cs with
      | nil => simp [List.isPrefixOf]
      | cons d ds =>
        have hdd : isDigit d = true := hd d (by simp)
        simp only [isDigit, Bool.and_eq_true, decide_eq_true_eq] at hdd
        have h1 : d ≠ 'x' := by
          intro h
          rw [h] at hdd
          simp at hdd
        have h2 : d ≠ 'X' := by
          intro h
          rw [h] at hdd
          simp at hdd
        have h1' : ¬ 'x' = d := fun h => h1 h.symm
        have h2' : ¬ 'X' = d := fun h => h2 h.symm
        simp [List.isPrefixOf, h1', h2']
    have htake : (c :: cs).takeWhile (isRadixDigit 10) = c :: cs :=
      List.takeWhile_eq_self_iff.2 (fun d hdm => isRadixDigit_of_isDigit d (hd d hdm))
    have hval := radixValue_digits (c :: cs) hd
    simp [parseIntString, List.dropWhile, htrim, hminus, hplus, (hx []).1, (hx []).2, htake,
      hval]

end JS

namespace JS

theorem numberOfInt_natCast (n : Nat) : numberOfInt (n : Int) = numberOfNat n := by
  unfold numberOfInt
  rw [if_neg (by omega)]
  simp

end JS

namespace Episodes

open Api

/-! ## The episode list -/

theorem byCapitol_le (a b : Episode) :
    byCapitol a b ≤ 0 ↔ JS.Num.le (capitolKey a) (capitolKey b) = true :=
  JS.Num.sortSign_le _ _

/-- The key of an episode whose `capitol` is a non-empty string of decimal
digits: the Number of their decimal value. -/
theorem capitolKey_digits (e : Episode) (digits : List Char) (he : e.capitol = some ⟨digits⟩)
    (hne : digits ≠ []) (hd : ∀ c ∈ digits, JS.isDigit c = true) :
    capitolKey e = JS.numberOfNat (JS.decimalValue digits) := by
  unfold capitolKey JS.parseIntValue
  rw [he]
  simp only
  rw [JS.parseIntString_digits digits hne hd]
  exact JS.numberOfInt_natCast _

/-- C11: when the loop ends with the accumulated items, the handler answers with
a list that is a permutation of them, non-decreasing in the key
`parseInt(e.capitol) || 0` (in the order `<=` of the Numbers), in which the
items of any one key keep the order in which they were accumulated, together
with the length of that list.  The key is the Number of the integer that
`parseInt` reads in `e.capitol`, and 0 when it reads none: for a `capitol` of
decimal digits it is the Number of their decimal value, that value itself up to
`2^53`.  The order of the keys is that of the integers, with `-Infinity` below
and `Infinity` above them. -/
theorem episodes_sorted (accumulated : List Episode) :
    (∀ (fetch : String → Reply) (programId season : String) (fuel : Nat),
      programId ≠ "" → season ≠ "" →
      collect fetch programId season fuel 1 [] = some (.finished accumulated) →
      handler fetch (some programId) (some season) fuel =
        some (.json 200 ⟨JS.sort byCapitol accumulated, (JS.sort byCapitol accumulated).length⟩)) ∧
    (JS.sort byCapitol accumulated).Perm accumulated ∧
    (JS.sort byCapitol accumulated).Pairwise
      (fun a b => JS.Num.le (capitolKey a) (capitolKey b) = true) ∧
    (∀ k : JS.Num, (JS.sort byCapitol accumulated).filter (fun e => capitolKey e == k) =
      accumulated.filter (fun e => capitolKey e == k)) ∧
    (JS.sort byCapitol accumulated).length = accumulated.length ∧
    (∀ e : Episode,
      (∀ n, JS.parseIntValue e.capitol = some n → capitolKey e = JS.numberOfInt n) ∧
      (JS.parseIntValue e.capitol = none → capitolKey e = .finite 0) ∧
      (e.capitol = none → capitolKey e = .finite 0) ∧
      (∀ digits, e.capitol = some ⟨digits⟩ → digits ≠ [] →
        (∀ c ∈ digits, JS.isDigit c = true) →
        capitolKey e = JS.numberOfNat (JS.decimalValue digits) ∧
        (JS.decimalValue digits ≤ 2 ^ 53 →
          capitolKey e = .finite (JS.decimalValue digits)))) ∧
    (capitolKey ⟨"e", some "12", none, none⟩ = .finite 12 ∧
      capitolKey ⟨"e", some " 2a", none, none⟩ = .finite 2 ∧
      capitolKey ⟨"e", some "-3", none, none⟩ = .finite (-3) ∧
      capitolKey ⟨"e", some "extra", none, none⟩ = .finite 0 ∧
      capitolKey ⟨"e", none, none, none⟩ = .finite 0) ∧
    ((∀ x y : Int, JS.Num.le (.finite x) (.finite y) = true ↔ x ≤ y) ∧
      (∀ x : JS.Num, JS.Num.le x .infinity = true) ∧
      (∀ x : Int, JS.Num.le .infinity (.finite x) = false) ∧
      (∀ x : JS.Num, JS.Num.le .negInfinity x = true) ∧
      (∀ x : Int, JS.Num.le (.finite x) .negInfinity = false) ∧
      JS.Num.le .infinity .negInfinity = false) := by
  refine ⟨?_, JS.sort_perm byCapitol accumulated, ?_, ?_,
    (JS.sort_perm byCapitol accumulated).length_eq, ?_, by decide, JS.Num.le_spec⟩
  · intro fetch programId season fuel hp hs hc
    have tp : JS.truthy (some programId) = some programId := by simp [JS.truthy, hp]
    have ts : JS.truthy (some season) = some season := by simp [JS.truthy, hs]
    simp only [handler, tp, ts, hc, respond]
  · have h := JS.sort_pairwise byCapitol
      (fun a b => by simp only [byCapitol_le]; exact JS.Num.le_total _ _)
      (fun a b c => by simp only [byCapitol_le]; exact JS.Num.le_trans) accumulated
    exact h.imp (fun {a b} hab => (byCapitol_le a b).1 hab)
  · intro k
    refine JS.sort_filter_key byCapitol capitolKey (fun a b h => ?_) k accumulated
    rw [byCapitol_le, h]
    exact JS.Num.le_refl _
  · intro e
    refine ⟨fun n hn => by simp only [capitolKey, hn], fun hn => by simp only [capitolKey, hn],
      fun hn => by simp only [capitolKey, JS.parseIntValue, hn], ?_⟩
    intro digits he hne hd
    have h := capitolKey_digits e digits he hne hd
    exact ⟨h, fun hle => by rw [h]; exact JS.numberOfNat_exact _ hle⟩

theorem sort_sampleEpisodes :
    (JS.sort byCapitol sampleEpisodes).map (·.id) = ["x", "e1", "e1b", "e2", "e3"] := by
  decide

theorem episodes_sorted_witness :
    handler sampleFetch (some "201088598") (some "1") 1 =
      some (.json 200 ⟨JS.sort byCapitol sampleEpisodes,
        (JS.sort byCapitol sampleEpisodes).length⟩) ∧
    sampleEpisodes.map (fun e => (e.id, capitolKey e)) =
      [("e3", .finite 3), ("e1", .finite 1), ("x", .finite 0), ("e1b", .finite 1),
       ("e2", .finite 2)] ∧
    (JS.sort byCapitol sampleEpisodes).map (·.id) = ["x", "e1", "e1b", "e2", "e3"] ∧
    bigEpisodes.map (fun e => (e.id, capitolKey e)) =
      [("a", .finite (2 ^ 53)), ("b", .finite (2 ^ 53)), ("c", .finite 7)] ∧
    (JS.sort byCapitol bigEpisodes).map (·.id) = ["c", "a", "b"] :=
  ⟨(episodes_sorted sampleEpisodes).1 sampleFetch "201088598" "1" 1 (by decide) (by decide)
    (by decide), by decide, by decide, by decide, by decide⟩

end Episodes

namespace SeriesInfo

open Api

/-! ## The seasons -/

theorem seasonCheck_eq (fetch : String → Reply) (programId : String) (s : Nat) :
    seasonCheck fetch programId s =
      match probeTotal fetch programId s with
      | some total =>
          if total > 0 then
            some { num := s, total := total, id := "PUTEMP_" ++ toString s,
                   name := toString s ++ "a Temporada" }
          else none
      | none => none := by
  unfold seasonCheck probeTotal
  cases fetch (seasonUrl programId s) with
  | failed => rfl
  | response ok json =>
    cases json with
    | none => rfl
    | some data => rfl

theorem mem_seasonNumbers (s : Nat) : s ∈ seasonNumbers ↔ 1 ≤ s ∧ s ≤ 15 := by
  unfold seasonNumbers
  simp only [List.mem_map, List.mem_range]
  constructor
  · rintro ⟨a, ha, rfl⟩; omega
  · rintro ⟨h1, h2⟩; exact ⟨s - 1, by omega, by omega⟩

theorem seasonCheck_eq_some (fetch : String → Reply) (programId : String) (s : Nat)
    (season : Season) :
    seasonCheck fetch programId s = some season ↔
      season.num = s ∧ probeTotal fetch programId s = some season.total ∧ 0 < season.total ∧
      season.id = "PUTEMP_" ++ toString s ∧ season.name = toString s ++ "a Temporada" := by
  rw [seasonCheck_eq]
  cases hp : probeTotal fetch programId s with
  | none => simp
  | some total =>
    by_cases ht : total > 0
    · simp only [ht, if_true, Option.some.injEq]
      constructor
      · rintro rfl; exact ⟨rfl, rfl, ht, rfl, rfl⟩
      · rintro ⟨h1, h2, _, h4, h5⟩
        obtain ⟨num, tot, id, name⟩ := season
        simp only at h1 h2 h4 h5
        subst h1 h4 h5
        rw [h2]
    · simp only [ht, if_false]
      constructor
      · intro h; cases h
      · rintro ⟨_, h2, h3, _⟩
        have := Option.some.inj h2
        omega

/-- What the handler answers once the page has given a program identifier. -/
theorem handler_after_page (env : Env) (url : Option String) (u slug html text : String)
    (parsed : Parsed) (programId : String)
    (hu : JS.truthy url = some u) (hslug : slugMatch u = some slug)
    (hpage : env.fetchPage (pageUrl slug) = .response true (some html))
    (hnext : nextDataMatch html = some text) (hparse : env.parseJson text = some parsed)
    (hid : env.programIdMatch parsed.fullText = some programId) :
    handler env url =
      if (seasonsOf env.fetchListing programId).length = 0 then
        .error 404 "No s'han trobat temporades per a aquesta sèrie"
      else
        .json 200
          { programId := programId
            title := JS.orElse ((firstProps parsed.nextData).bind (·.titol)) slug
            description := JS.orElse ((firstProps parsed.nextData).bind (·.descripcio)) ""
            slug := slug
            thumbnail := thumbnailOf (((firstProps parsed.nextData).bind (·.imatges)).getD [])
            seasons := seasonsOf env.fetchListing programId } := by
  simp only [handler, hu, hslug, hpage, hnext, hparse, hid]

theorem sampleEnv_page :
    JS.truthy (some "https://www.3cat.cat/3cat/teo/") = some "https://www.3cat.cat/3cat/teo/" ∧
    slugMatch "https://www.3cat.cat/3cat/teo/" = some "teo" ∧
    sampleEnv.fetchPage (pageUrl "teo") =
      .response true
        (some "<script id=\"__NEXT_DATA__\" type=\"application/json\">DATA</script>") ∧
    nextDataMatch "<script id=\"__NEXT_DATA__\" type=\"application/json\">DATA</script>" =
      some "DATA" := by
  decide

/-- C12: the seasons are exactly the season numbers from 1 to 15 whose probe
succeeded with a total greater than zero, each with its total and the selector
`PUTEMP_<n>`, in strictly ascending order of number; when only seasons 1 and 3
report a positive total the list is season 1 followed by season 3; when no probe
reports a positive total the list is empty and the handler answers 404. -/
theorem seasons_exact (fetch : String → Reply) (programId : String) :
    (∀ season : Season, season ∈ seasonsOf fetch programId ↔
      (1 ≤ season.num ∧ season.num ≤ 15 ∧
        probeTotal fetch programId season.num = some season.total ∧ 0 < season.total ∧
        season.id = "PUTEMP_" ++ toString season.num ∧
        season.name = toString season.num ++ "a Temporada")) ∧
    (seasonsOf fetch programId).Pairwise (fun a b => a.num < b.num) ∧
    (∀ t1 t3 : Nat, 0 < t1 → 0 < t3 →
      (∀ s, 1 ≤ s → s ≤ 15 →
        probeTotal fetch programId s = some (if s = 1 then t1 else if s = 3 then t3 else 0)) →
      seasonsOf fetch programId =
        [⟨1, t1, "PUTEMP_1", "1a Temporada"⟩, ⟨3, t3, "PUTEMP_3", "3a Temporada"⟩]) ∧
    ((∀ s, 1 ≤ s → s ≤ 15 → probeTotal fetch programId s = none ∨
        probeTotal fetch programId s = some 0) →
      seasonsOf fetch programId = [] ∧
      ∀ (env : Env) (url : Option String) (u slug html text : String) (parsed : Parsed),
        env.fetchListing = fetch → JS.truthy url = some u → slugMatch u = some slug →
        env.fetchPage (pageUrl slug) = .response true (some html) →
        nextDataMatch html = some text → env.parseJson text = some parsed →
        env.programIdMatch parsed.fullText = some programId →
        handler env url = .error 404 "No s'han trobat temporades per a aquesta sèrie") ∧
    (seasonsOf fetch programId ≠ [] →
      ∀ (env : Env) (url : Option String) (u slug html text : String) (parsed : Parsed),
        env.fetchListing = fetch → JS.truthy url = some u → slugMatch u = some slug →
        env.fetchPage (pageUrl slug) = .response true (some html) →
        nextDataMatch html = some text → env.parseJson text = some parsed →
        env.programIdMatch parsed.fullText = some programId →
        ∃ r, handler env url = .json 200 r ∧ r.seasons = seasonsOf fetch programId) := by
  have hmem : ∀ season : Season, season ∈ seasonsOf fetch programId ↔
      (1 ≤ season.num ∧ season.num ≤ 15 ∧
        probeTotal fetch programId season.num = some season.total ∧ 0 < season.total ∧
        season.id = "PUTEMP_" ++ toString season.num ∧
        season.name = toString season.num ++ "a Temporada") := by
    intro season
    unfold seasonsOf
    rw [List.mem_filterMap]
    constructor
    · rintro ⟨s, hs, hc⟩
      rw [seasonCheck_eq_some] at hc
      obtain ⟨h1, h2, h3, h4, h5⟩ := hc
      rw [mem_seasonNumbers] at hs
      rw [h1]
      exact ⟨hs.1, hs.2, h2, h3, h4, h5⟩
    · rintro ⟨h1, h2, h3, h4, h5, h6⟩
      exact ⟨season.num, (mem_seasonNumbers _).2 ⟨h1, h2⟩,
        (seasonCheck_eq_some _ _ _ _).2 ⟨rfl, h3, h4, h5, h6⟩⟩
  refine ⟨hmem, ?_, ?_, ?_, ?_⟩
  · unfold seasonsOf
    rw [List.pairwise_filterMap]
    have hnum : seasonNumbers.Pairwise (· < ·) := by decide
    refine hnum.imp ?_
    intro a b hab sa hsa sb hsb
    have ha := ((seasonCheck_eq_some _ _ _ _).1 (Option.mem_def.1 hsa)).1
    have hb := ((seasonCheck_eq_some _ _ _ _).1 (Option.mem_def.1 hsb)).1
    omega
  · intro t1 t3 h1 h3 h
    have hc : ∀ s, 1 ≤ s → s ≤ 15 → seasonCheck fetch programId s =
        if s = 1 then some ⟨1, t1, "PUTEMP_1", "1a Temporada"⟩
        else if s = 3 then some ⟨3, t3, "PUTEMP_3", "3a Temporada"⟩ else none := by
      intro s hs1 hs2
      have n1 : ("PUTEMP_" ++ toString 1 : String) = "PUTEMP_1" := by decide
      have n3 : ("PUTEMP_" ++ toString 3 : String) = "PUTEMP_3" := by decide
      have m1 : (toString 1 ++ "a Temporada" : String) = "1a Temporada" := by decide
      have m3 : (toString 3 ++ "a Temporada" : String) = "3a Temporada" := by decide
      rw [seasonCheck_eq, h s hs1 hs2]
      by_cases e1 : s = 1
      · subst e1
        simp only [if_true, gt_iff_lt, h1, n1, m1]
      · by_cases e3 : s = 3
        · subst e3
          simp only [if_true, gt_iff_lt, h3, n3, m3, e1, if_false]
        · simp only [e1, e3, if_false, gt_iff_lt, Nat.lt_irrefl]
    unfold seasonsOf
    rw [List.filterMap_congr (fun s hs =>
      hc s ((mem_seasonNumbers s).1 hs).1 ((mem_seasonNumbers s).1 hs).2)]
    rfl
  · intro h
    have hnil : seasonsOf fetch programId = [] := by
      rw [List.eq_nil_iff_forall_not_mem]
      intro season hs
      obtain ⟨h1, h2, h3, h4, _⟩ := (hmem season).1 hs
      rcases h season.num h1 h2 with hn | hz
      · rw [hn] at h3; cases h3
      · rw [hz] at h3
        have := Option.some.inj h3
        omega
    refine ⟨hnil, ?_⟩
    intro env url u slug html text parsed hf hu hslug hpage hnext hparse hid
    rw [handler_after_page env url u slug html text parsed programId hu hslug hpage hnext
      hparse hid, hf, hnil]
    rfl
  · intro hne env url u slug html text parsed hf hu hslug hpage hnext hparse hid
    rw [handler_after_page env url u slug html text parsed programId hu hslug hpage hnext
      hparse hid, hf]
    have hlen : ¬ (seasonsOf fetch programId).length = 0 := by
      intro h0
      exact hne (List.length_eq_zero.1 h0)
    rw [if_neg hlen]
    exact ⟨_, rfl, rfl⟩

set_option maxRecDepth 100000 in
theorem sampleListing_totals :
    ∀ s, 1 ≤ s → s ≤ 15 →
      probeTotal sampleListing "201088598" s =
        some (if s = 1 then 26 else if s = 3 then 13 else 0) := by
  intro s h1 h2
  have h : s ∈ seasonNumbers := (mem_seasonNumbers s).2 ⟨h1, h2⟩
  revert s
  decide

theorem seasons_exact_witness :
    seasonsOf sampleListing "201088598" =
      [⟨1, 26, "PUTEMP_1", "1a Temporada"⟩, ⟨3, 13, "PUTEMP_3", "3a Temporada"⟩] :=
  (seasons_exact sampleListing "201088598").2.2.1 26 13 (by decide) (by decide)
    sampleListing_totals

/-! ## The thumbnail -/

theorem truthy_eq_urlOf (i : Option Image) : JS.truthy (i.bind (·.text)) = urlOf i := by
  cases i with
  | none => rfl
  | some img =>
    cases h : img.text with
    | none => simp [urlOf, JS.truthy, h]
    | some t => simp [urlOf, JS.truthy, h]

theorem thumbnailOf_eq (images : List Image) :
    thumbnailOf images =
      match urlOf (images.find? isWide) with
      | some t => some t
      | none =>
          match urlOf (images.find? isMaster) with
          | some t => some t
          | none => urlOf images.head? := by
  unfold thumbnailOf
  rw [truthy_eq_urlOf, truthy_eq_urlOf, truthy_eq_urlOf]

theorem urlOf_eq_some (img : Image) (t : String) (h : img.text = some t) (ht : t ≠ "") :
    urlOf (some img) = some t := by
  simp [urlOf, h, ht]

/-- C13, as stated, fails: a widescreen-labelled variant exists, but it has no
text, and the thumbnail is the text of the `MASTER` variant, not that of the
widescreen one. -/
theorem thumbnail_priority_counterexample :
    sampleImages.find? isWide = some ⟨some "IMATGE_169", some "670x378", none⟩ ∧
    thumbnailOf sampleImages = some "https://img.3cat.cat/master.jpg" ∧
    thumbnailOf sampleImages ≠
      (⟨some "IMATGE_169", some "670x378", none⟩ : Image).text := by
  decide

/-- C13, amended: the thumbnail is the text of the first variant whose
`rel_name` is `IMATGE_169` or `imatge_169`, if there is one and its text is not
empty; otherwise the text of the first variant of size `MASTER`, if there is one
and its text is not empty; otherwise the text of the first image, if it is not
empty; otherwise none.  When every image has a non-empty text this is the
priority by existence alone.  The handler answers with this thumbnail for the
images of the first structural node. -/
theorem thumbnail_priority (images : List Image) :
    (∀ w t, images.find? isWide = some w → w.text = some t → t ≠ "" →
      thumbnailOf images = some t) ∧
    (urlOf (images.find? isWide) = none →
      ∀ m t, images.find? isMaster = some m → m.text = some t → t ≠ "" →
        thumbnailOf images = some t) ∧
    (urlOf (images.find? isWide) = none → urlOf (images.find? isMaster) = none →
      ∀ f t, images.head? = some f → f.text = some t → t ≠ "" →
        thumbnailOf images = some t) ∧
    (urlOf (images.find? isWide) = none → urlOf (images.find? isMaster) = none →
      urlOf images.head? = none → thumbnailOf images = none) ∧
    (images = [] → thumbnailOf images = none) ∧
    ((∀ i ∈ images, ∃ t, i.text = some t ∧ t ≠ "") →
      (∀ w, images.find? isWide = some w → thumbnailOf images = w.text) ∧
      (images.find? isWide = none →
        ∀ m, images.find? isMaster = some m → thumbnailOf images = m.text) ∧
      (images.find? isWide = none → images.find? isMaster = none →
        thumbnailOf images = images.head?.bind (·.text))) ∧
    (∀ (env : Env) (url : Option String) (u slug html text : String) (parsed : Parsed)
      (programId : String) (r : Result),
      JS.truthy url = some u → slugMatch u = some slug →
      env.fetchPage (pageUrl slug) = .response true (some html) →
      nextDataMatch html = some text → env.parseJson text = some parsed →
      env.programIdMatch parsed.fullText = some programId →
      (firstProps parsed.nextData).bind (·.imatges) = some images →
      handler env url = .json 200 r → r.thumbnail = thumbnailOf images) := by
  have hfirst : ∀ w t, images.find? isWide = some w → w.text = some t → t ≠ "" →
      thumbnailOf images = some t := by
    intro w t hw ht hne
    rw [thumbnailOf_eq, hw, urlOf_eq_some w t ht hne]
  have hsecond : urlOf (images.find? isWide) = none →
      ∀ m t, images.find? isMaster = some m → m.text = some t → t ≠ "" →
        thumbnailOf images = some t := by
    intro h1 m t hm ht hne
    rw [thumbnailOf_eq, h1, hm, urlOf_eq_some m t ht hne]
  have hthird : urlOf (images.find? isWide) = none → urlOf (images.find? isMaster) = none →
      ∀ f t, images.head? = some f → f.text = some t → t ≠ "" →
        thumbnailOf images = some t := by
    intro h1 h2 f t hf ht hne
    rw [thumbnailOf_eq, h1, h2, hf, urlOf_eq_some f t ht hne]
  refine ⟨hfirst, hsecond, hthird, ?_, ?_, ?_, ?_⟩
  · intro h1 h2 h3
    rw [thumbnailOf_eq, h1, h2, h3]
  · intro h
    subst h
    rfl
  · intro hall
    have hmemfind : ∀ (p : Image → Bool) (x : Image), images.find? p = some x → x ∈ images :=
      fun p x hx => List.mem_of_find?_eq_some hx
    refine ⟨?_, ?_, ?_⟩
    · intro w hw
      obtain ⟨t, ht, hne⟩ := hall w (hmemfind _ w hw)
      rw [hfirst w t hw ht hne, ht]
    · intro hw m hm
      obtain ⟨t, ht, hne⟩ := hall m (hmemfind _ m hm)
      rw [hsecond (by rw [hw]; rfl) m t hm ht hne, ht]
    · intro hw hm
      cases himg : images with
      | nil => rfl
      | cons f rest =>
        obtain ⟨t, ht, hne⟩ := hall f (by rw [himg]; exact List.mem_cons_self _ _)
        rw [← himg, hthird (by rw [hw]; rfl) (by rw [hm]; rfl) f t (by rw [himg]; rfl) ht hne,
          himg]
        simp [ht]
  · intro env url u slug html text parsed programId r hu hslug hpage hnext hparse hid himg hr
    rw [handler_after_page env url u slug html text parsed programId hu hslug hpage hnext
      hparse hid] at hr
    split at hr
    · cases hr
    · simp only [Response.json.injEq, true_and] at hr
      rw [← hr, himg]
      rfl

theorem thumbnail_priority_witness :
    thumbnailOf sampleImages = some "https://img.3cat.cat/master.jpg" :=
  (thumbnail_priority sampleImages).2.1 (by decide) ⟨none, some "MASTER", some "https://img.3cat.cat/master.jpg"⟩
    "https://img.3cat.cat/master.jpg" (by decide) rfl (by decide)

end SeriesInfo

namespace JS

/-! ## Trimming -/

theorem takeWhile_append_of_head {p : Char → Bool} (run post : List Char)
    (hrun : ∀ x ∈ run, p x = true) (hpost : ∀ c, post.head? = some c → p c = false) :
    (run ++ post).takeWhile p = run := by
  induction run with
  | nil =>
    cases post with
    | nil => rfl
    | cons c cs => simp [List.takeWhile, hpost c rfl]
  | cons x xs ih =>
    have hx : p x = true := hrun x (List.mem_cons_self _ _)
    have ih' := ih (fun y hy => hrun y (List.mem_cons_of_mem _ hy))
    simp only [List.cons_append, List.takeWhile_cons, hx, if_true, ih']

theorem dropWhile_append_of_head {p : Char → Bool} (run post : List Char)
    (hrun : ∀ x ∈ run, p x = true) (hpost : ∀ c, post.head? = some c → p c = false) :
    (run ++ post).dropWhile p = post := by
  induction run with
  | nil =>
    cases post with
    | nil => rfl
    | cons c cs => simp [List.dropWhile, hpost c rfl]
  | cons x xs ih =>
    have hx : p x = true := hrun x (List.mem_cons_self _ _)
    have ih' := ih (fun y hy => hrun y (List.mem_cons_of_mem _ hy))
    simp only [List.cons_append, List.dropWhile_cons, hx, if_true, ih']

theorem dropWhile_of_head {p : Char → Bool} (l : List Char)
    (h : ∀ c, l.head? = some c → p c = false) : l.dropWhile p = l := by
  simpa using dropWhile_append_of_head (p := p) [] l (by simp) h

theorem trim_sublist (s : String) : (trim s).data.Sublist s.data := by
  unfold trim
  have h1 : (s.data.dropWhile isTrimChar).reverse.dropWhile isTrimChar <:+
      (s.data.dropWhile isTrimChar).reverse := List.dropWhile_suffix _
  have h2 := (List.reverse_prefix.2 h1).sublist
  rw [List.reverse_reverse] at h2
  exact h2.trans (List.dropWhile_sublist _)

theorem trim_head (s : String) (c : Char) (h : (trim s).data.head? = some c) :
    isTrimChar c = false := by
  unfold trim at h
  have h1 : (s.data.dropWhile isTrimChar).reverse.dropWhile isTrimChar <:+
      (s.data.dropWhile isTrimChar).reverse := List.dropWhile_suffix _
  have h2 : ((s.data.dropWhile isTrimChar).reverse.dropWhile isTrimChar).reverse <+:
      s.data.dropWhile isTrimChar := by
    have := List.reverse_prefix.2 h1
    rwa [List.reverse_reverse] at this
  obtain ⟨t, ht⟩ := h2
  have h3 : (s.data.dropWhile isTrimChar).head? = some c := by
    rw [← ht]
    simp only at h
    cases hx : ((s.data.dropWhile isTrimChar).reverse.dropWhile isTrimChar).reverse with
    | nil => rw [hx] at h; cases h
    | cons y ys => rw [hx] at h; simpa using h
  have h4 := List.head?_dropWhile_not isTrimChar s.data
  rw [h3] at h4
  simpa using h4

theorem trim_last (s : String) (c : Char) (h : (trim s).data.getLast? = some c) :
    isTrimChar c = false := by
  unfold trim at h
  simp only [List.getLast?_reverse] at h
  have h4 := List.head?_dropWhile_not isTrimChar (s.data.dropWhile isTrimChar).reverse
  rw [h] at h4
  simpa using h4

/-- A string without white space at its ends is left as it is by `trim`. -/
theorem trim_of_trimmed (s : String) (hhead : ∀ c, s.data.head? = some c → isTrimChar c = false)
    (hlast : ∀ c, s.data.getLast? = some c → isTrimChar c = false) : trim s = s := by
  unfold trim
  apply String.ext
  simp only
  rw [dropWhile_of_head s.data hhead,
    dropWhile_of_head s.data.reverse (by simpa using hlast), List.reverse_reverse]

end JS

namespace Index

open Api

/-! ## The file name -/

theorem sanitizeFilename_safe (name : String) :
    (∀ c ∈ (sanitizeFilename name).data, isUnsafeChar c = false) ∧
    (∀ c, (sanitizeFilename name).data.head? = some c → JS.isTrimChar c = false) ∧
    (∀ c, (sanitizeFilename name).data.getLast? = some c → JS.isTrimChar c = false) := by
  refine ⟨?_, JS.trim_head _, JS.trim_last _⟩
  intro c hc
  have h1 := (JS.trim_sublist ⟨name.data.filter (fun c => !isUnsafeChar c)⟩).subset hc
  have h2 := (List.mem_filter.1 h1).2
  simpa using h2

theorem sanitizeFilename_of_safe (name : String)
    (hsafe : ∀ c ∈ name.data, isUnsafeChar c = false)
    (hhead : ∀ c, name.data.head? = some c → JS.isTrimChar c = false)
    (hlast : ∀ c, name.data.getLast? = some c → JS.isTrimChar c = false) :
    sanitizeFilename name = name := by
  unfold sanitizeFilename
  have hf : name.data.filter (fun c => !isUnsafeChar c) = name.data := by
    rw [List.filter_eq_self]
    intro c hc
    simp [hsafe c hc]
  rw [hf]
  exact JS.trim_of_trimmed name hhead hlast

theorem isUnsafeChar_of_mem (c : Char) (h : c ∈ "/\\?*:<>\"|".data) : isUnsafeChar c = true := by
  have hall : ∀ d ∈ "/\\?*:<>\"|".data, isUnsafeChar d = true := by decide
  exact hall c h

theorem not_isDigit_of_isTrimChar (c : Char) (h : JS.isTrimChar c = true) :
    JS.isDigit c = false := by
  simp only [JS.isTrimChar, Bool.or_eq_true, beq_iff_eq, Bool.and_eq_true,
    decide_eq_true_eq] at h
  simp only [JS.isDigit, Bool.and_eq_false_iff, decide_eq_false_iff_not]
  omega

theorem not_isDigit_of_isDash (c : Char) (h : isDash c = true) : JS.isDigit c = false := by
  simp only [isDash, Bool.or_eq_true, beq_iff_eq] at h
  simp only [JS.isDigit, Bool.and_eq_false_iff, decide_eq_false_iff_not]
  omega

theorem not_isTrimChar_of_isDash (c : Char) (h : isDash c = true) :
    JS.isTrimChar c = false := by
  simp only [isDash, Bool.or_eq_true, beq_iff_eq] at h
  cases hc : JS.isTrimChar c with
  | false => rfl
  | true =>
    simp only [JS.isTrimChar, Bool.or_eq_true, beq_iff_eq, Bool.and_eq_true,
      decide_eq_true_eq] at hc
    omega

/-- The title prefix is removed: `T`, digits, `xC`, digits, white space, a dash
and white space in front of a rest that does not start with white space. -/
theorem stripTagChars_tagged (d1 d2 ws1 ws2 rest : List Char) (dash : Char)
    (hd1 : d1 ≠ []) (hd1' : ∀ c ∈ d1, JS.isDigit c = true)
    (hd2 : d2 ≠ []) (hd2' : ∀ c ∈ d2, JS.isDigit c = true)
    (hws1 : ∀ c ∈ ws1, JS.isTrimChar c = true) (hdash : isDash dash = true)
    (hws2 : ∀ c ∈ ws2, JS.isTrimChar c = true)
    (hrest : ∀ c, rest.head? = some c → JS.isTrimChar c = false) :
    stripTagChars ('T' :: (d1 ++ 'x' :: 'C' :: (d2 ++ (ws1 ++ dash :: (ws2 ++ rest))))) =
      rest := by
  have hx : ∀ c, ('x' :: 'C' :: (d2 ++ (ws1 ++ dash :: (ws2 ++ rest)))).head? = some c →
      JS.isDigit c = false := by
    intro c hc
    simp only [List.head?_cons, Option.some.injEq] at hc
    subst hc
    decide
  have hafter2 : ∀ c, (ws1 ++ dash :: (ws2 ++ rest)).head? = some c → JS.isDigit c = false := by
    intro c hc
    cases ws1 with
    | nil =>
      simp only [List.nil_append, List.head?_cons, Option.some.injEq] at hc
      subst hc
      exact not_isDigit_of_isDash _ hdash
    | cons w ws =>
      simp only [List.cons_append, List.head?_cons, Option.some.injEq] at hc
      subst hc
      exact not_isDigit_of_isTrimChar _ (hws1 _ (List.mem_cons_self _ _))
  have hdashhead : ∀ c, (dash :: (ws2 ++ rest)).head? = some c → JS.isTrimChar c = false := by
    intro c hc
    simp only [List.head?_cons, Option.some.injEq] at hc
    subst hc
    exact not_isTrimChar_of_isDash _ hdash
  have t1 := JS.takeWhile_append_of_head d1 _ hd1' hx
  have r1 := JS.dropWhile_append_of_head d1 _ hd1' hx
  have t2 := JS.takeWhile_append_of_head d2 _ hd2' hafter2
  have r2 := JS.dropWhile_append_of_head d2 _ hd2' hafter2
  have r3 := JS.dropWhile_append_of_head ws1 _ hws1 hdashhead
  have r4 := JS.dropWhile_append_of_head ws2 _ hws2 hrest
  have e1 : d1.isEmpty = false := by cases d1 with | nil => exact absurd rfl hd1 | cons _ _ => rfl
  have e2 : d2.isEmpty = false := by cases d2 with | nil => exact absurd rfl hd2 | cons _ _ => rfl
  simp only [stripTagChars, t1, r1, t2, r2, r3, r4, e1, e2, hdash, Bool.false_eq_true, if_false,
    if_true]

/-- C14: with the format `txcx`, `buildFilename` removes from the raw title a
leading `T<digits>xC<digits>` followed by optional white space, a hyphen or en
dash and optional white space, and returns the sanitized
`<series title> - T<season>xC<episode number> - <stripped title>` followed by
`.mp4` (sanitizing changes nothing when the text has no unsafe character and no
white space at its ends); for `My Show`, season 1, episode 5 and the raw title
`T1xC54 - The Big One` the result is `My Show - T1xC5 - The Big One.mp4`. -/
theorem buildFilename_txcx (seriesTitle : String) (seasonNum episodeNum : Nat) :
    (∀ rawTitle : String,
      buildFilename seriesTitle seasonNum episodeNum (.title rawTitle) "txcx" =
        sanitizeFilename
          (seriesTitle ++ " - " ++ ("T" ++ toString seasonNum ++ "xC" ++ toString episodeNum) ++
            " - " ++ JS.trim (stripTag rawTitle)) ++ ".mp4") ∧
    (∀ e : Episode,
      buildFilename seriesTitle seasonNum episodeNum (.object e) "txcx" =
        sanitizeFilename
          (seriesTitle ++ " - " ++
            ("T" ++ toString seasonNum ++ "xC" ++ JS.orElse e.capitol (toString episodeNum)) ++
            " - " ++
            JS.trim (stripTag (JS.orElse e.titol ("Episodi " ++ toString episodeNum)))) ++
          ".mp4") ∧
    (∀ (d1 d2 ws1 ws2 rest : List Char) (dash : Char),
      d1 ≠ [] → (∀ c ∈ d1, JS.isDigit c = true) → d2 ≠ [] → (∀ c ∈ d2, JS.isDigit c = true) →
      (∀ c ∈ ws1, JS.isTrimChar c = true) → (dash = '-' ∨ dash = '–') →
      (∀ c ∈ ws2, JS.isTrimChar c = true) →
      (∀ c, rest.head? = some c → JS.isTrimChar c = false) →
      stripTag ⟨'T' :: (d1 ++ 'x' :: 'C' :: (d2 ++ (ws1 ++ dash :: (ws2 ++ rest))))⟩ = ⟨rest⟩) ∧
    (∀ name : String, (∀ c ∈ name.data, isUnsafeChar c = false) →
      (∀ c, name.data.head? = some c → JS.isTrimChar c = false) →
      (∀ c, name.data.getLast? = some c → JS.isTrimChar c = false) →
      sanitizeFilename name = name) ∧
    buildFilename "My Show" 1 5 (.title "T1xC54 - The Big One") "txcx" =
      "My Show - T1xC5 - The Big One.mp4" := by
  refine ⟨?_, ?_, ?_, ?_, by decide⟩
  · intro rawTitle
    simp [buildFilename, episodePart, rawTitleOf]
  · intro e
    simp [buildFilename, episodePart, rawTitleOf]
  · intro d1 d2 ws1 ws2 rest dash hd1 hd1' hd2 hd2' hws1 hdash hws2 hrest
    have hdash' : isDash dash = true := by
      rcases hdash with rfl | rfl <;> decide
    unfold stripTag
    rw [stripTagChars_tagged d1 d2 ws1 ws2 rest dash hd1 hd1' hd2 hd2' hws1 hdash' hws2 hrest]
  · intro name hsafe hhead hlast
    exact sanitizeFilename_of_safe name hsafe hhead hlast

theorem buildFilename_txcx_witness :
    stripTag ⟨'T' :: (['1'] ++ 'x' :: 'C' :: (['5', '4'] ++ ([' '] ++ '-' :: ([' '] ++
      "The Big One".data))))⟩ = ⟨"The Big One".data⟩ :=
  (buildFilename_txcx "My Show" 1 5).2.2.1 ['1'] ['5', '4'] [' '] [' '] "The Big One".data '-'
    (by decide) (by decide) (by decide) (by decide) (by decide) (Or.inl rfl) (by decide)
    (by decide)

theorem padStart_spec (s : String) (n : Nat) (pad : Char) :
    n ≤ (JS.padStart s n pad).length ∧
    JS.padStart s n pad = ⟨List.replicate (n - s.length) pad⟩ ++ s := by
  constructor
  · simp only [JS.padStart, String.length, List.length_append, List.length_replicate]
    omega
  · apply String.ext
    simp [JS.padStart]

/-- C15: for every series title, season number, episode number, episode and
format, the result of `buildFilename` is a base name followed by `.mp4`, where
the base name has none of the characters `/ \ ? * : < > " |` and no white space
at its ends; in the format `sxxexx` the tag is `S` and `E`, each followed by the
number left-padded with zeros to at least two digits: season 1, episode 1 gives
`S01E01`. -/
theorem buildFilename_safe (seriesTitle : String) (seasonNum episodeNum : Nat)
    (episode : EpisodeArg) (titleFormat : String) :
    (∃ base : String,
      buildFilename seriesTitle seasonNum episodeNum episode titleFormat = base ++ ".mp4" ∧
      (∀ c ∈ base.data, c ∉ "/\\?*:<>\"|".data) ∧
      (∀ c, base.data.head? = some c → JS.isTrimChar c = false) ∧
      (∀ c, base.data.getLast? = some c → JS.isTrimChar c = false)) ∧
    (buildFilename seriesTitle seasonNum episodeNum episode "sxxexx" =
      sanitizeFilename
        (seriesTitle ++ " - " ++ episodePart seasonNum episodeNum episode "sxxexx" ++ " - " ++
          JS.trim (stripTag (rawTitleOf episodeNum episode))) ++ ".mp4") ∧
    (episodePart seasonNum episodeNum episode "sxxexx" =
      "S" ++ (⟨List.replicate (2 - (toString seasonNum).length) '0'⟩ ++ toString seasonNum) ++
        "E" ++
        (⟨List.replicate (2 - (toString episodeNum).length) '0'⟩ ++ toString episodeNum)) ∧
    (2 ≤ (JS.padStart (toString seasonNum) 2 '0').length ∧
      2 ≤ (JS.padStart (toString episodeNum) 2 '0').length) ∧
    episodePart 1 1 episode "sxxexx" = "S01E01" ∧
    buildFilename "My Show" 1 1 (.title "Pilot") "sxxexx" = "My Show - S01E01 - Pilot.mp4" := by
  refine ⟨?_, ?_, ?_, ⟨(padStart_spec _ 2 '0').1, (padStart_spec _ 2 '0').1⟩, ?_, by decide⟩
  · have key : ∀ name : String,
        (∀ c ∈ (sanitizeFilename name).data, c ∉ "/\\?*:<>\"|".data) ∧
        (∀ c, (sanitizeFilename name).data.head? = some c → JS.isTrimChar c = false) ∧
        (∀ c, (sanitizeFilename name).data.getLast? = some c → JS.isTrimChar c = false) := by
      intro name
      obtain ⟨h1, h2, h3⟩ := sanitizeFilename_safe name
      refine ⟨?_, h2, h3⟩
      intro c hc hmem
      have := isUnsafeChar_of_mem c hmem
      rw [h1 c hc] at this
      exact Bool.false_ne_true this
    unfold buildFilename
    by_cases hf : titleFormat = "titol_complet"
    · simp only [hf, if_true]
      exact ⟨_, rfl, key _⟩
    · simp only [hf, if_false]
      exact ⟨_, rfl, key _⟩
  · simp [buildFilename]
  · have hne : ¬ ("sxxexx" = "txcx") := by decide
    simp only [episodePart, hne, if_false, (padStart_spec _ 2 '0').2]
  · have hne : ¬ ("sxxexx" = "txcx") := by decide
    simp only [episodePart, hne, if_false]
    decide

theorem buildFilename_safe_witness :
    ∃ base : String,
      buildFilename "A/B: C?" 2 10 (.object ⟨"7", some "10", some " T2xC10 - Fi* ", none⟩)
        "titol_complet" = base ++ ".mp4" ∧
      (∀ c ∈ base.data, c ∉ "/\\?*:<>\"|".data) ∧
      (∀ c, base.data.head? = some c → JS.isTrimChar c = false) ∧
      (∀ c, base.data.getLast? = some c → JS.isTrimChar c = false) :=
  (buildFilename_safe "A/B: C?" 2 10 (.object ⟨"7", some "10", some " T2xC10 - Fi* ", none⟩)
    "titol_complet").1

end Index

namespace Index

open Api

/-! ## The download store -/

theorem update_self {β : Type} (m : String → Option β) (id : String) (v : Option β) :
    update m id v id = v := by
  simp [update]

theorem update_ne {β : Type} (m : String → Option β) (id : String) (v : Option β) (k : String)
    (h : k ≠ id) : update m id v k = m k := by
  simp [update, h]

theorem map_id_set (l : List Attempt) :
    ∀ (i : Nat) (a a' : Attempt), l.get? i = some a → a'.id = a.id →
      (l.set i a').map (·.id) = l.map (·.id) := by
  induction l with
  | nil => intro i a a' h; cases h
  | cons x xs ih =>
    intro i a a' h hid
    cases i with
    | zero =>
      simp only [List.get?_cons_zero, Option.some.injEq] at h
      subst h
      simp [hid]
    | succ n =>
      simp only [List.get?_cons_succ] at h
      simp only [List.set_cons_succ, List.map_cons, ih n a a' h hid]

theorem id_ne_of_mem_eraseIdx (l : List Attempt) :
    ∀ (i : Nat) (a : Attempt), l.get? i = some a → (l.map (·.id)).Nodup →
      ∀ b ∈ l.eraseIdx i, b.id ≠ a.id := by
  induction l with
  | nil => intro i a h; cases h
  | cons x xs ih =>
    intro i a h hnd b hb
    rw [List.map_cons, List.nodup_cons] at hnd
    cases i with
    | zero =>
      simp only [List.get?_cons_zero, Option.some.injEq] at h
      subst h
      simp only [List.eraseIdx_cons_zero] at hb
      intro e
      exact hnd.1 (e ▸ List.mem_map_of_mem (·.id) hb)
    | succ n =>
      simp only [List.get?_cons_succ] at h
      simp only [List.eraseIdx_cons_succ, List.mem_cons] at hb
      rcases hb with rfl | hb
      · intro e
        exact hnd.1 (e ▸ List.mem_map_of_mem (·.id) (List.get?_mem h))
      · exact ih n a h hnd.2 b hb

theorem mem_eraseIdx_of_id_ne (l : List Attempt) :
    ∀ (i : Nat) (a b : Attempt), l.get? i = some a → b ∈ l → b.id ≠ a.id →
      b ∈ l.eraseIdx i := by
  induction l with
  | nil => intro i a b h; cases h
  | cons x xs ih =>
    intro i a b h hb hne
    cases i with
    | zero =>
      simp only [List.get?_cons_zero, Option.some.injEq] at h
      subst h
      simp only [List.eraseIdx_cons_zero]
      rcases List.mem_cons.1 hb with rfl | hb
      · exact absurd rfl hne
      · exact hb
    | succ n =>
      simp only [List.get?_cons_succ] at h
      simp only [List.eraseIdx_cons_succ, List.mem_cons]
      rcases List.mem_cons.1 hb with rfl | hb
      · exact Or.inl rfl
      · exact Or.inr (ih n a b h hb hne)

/-- A step that only changes the phase of a call keeps the invariant. -/
theorem inv_of_set (s s' : System) (i : Nat) (a a' : Attempt)
    (h : s.attempts.get? i = some a) (hid : a'.id = a.id)
    (hatt : s'.attempts = s.attempts.set i a')
    (hctl : s'.store.abortControllers = s.store.abortControllers)
    (hst : s'.store.downloadStatus = s.store.downloadStatus) (hinv : Inv s) : Inv s' := by
  obtain ⟨h1, h2, h3, h4⟩ := hinv
  have hmem : ∀ b ∈ s'.attempts, ∃ c ∈ s.attempts, c.id = b.id := by
    intro b hb
    rw [hatt] at hb
    rcases List.mem_or_eq_of_mem_set hb with hb | rfl
    · exact ⟨b, hb, rfl⟩
    · exact ⟨a, List.get?_mem h, hid.symm⟩
  refine ⟨?_, ?_, ?_, ?_⟩
  · intro b hb
    obtain ⟨c, hc, e⟩ := hmem b hb
    rw [hctl, ← e]
    exact h1 c hc
  · rw [hatt, map_id_set s.attempts i a a' h hid]
    exact h2
  · intro b hb
    obtain ⟨c, hc, e⟩ := hmem b hb
    rw [hst, ← e]
    exact h3 c hc
  · intro id hid'
    rw [hctl] at hid'
    obtain ⟨c, hc, e⟩ := h4 id hid'
    by_cases hca : c.id = a.id
    · refine ⟨a', ?_, by rw [hid, ← hca, e]⟩
      rw [hatt]
      have hlt : i < s.attempts.length := by
        rcases Nat.lt_or_ge i s.attempts.length with hlt | hge
        · exact hlt
        · rw [List.get?_eq_none.2 hge] at h; cases h
      exact List.mem_set _ _ hlt a'
    · refine ⟨c, ?_, e⟩
      rw [hatt]
      -- `c` is at another position than `i`
      obtain ⟨j, hj⟩ := List.get?_of_mem hc
      have hji : j ≠ i := by
        intro e'
        rw [e', h] at hj
        exact hca (by rw [Option.some.inj hj])
      have : (s.attempts.set i a').get? j = some c := by
        rw [List.get?_eq_getElem?, List.getElem?_set_ne (Ne.symm hji), ← List.get?_eq_getElem?]
        exact hj
      exact List.get?_mem this

/-- A step that ends a call keeps the invariant. -/
theorem inv_of_end (s s' : System) (i : Nat) (a : Attempt)
    (h : s.attempts.get? i = some a) (hatt : s'.attempts = s.attempts.eraseIdx i)
    (hctl : s'.store.abortControllers = update s.store.abortControllers a.id none)
    (hst : ∀ k, k ≠ a.id → s'.store.downloadStatus k = s.store.downloadStatus k)
    (hinv : Inv s) : Inv s' := by
  obtain ⟨h1, h2, h3, h4⟩ := hinv
  have hne := id_ne_of_mem_eraseIdx s.attempts i a h h2
  refine ⟨?_, ?_, ?_, ?_⟩
  · intro b hb
    rw [hatt] at hb
    rw [hctl, update_ne _ _ _ _ (hne b hb)]
    exact h1 b (List.mem_of_mem_eraseIdx hb)
  · rw [hatt]
    exact h2.sublist ((List.eraseIdx_sublist _ _).map _)
  · intro b hb
    rw [hatt] at hb
    rw [hst _ (hne b hb)]
    exact h3 b (List.mem_of_mem_eraseIdx hb)
  · intro id hid
    rw [hctl] at hid
    by_cases e : id = a.id
    · subst e
      rw [update_self] at hid
      cases hid
    · rw [update_ne _ _ _ _ e] at hid
      obtain ⟨c, hc, hcid⟩ := h4 id hid
      refine ⟨c, ?_, hcid⟩
      rw [hatt]
      exact mem_eraseIdx_of_id_ne s.attempts i a c h hc (by rw [hcid]; exact e)

/-- A step that leaves the calls in flight and the set of registered controllers
as they are, and sets no status to `error`, keeps the invariant. -/
theorem inv_of_same (s s' : System) (hatt : s'.attempts = s.attempts)
    (hctl : ∀ k, (s'.store.abortControllers k).isSome = (s.store.abortControllers k).isSome)
    (hst : ∀ k, s'.store.downloadStatus k = some .error →
      s.store.downloadStatus k = some .error)
    (hinv : Inv s) : Inv s' := by
  obtain ⟨h1, h2, h3, h4⟩ := hinv
  refine ⟨?_, ?_, ?_, ?_⟩
  · intro b hb
    rw [hatt] at hb
    rw [hctl]
    exact h1 b hb
  · rw [hatt]; exact h2
  · intro b hb he
    rw [hatt] at hb
    exact h3 b hb (hst _ he)
  · intro id hid
    rw [hctl] at hid
    rw [hatt]
    exact h4 id hid

theorem inv_of_phase (s s' : System) (i : Nat) (a : Attempt) (phase : Phase)
    (h : s.attempts.get? i = some a)
    (hatt : s'.attempts = s.attempts.set i { a with phase := phase })
    (hctl : s'.store.abortControllers = s.store.abortControllers)
    (hst : s'.store.downloadStatus = s.store.downloadStatus) (hinv : Inv s) : Inv s' :=
  inv_of_set s s' i a { a with phase := phase } h rfl hatt hctl hst hinv

theorem inv_endAborted (s : System) (i : Nat) (a : Attempt) (h : s.attempts.get? i = some a)
    (hinv : Inv s) : Inv (endAborted s i a.id) :=
  inv_of_end s _ i a h rfl rfl (fun _ hk => update_ne _ _ _ _ hk) hinv

theorem inv_endFailed (s : System) (i : Nat) (a : Attempt) (h : s.attempts.get? i = some a)
    (hinv : Inv s) : Inv (endFailed s i a.id) :=
  inv_of_end s _ i a h rfl rfl (fun _ hk => update_ne _ _ _ _ hk) hinv

theorem inv_endCompleted (s : System) (i : Nat) (a : Attempt) (effect : Effect)
    (h : s.attempts.get? i = some a) (hinv : Inv s) : Inv (endCompleted s i a.id effect) :=
  inv_of_end s _ i a h rfl rfl (fun _ _ => rfl) hinv

theorem inv_flag (s : System) (id : String) (b : Bool)
    (hc : s.store.abortControllers id = some b) (hinv : Inv s) :
    Inv { s with store := { s.store with
      abortControllers := update s.store.abortControllers id (some true) } } := by
  refine inv_of_same s _ rfl ?_ (fun _ h => h) hinv
  intro k
  by_cases e : k = id
  · subst e
    simp [update_self, hc]
  · simp [update_ne _ _ _ _ e]

theorem inv_start (s : System) (a : Attempt) (hc : s.store.abortControllers a.id = none)
    (effects : List Effect) (hinv : Inv s) :
    Inv { s with
      store := { s.store with
        abortControllers := update s.store.abortControllers a.id (some false)
        downloadStatus := update s.store.downloadStatus a.id (some .loading) }
      attempts := s.attempts ++ [a]
      effects := effects } := by
  obtain ⟨h1, h2, h3, h4⟩ := hinv
  have hnew : ∀ b ∈ s.attempts, b.id ≠ a.id := by
    intro b hb e
    have := h1 b hb
    rw [e, hc] at this
    cases this
  refine ⟨?_, ?_, ?_, ?_⟩
  · intro b hb
    rcases List.mem_append.1 hb with hb | hb
    · simp only [update_ne _ _ _ _ (hnew b hb)]
      exact h1 b hb
    · rw [List.mem_singleton.1 hb]
      simp [update_self]
  · simp only [List.map_append, List.map_cons, List.map_nil]
    rw [List.nodup_append]
    refine ⟨h2, List.nodup_singleton _, ?_⟩
    intro x hx hx'
    rw [List.mem_singleton] at hx'
    obtain ⟨b, hb, e⟩ := List.mem_map.1 hx
    exact hnew b hb (by rw [e, hx'])
  · intro b hb
    rcases List.mem_append.1 hb with hb | hb
    · simp only [update_ne _ _ _ _ (hnew b hb)]
      exact h3 b hb
    · rw [List.mem_singleton.1 hb]
      simp [update_self]
  · intro id hid
    by_cases e : id = a.id
    · exact ⟨a, List.mem_append_right _ (List.mem_singleton_self a), e.symm⟩
    · simp only [update_ne _ _ _ _ e] at hid
      obtain ⟨c, hc', hcid⟩ := h4 id hid
      exact ⟨c, List.mem_append_left _ hc', hcid⟩

/-- Every event keeps the invariant. -/
theorem inv_step (s : System) (ev : Event) (hinv : Inv s) : Inv (step s ev) := by
  cases ev with
  | download episode episodeNum seasonNum seriesTitle titleFormat =>
    simp only [step]
    split
    · next b hc => exact inv_flag s episode.id b hc hinv
    · next hc =>
      exact inv_start s ⟨episode.id, episode, episodeNum, seasonNum, seriesTitle, titleFormat,
        .resolving⟩ hc _ hinv
  | abort id =>
    simp only [step]
    split
    · next b hc => exact inv_flag s id b hc hinv
    · exact hinv
  | resolved i r =>
    simp only [step]
    split
    · next a hg =>
      split
      · exact inv_endAborted s i a hg hinv
      · exact inv_endFailed s i a hg hinv
      · split
        · split
          · exact inv_of_phase s _ i a _ hg rfl rfl rfl hinv
          · exact inv_endFailed s i a hg hinv
        · exact inv_endFailed s i a hg hinv
      · exact hinv
    · exact hinv
  | fetched i r =>
    simp only [step]
    split
    · next a hg =>
      split
      · exact inv_endAborted s i a hg hinv
      · exact inv_endCompleted s i a _ hg hinv
      · exact inv_endCompleted s i a _ hg hinv
      · exact inv_of_phase s _ i a _ hg rfl rfl rfl hinv
      · exact hinv
    · exact hinv
  | read i r =>
    simp only [step]
    split
    · next a hg =>
      split
      · split
        · exact inv_of_phase s _ i a _ hg rfl rfl rfl hinv
        · exact inv_of_phase s _ i a _ hg rfl rfl rfl hinv
      · exact inv_endCompleted s i a _ hg hinv
      · exact inv_endAborted s i a hg hinv
      · exact inv_endCompleted s i a _ hg hinv
      · exact hinv
    · exact hinv
  | timer i =>
    simp only [step]
    split
    · next id hg =>
      refine inv_of_same s _ rfl (fun _ => rfl) ?_ hinv
      intro k hk
      by_cases e : k = id
      · subst e
        simp only [update_self] at hk
        cases hk
      · simpa only [update_ne _ _ _ _ e] using hk
    · exact hinv

theorem inv_initial : Inv initial := by
  refine ⟨?_, List.nodup_nil, ?_, ?_⟩
  · intro a ha; cases ha
  · intro a ha; cases ha
  · intro id hid; cases hid

theorem inv_foldl (events : List Event) :
    ∀ s, Inv s → Inv (events.foldl step s) := by
  induction events with
  | nil => intro s h; exact h
  | cons ev evs ih => intro s h; exact ih _ (inv_step s ev h)

/-- The invariant holds after every sequence of events. -/
theorem inv_run (events : List Event) : Inv (run events) :=
  inv_foldl events initial inv_initial

theorem step_of_abort (s : System) (i : Nat) (a : Attempt) (ev : Event)
    (h : s.attempts.get? i = some a) (hev : IsAbortOf i a ev) :
    step s ev = endAborted s i a.id := by
  rcases hev with ⟨hp, rfl⟩ | ⟨f, u, hp, rfl⟩ | ⟨f, u, t, r, l, b, hp, rfl⟩ <;>
    simp only [step, h, hp]

theorem step_of_resolution_failure (s : System) (i : Nat) (a : Attempt) (ev : Event)
    (h : s.attempts.get? i = some a) (hev : IsResolutionFailureOf i a ev) :
    step s ev = endFailed s i a.id := by
  obtain ⟨hp, hev⟩ := hev
  rcases hev with rfl | ⟨data, rfl⟩ | ⟨ok, data, hb, rfl⟩
  · simp only [step, h, hp]
  · simp only [step, h, hp]
    cases data.best <;> simp
  · simp only [step, h, hp, hb]

theorem step_of_transfer_failure (s : System) (i : Nat) (a : Attempt) (url : String)
    (ev : Event) (h : s.attempts.get? i = some a) (hev : IsTransferFailureOf i a url ev) :
    step s ev = endCompleted s i a.id (.navigate url) := by
  rcases hev with ⟨f, hp, rfl | ⟨cl, now, rfl⟩⟩ | ⟨f, t, r, l, b, hp, rfl⟩ <;>
    simp only [step, h, hp]

theorem sampleAttempt_in_flight :
    (run [.download sampleEpisode 1 1 "Teo" "txcx"]).attempts.get? 0 = some sampleAttempt := by
  decide

/-- C16: when the call for episode `id` ends with an `AbortError`, at whichever
`await` it is suspended, the resulting store has no entry for `id` in the status,
progress, speed and total-byte maps, the controller of `id` is removed, the
entries of every other id are as before, and the call is no longer in flight;
and after every sequence of events the status of an episode with a call in flight
is not `error`. -/
theorem cancel_clears (s : System) (i : Nat) (a : Attempt) (ev : Event)
    (h : s.attempts.get? i = some a) (hev : IsAbortOf i a ev) :
    (step s ev).store.downloadStatus a.id = none ∧
    (step s ev).store.downloadProgress a.id = none ∧
    (step s ev).store.downloadSpeed a.id = none ∧
    (step s ev).store.downloadTotalBytes a.id = none ∧
    (step s ev).store.abortControllers a.id = none ∧
    (∀ k, k ≠ a.id →
      (step s ev).store.downloadStatus k = s.store.downloadStatus k ∧
      (step s ev).store.downloadProgress k = s.store.downloadProgress k ∧
      (step s ev).store.downloadSpeed k = s.store.downloadSpeed k ∧
      (step s ev).store.downloadTotalBytes k = s.store.downloadTotalBytes k ∧
      (step s ev).store.abortControllers k = s.store.abortControllers k) ∧
    (step s ev).attempts = s.attempts.eraseIdx i ∧
    (step s ev).effects = s.effects ∧ (step s ev).timers = s.timers ∧
    (∀ events : List Event, ∀ b ∈ (run events).attempts,
      (run events).store.downloadStatus b.id ≠ some .error) := by
  rw [step_of_abort s i a ev h hev]
  refine ⟨update_self _ _ _, update_self _ _ _, update_self _ _ _, update_self _ _ _,
    update_self _ _ _, ?_, rfl, rfl, rfl, fun events => (inv_run events).2.2.1⟩
  intro k hk
  exact ⟨update_ne _ _ _ _ hk, update_ne _ _ _ _ hk, update_ne _ _ _ _ hk,
    update_ne _ _ _ _ hk, update_ne _ _ _ _ hk⟩

theorem cancel_clears_witness :
    (step (run [.download sampleEpisode 1 1 "Teo" "txcx"])
      (.resolved 0 .abortError)).store.downloadStatus sampleAttempt.id = none :=
  (cancel_clears (run [.download sampleEpisode 1 1 "Teo" "txcx"]) 0 sampleAttempt
    (.resolved 0 .abortError) sampleAttempt_in_flight (Or.inl ⟨rfl, rfl⟩)).1

/-- C17, as stated, fails: when the direct transfer fails (the `fetch` of the
media, or a read after the first chunk) the status of the episode is not set to
`error`: the page opens the media URL instead, sets the progress to 100 and, when
the timer fires, the status to `done`; the total-byte entry stays. -/
theorem failure_sets_error_counterexample :
    (run failedTransfer).store.downloadStatus "e1" = some .loading ∧
    (run failedTransfer).effects.getLast? =
      some (.navigate "https://mp4-down-high-es.3catvideos.cat/1.mp4") ∧
    (run (failedTransfer ++ [.timer 0])).store.downloadStatus "e1" = some .done ∧
    (run failedRead).store.downloadStatus "e1" = some .loading ∧
    (run failedRead).store.downloadTotalBytes "e1" = some 1000 ∧
    (run (failedRead ++ [.timer 0])).store.downloadStatus "e1" = some .done := by
  decide

/-- C17, amended: when the resolution of the call for episode `id` fails (the
request fails for another reason than an abort, the answer is not `ok`, or there
is no best variant), the status of `id` becomes `error`, its progress, speed and
total-byte entries and its controller are removed, and the entries of every other
id are as before.  When the direct transfer fails for another reason than an
abort, no status is set: the page opens the media URL, sets the progress of `id`
to 100, removes its speed entry and its controller, and sets the timer that
later sets the status of `id` to `done`. -/
theorem failure_sets_error (s : System) (i : Nat) (a : Attempt) (ev : Event)
    (h : s.attempts.get? i = some a) :
    (IsResolutionFailureOf i a ev →
      (step s ev).store.downloadStatus a.id = some .error ∧
      (step s ev).store.downloadProgress a.id = none ∧
      (step s ev).store.downloadSpeed a.id = none ∧
      (step s ev).store.downloadTotalBytes a.id = none ∧
      (step s ev).store.abortControllers a.id = none ∧
      (∀ k, k ≠ a.id →
        (step s ev).store.downloadStatus k = s.store.downloadStatus k ∧
        (step s ev).store.downloadProgress k = s.store.downloadProgress k ∧
        (step s ev).store.downloadSpeed k = s.store.downloadSpeed k ∧
        (step s ev).store.downloadTotalBytes k = s.store.downloadTotalBytes k ∧
        (step s ev).store.abortControllers k = s.store.abortControllers k) ∧
      (step s ev).attempts = s.attempts.eraseIdx i) ∧
    (∀ url, IsTransferFailureOf i a url ev →
      (step s ev).store.downloadStatus = s.store.downloadStatus ∧
      (step s ev).store.downloadProgress a.id = some 100 ∧
      (step s ev).store.downloadSpeed a.id = none ∧
      (step s ev).store.downloadTotalBytes = s.store.downloadTotalBytes ∧
      (step s ev).store.abortControllers a.id = none ∧
      (∀ k, k ≠ a.id →
        (step s ev).store.downloadProgress k = s.store.downloadProgress k ∧
        (step s ev).store.downloadSpeed k = s.store.downloadSpeed k ∧
        (step s ev).store.abortControllers k = s.store.abortControllers k) ∧
      (step s ev).attempts = s.attempts.eraseIdx i ∧
      (step s ev).effects = s.effects ++ [.navigate url] ∧
      (step s ev).timers = s.timers ++ [a.id] ∧
      (step (step s ev) (.timer s.timers.length)).store.downloadStatus a.id = some .done) := by
  constructor
  · intro hev
    rw [step_of_resolution_failure s i a ev h hev]
    refine ⟨update_self _ _ _, update_self _ _ _, update_self _ _ _, update_self _ _ _,
      update_self _ _ _, ?_, rfl⟩
    intro k hk
    exact ⟨update_ne _ _ _ _ hk, update_ne _ _ _ _ hk, update_ne _ _ _ _ hk,
      update_ne _ _ _ _ hk, update_ne _ _ _ _ hk⟩
  · intro url hev
    rw [step_of_transfer_failure s i a url ev h hev]
    refine ⟨rfl, update_self _ _ _, update_self _ _ _, rfl, update_self _ _ _, ?_, rfl, rfl,
      rfl, ?_⟩
    · intro k hk
      exact ⟨update_ne _ _ _ _ hk, update_ne _ _ _ _ hk, update_ne _ _ _ _ hk⟩
    · have ht : (endCompleted s i a.id (.navigate url)).timers.get? s.timers.length =
          some a.id := by
        simp [endCompleted]
      simp only [step, ht]
      exact update_self _ _ _

theorem failure_sets_error_witness :
    (step (run [.download sampleEpisode 1 1 "Teo" "txcx"])
      (.resolved 0 (.response false ⟨none, none⟩))).store.downloadStatus sampleAttempt.id =
      some .error :=
  ((failure_sets_error (run [.download sampleEpisode 1 1 "Teo" "txcx"]) 0 sampleAttempt
    (.resolved 0 (.response false ⟨none, none⟩)) sampleAttempt_in_flight).1
    ⟨rfl, Or.inr (Or.inl ⟨_, rfl⟩)⟩).1

/-- C18: the download action for an episode whose controller is registered only
marks that controller as aborted: the calls in flight, the four maps, the timers
and the requests issued are as before; after every sequence of events at most one
call per episode id is in flight, and a controller is registered for an id
exactly when a call for that id is in flight. -/
theorem download_while_loading :
    (∀ (s : System) (episode : Episode) (episodeNum seasonNum : Nat)
      (seriesTitle titleFormat : String),
      (s.store.abortControllers episode.id).isSome = true →
      (step s (.download episode episodeNum seasonNum seriesTitle titleFormat)).attempts =
        s.attempts ∧
      (step s (.download episode episodeNum seasonNum seriesTitle titleFormat)).effects =
        s.effects ∧
      (step s (.download episode episodeNum seasonNum seriesTitle titleFormat)).timers =
        s.timers ∧
      (step s (.download episode episodeNum seasonNum seriesTitle
        titleFormat)).store.downloadStatus = s.store.downloadStatus ∧
      (step s (.download episode episodeNum seasonNum seriesTitle
        titleFormat)).store.downloadProgress = s.store.downloadProgress ∧
      (step s (.download episode episodeNum seasonNum seriesTitle
        titleFormat)).store.downloadSpeed = s.store.downloadSpeed ∧
      (step s (.download episode episodeNum seasonNum seriesTitle
        titleFormat)).store.downloadTotalBytes = s.store.downloadTotalBytes ∧
      (step s (.download episode episodeNum seasonNum seriesTitle
        titleFormat)).store.abortControllers =
        update s.store.abortControllers episode.id (some true)) ∧
    (∀ (events : List Event) (id : String),
      ((run events).attempts.filter (fun a => a.id == id)).length ≤ 1) ∧
    (∀ (events : List Event) (id : String),
      ((run events).store.abortControllers id).isSome = true ↔
        ∃ a ∈ (run events).attempts, a.id = id) := by
  refine ⟨?_, ?_, ?_⟩
  · intro s episode episodeNum seasonNum seriesTitle titleFormat hc
    cases hs : s.store.abortControllers episode.id with
    | none => rw [hs] at hc; cases hc
    | some b =>
      simp [step, hs]
  · intro events id
    have hnd := (inv_run events).2.1
    have hcount := List.nodup_iff_count_le_one.1 hnd id
    have : ((run events).attempts.filter (fun a => a.id == id)).length =
        ((run events).attempts.map (·.id)).count id := by
      rw [List.count_eq_countP, List.countP_map, List.countP_eq_length_filter]
      rfl
    omega
  · intro events id
    constructor
    · exact (inv_run events).2.2.2 id
    · rintro ⟨a, ha, rfl⟩
      exact (inv_run events).1 a ha

theorem download_while_loading_witness :
    (step (run [.download sampleEpisode 1 1 "Teo" "txcx"])
      (.download sampleEpisode 1 1 "Teo" "txcx")).attempts =
      (run [.download sampleEpisode 1 1 "Teo" "txcx"]).attempts :=
  (download_while_loading.1 (run [.download sampleEpisode 1 1 "Teo" "txcx"]) sampleEpisode 1 1
    "Teo" "txcx" (by decide)).1

end Index

namespace JS

theorem replaceChars_same (p : List Char) : ∀ s : List Char, replaceChars p p s = s
  | [] => by
      cases p <;> simp [replaceChars]
  | c :: cs => by
      rw [replaceChars]
      split
      · next h =>
          obtain ⟨t, ht⟩ := List.isPrefixOf_iff_prefix.1 h
          rw [← ht]
          simp
      · rw [replaceChars_same p cs]

theorem replace_same (s p : String) : replace s p p = s := by
  simp [replace, replaceChars_same]

end JS

namespace Episodes

open Api

/-! ## The pages of the listing -/

theorem listingUrl_eq (programId season : String) (page : Nat) :
    listingUrl programId season page =
      String.intercalate "&"
        ["https://api.ccma.cat/videos?_format=json", "ordre=capitol", "origen=llistat",
         "perfil=pc", "programatv_id=" ++ programId, "tipus_contingut=PPD", "items_pagina=50",
         "pagina=" ++ toString page, "version=2.0", "temporada=PUTEMP_" ++ season,
         "https=true"] := by
  rw [listingUrl, JS.replace_same]

theorem collect_succ (fetch : String → Reply) (programId season : String)
    (fuel page : Nat) (episodes : List Episode) :
    collect fetch programId season (fuel + 1) page episodes =
      match pass (fetch (listingUrl programId season page)) page with
      | .threw => some .threw
      | .stop batch => some (.finished (episodes ++ batch))
      | .next batch => collect fetch programId season fuel (page + 1) (episodes ++ batch) := by
  rw [collect]
  unfold pass
  cases fetch (listingUrl programId season page) with
  | failed => rfl
  | response ok json =>
      cases ok with
      | false => simp
      | true =>
          cases json with
          | none => rfl
          | some data =>
              dsimp only
              cases itemsOf data with
              | none => simp
              | some items =>
                  dsimp only
                  by_cases h0 : JS.parseIntValue items.num = some 0
                  · simp [h0]
                  · simp only [h0, if_false]
                    cases paginacioOf data with
                    | none => rfl
                    | some pagination =>
                        dsimp only
                        cases JS.parseIntValue pagination.total_pagines with
                        | none => rfl
                        | some total =>
                            dsimp only
                            by_cases hp : (page : Int) ≥ total
                            · simp [hp]
                            · simp [hp]

theorem collectLog_end (fetch : String → Reply) (programId season : String) :
    ∀ (fuel page : Nat) (episodes : List Episode),
      (collectLog fetch programId season fuel page episodes).2 =
        collect fetch programId season fuel page episodes
  | 0, _, _ => rfl
  | fuel + 1, page, episodes => by
      rw [collect_succ, collectLog]
      cases pass (fetch (listingUrl programId season page)) page with
      | threw => rfl
      | stop batch => rfl
      | next batch => exact collectLog_end fetch programId season fuel (page + 1) _

theorem collectLog_succ (fetch : String → Reply) (programId season : String)
    (fuel page : Nat) (episodes : List Episode) :
    collectLog fetch programId season (fuel + 1) page episodes =
      match pass (fetch (listingUrl programId season page)) page with
      | .threw => ([listingUrl programId season page], some .threw)
      | .stop batch =>
          ([listingUrl programId season page], some (.finished (episodes ++ batch)))
      | .next batch =>
          (listingUrl programId season page ::
              (collectLog fetch programId season fuel (page + 1) (episodes ++ batch)).1,
            (collectLog fetch programId season fuel (page + 1) (episodes ++ batch)).2) := by
  rw [collectLog]

/-- The URLs of the pages `start + 1, ..., start + k`. -/
theorem pageUrls_succ (programId season : String) (k : Nat) :
    pageUrls programId season (k + 1) =
      pageUrls programId season k ++ [listingUrl programId season (k + 1)] := by
  simp [pageUrls, List.range_succ]

/-- The loop from page `start + 1` on: when the passes of the pages before
`start + k` go on and the pass of the page `start + k` ends the loop, the pages
`start + 1, ..., start + k` are fetched in this order, whatever fuel remains
beyond `k`. -/
theorem collectLog_run (fetch : String → Reply) (programId season : String)
    (batch : Nat → List Episode) (last : Pass) (hlast : ∀ b, last ≠ .next b) :
    ∀ (k start fuel : Nat) (episodes : List Episode), 1 ≤ k → k ≤ fuel →
      (∀ p, start < p → p < start + k →
        pass (fetch (listingUrl programId season p)) p = .next (batch p)) →
      pass (fetch (listingUrl programId season (start + k))) (start + k) = last →
      collectLog fetch programId season fuel (start + 1) episodes =
        ((List.range k).map (fun j => listingUrl programId season (start + j + 1)),
          match last with
          | .threw => some .threw
          | .stop b =>
              some (.finished (episodes ++
                (List.range (k - 1)).flatMap (fun j => batch (start + j + 1)) ++ b))
          | .next _ => none)
  | 0, _, _, _, hk, _, _, _ => absurd hk (by decide)
  | k + 1, start, 0, _, _, hf, _, _ => absurd hf (by omega)
  | 1, start, fuel + 1, episodes, _, _, _, hend => by
      rw [collectLog_succ, hend]
      cases last with
      | threw => rfl
      | stop b => simp [List.range_succ]
      | next b => exact absurd rfl (hlast b)
  | k + 2, start, fuel + 1, episodes, _, hf, hgo, hend => by
      have h1 := hgo (start + 1) (by omega) (by omega)
      have ih := collectLog_run fetch programId season batch last hlast (k + 1) (start + 1) fuel
        (episodes ++ batch (start + 1)) (by omega) (by omega)
        (fun p hp hp' => hgo p (by omega) (by omega))
        (by rw [show start + 1 + (k + 1) = start + (k + 2) by omega]; exact hend)
      rw [collectLog_succ, h1]
      simp only
      rw [ih]
      refine Prod.ext ?_ ?_
      · simp only [List.range_succ_eq_map (k + 1), List.map_cons, List.map_map]
        refine congrArg₂ _ rfl (List.map_congr_left fun j _ => ?_)
        simp only [Function.comp]
        congr 1
        omega
      · cases last with
        | threw => rfl
        | next b => rfl
        | stop b =>
            simp only [show k + 2 - 1 = k + 1 by omega, show k + 1 - 1 = k by omega,
              List.range_succ_eq_map k, List.flatMap_cons, List.flatMap_map,
              List.append_assoc]
            simp only [Nat.add_zero, Function.comp]
            have hfun : (fun j => batch (start + 1 + j + 1)) =
                (fun j : Nat => batch (start + j.succ + 1)) := by
              funext j
              congr 1
              omega
            rw [hfun]

/-- The fetched URLs are those of the pages `start + 1, start + 2, ...`, in this
order, and there are at most as many as the fuel. -/
theorem collectLog_pages (fetch : String → Reply) (programId season : String) :
    ∀ (fuel start : Nat) (episodes : List Episode), ∃ k, k ≤ fuel ∧
      (collectLog fetch programId season fuel (start + 1) episodes).1 =
        (List.range k).map (fun j => listingUrl programId season (start + j + 1))
  | 0, _, _ => ⟨0, Nat.le_refl 0, rfl⟩
  | fuel + 1, start, episodes => by
      rw [collectLog_succ]
      cases pass (fetch (listingUrl programId season (start + 1))) (start + 1) with
      | threw => exact ⟨1, by omega, by simp [List.range_succ]⟩
      | stop b => exact ⟨1, by omega, by simp [List.range_succ]⟩
      | next b =>
          obtain ⟨k, hk, h⟩ := collectLog_pages fetch programId season fuel (start + 1)
            (episodes ++ b)
          refine ⟨k + 1, by omega, ?_⟩
          simp only [h, List.range_succ_eq_map k, List.map_cons, List.map_map]
          refine congrArg₂ _ rfl (List.map_congr_left fun j _ => ?_)
          simp only [Function.comp]
          congr 1
          omega

/-- A pass goes on to the next page only below a parsed total page count, or
when no total page count can be parsed. -/
theorem pass_next (reply : Reply) (page : Nat) (b : List Episode)
    (h : pass reply page = .next b) :
    ∃ data pagination, reply = .response true (some data) ∧
      paginacioOf data = some pagination ∧
      ∀ total, JS.parseIntValue pagination.total_pagines = some total → (page : Int) < total := by
  unfold pass at h
  split at h
  · cases h
  · cases h
  · cases h
  · next data =>
      split at h
      · cases h
      · next items =>
          split at h
          · cases h
          · split at h
            · cases h
            · next pagination hp =>
                refine ⟨data, pagination, rfl, hp, ?_⟩
                intro total ht
                rw [ht] at h
                simp only at h
                split at h
                · cases h
                · omega

/-- When every pass that goes on does so below the page `bound`, the loop from
page `start + 1` ends within `bound - start` passes, and within one pass when
that is not positive. -/
theorem collectLog_bounded (fetch : String → Reply) (programId season : String) (bound : Int)
    (hb : ∀ p b, pass (fetch (listingUrl programId season p)) p = .next b → (p : Int) < bound) :
    ∀ (fuel n start : Nat) (episodes : List Episode), bound ≤ (start : Int) + n → n ≤ fuel →
      1 ≤ fuel →
      ∃ e, (collectLog fetch programId season fuel (start + 1) episodes).2 = some e ∧
        (collectLog fetch programId season fuel (start + 1) episodes).1.length ≤ max n 1
  | 0, _, _, _, _, _, h1 => absurd h1 (by decide)
  | fuel + 1, n, start, episodes, hn, hf, _ => by
      rw [collectLog_succ]
      cases hp : pass (fetch (listingUrl programId season (start + 1))) (start + 1) with
      | threw => exact ⟨_, rfl, by simp⟩
      | stop b => exact ⟨_, rfl, by simp⟩
      | next b =>
          have hlt := hb (start + 1) b hp
          have hn2 : 2 ≤ n := by push_cast at hlt; omega
          obtain ⟨e, he, hl⟩ := collectLog_bounded fetch programId season bound hb fuel (n - 1)
            (start + 1) (episodes ++ b) (by push_cast; omega) (by omega) (by omega)
          refine ⟨e, he, ?_⟩
          simp only [List.length_cons]
          have : max (n - 1) 1 = n - 1 := by omega
          have : max n 1 = n := by omega
          omega

theorem handler_of_collect (fetch : String → Reply) (programId season : String) (fuel : Nat)
    (hp : programId ≠ "") (hs : season ≠ "") :
    handler fetch (some programId) (some season) fuel =
      match collect fetch programId season fuel 1 [] with
      | none => none
      | some .threw => some (.error 500 "Error obtenint els episodis")
      | some (.finished accumulated) => some (respond accumulated) := by
  have tp : JS.truthy (some programId) = some programId := by simp [JS.truthy, hp]
  have ts : JS.truthy (some season) = some season := by simp [JS.truthy, hs]
  simp only [handler, tp, ts]

/-- C21, as stated, fails.  In the listing in which every page holds two
episodes and no `paginacio` object, page 1 answers with a success status, an
item count of 2 and no total page count, and the loop stops after it; in the
listing in which every page reports a total of zero pages, one page is
requested. -/
theorem pages_requested_counterexample :
    (unpagedFetch (listingUrl "201088598" "1" 1) =
        .response true (some (some ⟨some ⟨some ⟨some "2",
          .many [⟨"e1", some "1", some "U", none⟩, ⟨"e2", some "2", some "Dos", none⟩]⟩,
          none⟩⟩)) ∧
      JS.parseIntValue (some "2") = some 2 ∧
      collectLog unpagedFetch "201088598" "1" 5 1 [] =
        ([listingUrl "201088598" "1" 1],
          some (.finished [⟨"e1", some "1", some "U", none⟩,
            ⟨"e2", some "2", some "Dos", none⟩]))) ∧
    ((∀ url, ∃ data pagination, zeroPagesFetch url = .response true (some data) ∧
        paginacioOf data = some pagination ∧
        JS.parseIntValue pagination.total_pagines = some 0) ∧
      (collectLog zeroPagesFetch "201088598" "1" 5 1 []).1 = [listingUrl "201088598" "1" 1]) := by
  refine ⟨⟨rfl, by decide, ?_⟩, fun url => ⟨_, _, rfl, rfl, by decide⟩, ?_⟩
  · rw [collectLog_succ]
    have h : pass (unpagedFetch (listingUrl "201088598" "1" 1)) 1 =
        .stop [⟨"e1", some "1", some "U", none⟩, ⟨"e2", some "2", some "Dos", none⟩] := by
      decide
    rw [h]
    rfl
  · rw [collectLog_succ]
    have h : pass (zeroPagesFetch (listingUrl "201088598" "1" 1)) 1 =
        .stop [⟨"e1", some "1", some "U", none⟩] := by
      decide
    rw [h]

/-- C21, amended: the loop fetches the URLs of the pages 1, 2, 3, ... in this
order, each with `items_pagina=50` and its page number.  A pass ends the loop
without a push on a non-success status, on a missing `items` object and on an
item count of zero; after the push of its batch (an array as it is, a single
object as a one-element list) it ends the loop on a missing `paginacio` object
and on `page >= total`, and goes on otherwise; a rejected `fetch` or `json()`
throws.  When `k` is the first page whose pass does not go on, exactly the pages
`1, ..., k` are fetched, given fuel `k`; if that pass stops, the loop ends with
the batches of the pages before `k` followed by its own, in page order, and the
handler answers with them, status 200; if it throws, the handler answers 500.
When every page that has a `paginacio` object reports the total page count `N`,
the loop ends after at most `max N 1` fetches. -/
theorem pages_requested (fetch : String → Reply) (programId season : String) :
    (∀ page, listingUrl programId season page =
      String.intercalate "&"
        ["https://api.ccma.cat/videos?_format=json", "ordre=capitol", "origen=llistat",
         "perfil=pc", "programatv_id=" ++ programId, "tipus_contingut=PPD", "items_pagina=50",
         "pagina=" ++ toString page, "version=2.0", "temporada=PUTEMP_" ++ season,
         "https=true"]) ∧
    (∀ fuel, ∃ k, k ≤ fuel ∧
      (collectLog fetch programId season fuel 1 []).1 = pageUrls programId season k) ∧
    (∀ page : Nat,
      pass .failed page = .threw ∧ pass (.response true none) page = .threw ∧
      (∀ json, pass (.response false json) page = .stop []) ∧
      ∀ data,
        (itemsOf data = none → pass (.response true (some data)) page = .stop []) ∧
        ∀ items, itemsOf data = some items →
          (JS.parseIntValue items.num = some 0 →
            pass (.response true (some data)) page = .stop []) ∧
          (JS.parseIntValue items.num ≠ some 0 →
            (paginacioOf data = none →
              pass (.response true (some data)) page = .stop (batchOf items)) ∧
            ∀ pagination, paginacioOf data = some pagination →
              (JS.parseIntValue pagination.total_pagines = none →
                pass (.response true (some data)) page = .next (batchOf items)) ∧
              ∀ total, JS.parseIntValue pagination.total_pagines = some total →
                ((page : Int) ≥ total →
                  pass (.response true (some data)) page = .stop (batchOf items)) ∧
                ((page : Int) < total →
                  pass (.response true (some data)) page = .next (batchOf items)))) ∧
    (∀ num e l, batchOf ⟨num, .single e⟩ = [e] ∧ batchOf ⟨num, .many l⟩ = l) ∧
    (∀ (k : Nat) (batch : Nat → List Episode), 1 ≤ k →
      (∀ p, 1 ≤ p → p < k →
        pass (fetch (listingUrl programId season p)) p = .next (batch p)) →
      ∀ fuel, k ≤ fuel →
        (∀ b, pass (fetch (listingUrl programId season k)) k = .stop b →
          collectLog fetch programId season fuel 1 [] =
            (pageUrls programId season k,
              some (.finished ((List.range (k - 1)).flatMap (fun j => batch (j + 1)) ++ b))) ∧
          collect fetch programId season fuel 1 [] =
            some (.finished ((List.range (k - 1)).flatMap (fun j => batch (j + 1)) ++ b)) ∧
          (programId ≠ "" → season ≠ "" →
            handler fetch (some programId) (some season) fuel =
              some (respond ((List.range (k - 1)).flatMap (fun j => batch (j + 1)) ++ b)))) ∧
        (pass (fetch (listingUrl programId season k)) k = .threw →
          collectLog fetch programId season fuel 1 [] =
            (pageUrls programId season k, some .threw) ∧
          (programId ≠ "" → season ≠ "" →
            handler fetch (some programId) (some season) fuel =
              some (.error 500 "Error obtenint els episodis")))) ∧
    (∀ N : Int,
      (∀ p data pagination, fetch (listingUrl programId season p) = .response true (some data) →
        paginacioOf data = some pagination →
        JS.parseIntValue pagination.total_pagines = some N) →
      ∀ fuel, max N.toNat 1 ≤ fuel →
        ∃ e, collect fetch programId season fuel 1 [] = some e ∧
          (collectLog fetch programId season fuel 1 []).1.length ≤ max N.toNat 1) := by
  refine ⟨listingUrl_eq programId season, ?_, ?_, fun _ _ _ => ⟨rfl, rfl⟩, ?_, ?_⟩
  · intro fuel
    obtain ⟨k, hk, h⟩ := collectLog_pages fetch programId season fuel 0 []
    refine ⟨k, hk, ?_⟩
    rw [h, pageUrls]
    simp
  · intro page
    refine ⟨rfl, rfl, fun _ => rfl, fun data => ⟨fun h => by simp [pass, h], ?_⟩⟩
    intro items hi
    refine ⟨fun h0 => by simp [pass, hi, h0], fun h0 => ⟨fun hp => by simp [pass, hi, h0, hp], ?_⟩⟩
    intro pagination hp
    refine ⟨fun ht => by simp [pass, hi, h0, hp, ht], fun total ht => ⟨fun hge => ?_, fun hlt => ?_⟩⟩
    · simp only [pass, hi, h0, hp, ht, if_false]
      rw [if_pos hge]
    · simp only [pass, hi, h0, hp, ht, if_false]
      rw [if_neg (by omega)]
  · intro k batch hk hgo fuel hf
    have hrun := fun last hlast hend =>
      collectLog_run fetch programId season batch last hlast k 0 fuel [] hk hf
        (fun p hp hp' => hgo p (by omega) (by omega))
        (by rw [Nat.zero_add]; exact hend)
    have hurls : (List.range k).map (fun j => listingUrl programId season (0 + j + 1)) =
        pageUrls programId season k := by
      simp [pageUrls]
    constructor
    · intro b hend
      have h := hrun (.stop b) (fun _ hh => by cases hh) hend
      simp only [hurls, List.nil_append, Nat.zero_add] at h
      have hc := collectLog_end fetch programId season fuel 1 []
      rw [h] at hc
      refine ⟨h, hc.symm, fun hp hs => ?_⟩
      rw [handler_of_collect fetch programId season fuel hp hs, ← hc]
    · intro hend
      have h := hrun .threw (fun _ hh => by cases hh) hend
      simp only [hurls] at h
      have hc := collectLog_end fetch programId season fuel 1 []
      rw [h] at hc
      refine ⟨h, fun hp hs => ?_⟩
      rw [handler_of_collect fetch programId season fuel hp hs, ← hc]
  · intro N hN fuel hf
    have hb : ∀ p b, pass (fetch (listingUrl programId season p)) p = .next b → (p : Int) < N := by
      intro p b h
      obtain ⟨data, pagination, hr, hp, ht⟩ := pass_next _ _ _ h
      exact ht N (hN p data pagination hr hp)
    obtain ⟨e, he, hl⟩ := collectLog_bounded fetch programId season N hb fuel (max N.toNat 1) 0 []
      (by have := Int.self_le_toNat N; push_cast; omega) hf (by omega)
    rw [collectLog_end] at he
    refine ⟨e, he, ?_⟩
    simpa using hl

theorem twoPageFetch_pass :
    pass (twoPageFetch (listingUrl "201088598" "1" 1)) 1 =
        .next [⟨"e1", some "1", some "U", none⟩, ⟨"e2", some "2", some "Dos", none⟩] ∧
      pass (twoPageFetch (listingUrl "201088598" "1" 2)) 2 =
        .stop [⟨"e3", some "3", some "Tres", none⟩] := by
  constructor <;> decide

theorem twoPageFetch_total (url : String) (data : Option Listing) (pagination : Paginacio)
    (h : twoPageFetch url = .response true (some data))
    (hp : paginacioOf data = some pagination) :
    JS.parseIntValue pagination.total_pagines = some 2 := by
  unfold twoPageFetch at h
  split at h
  · cases h
    cases hp
    decide
  · cases h
    cases hp
    decide

theorem pages_requested_witness :
    (collectLog twoPageFetch "201088598" "1" 2 1 [] =
        (pageUrls "201088598" "1" 2,
          some (.finished [⟨"e1", some "1", some "U", none⟩, ⟨"e2", some "2", some "Dos", none⟩,
            ⟨"e3", some "3", some "Tres", none⟩])) ∧
      handler twoPageFetch (some "201088598") (some "1") 2 =
        some (respond [⟨"e1", some "1", some "U", none⟩, ⟨"e2", some "2", some "Dos", none⟩,
          ⟨"e3", some "3", some "Tres", none⟩])) ∧
    ∃ e, collect twoPageFetch "201088598" "1" 2 1 [] = some e ∧
      (collectLog twoPageFetch "201088598" "1" 2 1 []).1.length ≤ 2 := by
  have h := pages_requested twoPageFetch "201088598" "1"
  have hrun := (h.2.2.2.2.1 2
    (fun _ => [⟨"e1", some "1", some "U", none⟩, ⟨"e2", some "2", some "Dos", none⟩])
    (by decide)
    (fun p h1 h2 => by
      obtain rfl : p = 1 := by omega
      exact twoPageFetch_pass.1)
    2 (by decide)).1 [⟨"e3", some "3", some "Tres", none⟩] twoPageFetch_pass.2
  exact ⟨⟨hrun.1, hrun.2.2 (by decide) (by decide)⟩,
    h.2.2.2.2.2 2 (fun p => twoPageFetch_total _) 2 (by decide)⟩

end Episodes

namespace JS

/-! ## The arithmetic of Numbers -/

theorem floor_le_roundHalfEven (y : ℚ) : ⌊y⌋ ≤ roundHalfEven y := by
  unfold roundHalfEven
  split_ifs <;> omega

theorem roundHalfEven_le_floor_succ (y : ℚ) : roundHalfEven y ≤ ⌊y⌋ + 1 := by
  unfold roundHalfEven
  split_ifs <;> omega

theorem roundHalfEven_intCast (k : ℤ) : roundHalfEven (k : ℚ) = k := by
  simp [roundHalfEven]

theorem roundHalfEven_mono {y z : ℚ} (h : y ≤ z) : roundHalfEven y ≤ roundHalfEven z := by
  rcases (Int.floor_mono h).lt_or_eq with hlt | heq
  · calc roundHalfEven y ≤ ⌊y⌋ + 1 := roundHalfEven_le_floor_succ y
      _ ≤ ⌊z⌋ := hlt
      _ ≤ roundHalfEven z := floor_le_roundHalfEven z
  · unfold roundHalfEven
    rw [heq]
    split_ifs <;> first | omega | (exfalso; linarith)

/-- A positive value between two consecutive powers of two is rounded to a
double between them. -/
theorem toDouble_bounds {x : ℚ} (hx : 0 < x) :
    (2 : ℚ) ^ Int.log 2 x ≤ toDouble x ∧ toDouble x ≤ (2 : ℚ) ^ (Int.log 2 x + 1) := by
  have h1 : (2 : ℚ) ^ Int.log 2 x ≤ x := by
    simpa using Int.zpow_log_le_self (b := 2) (R := ℚ) one_lt_two hx
  have h2 : x < (2 : ℚ) ^ (Int.log 2 x + 1) := by
    simpa using Int.lt_zpow_succ_log_self (b := 2) (R := ℚ) one_lt_two x
  have hu : (0 : ℚ) < 2 ^ (Int.log 2 x - 52) := zpow_pos (by norm_num) _
  have e1 : (2 : ℚ) ^ Int.log 2 x = ((2 ^ 52 : ℤ) : ℚ) * 2 ^ (Int.log 2 x - 52) := by
    rw [show Int.log 2 x = 52 + (Int.log 2 x - 52) by ring, zpow_add₀ (by norm_num)]
    norm_num
  have e2 : (2 : ℚ) ^ (Int.log 2 x + 1) = ((2 ^ 53 : ℤ) : ℚ) * 2 ^ (Int.log 2 x - 52) := by
    rw [show Int.log 2 x + 1 = 53 + (Int.log 2 x - 52) by ring, zpow_add₀ (by norm_num)]
    norm_num
  have l1 : (2 ^ 52 : ℤ) ≤ roundHalfEven (x / 2 ^ (Int.log 2 x - 52)) := by
    rw [← roundHalfEven_intCast (2 ^ 52)]
    apply roundHalfEven_mono
    rw [le_div_iff₀ hu, ← e1]
    exact h1
  have l2 : roundHalfEven (x / 2 ^ (Int.log 2 x - 52)) ≤ (2 ^ 53 : ℤ) := by
    rw [← roundHalfEven_intCast (2 ^ 53)]
    apply roundHalfEven_mono
    rw [div_le_iff₀ hu, ← e2]
    exact h2.le
  unfold toDouble
  rw [abs_of_pos hx, e1, e2]
  exact ⟨mul_le_mul_of_nonneg_right (by exact_mod_cast l1) hu.le,
    mul_le_mul_of_nonneg_right (by exact_mod_cast l2) hu.le⟩

theorem toDouble_zero : toDouble 0 = 0 := by
  simp [toDouble, roundHalfEven]

theorem toDouble_nonneg {x : ℚ} (hx : 0 ≤ x) : 0 ≤ toDouble x := by
  rcases hx.eq_or_lt with h0 | hpos
  · rw [← h0, toDouble_zero]
  · exact (zpow_pos (by norm_num) _).le.trans (toDouble_bounds hpos).1

/-- Rounding to the nearest double keeps the order of non-negative values. -/
theorem toDouble_mono {x y : ℚ} (hx : 0 ≤ x) (h : x ≤ y) : toDouble x ≤ toDouble y := by
  rcases hx.eq_or_lt with h0 | hpos
  · rw [← h0, toDouble_zero]
    exact toDouble_nonneg (hx.trans h)
  · have hy : 0 < y := hpos.trans_le h
    rcases (Int.log_mono_right (b := 2) hpos h).lt_or_eq with hlt | heq
    · exact (toDouble_bounds hpos).2.trans
        ((zpow_le_zpow_right₀ (by norm_num) hlt).trans (toDouble_bounds hy).1)
    · have hu : (0 : ℚ) < 2 ^ (Int.log 2 y - 52) := zpow_pos (by norm_num) _
      unfold toDouble
      rw [abs_of_pos hpos, abs_of_pos hy, heq]
      exact mul_le_mul_of_nonneg_right
        (by exact_mod_cast roundHalfEven_mono (div_le_div_of_nonneg_right h hu.le)) hu.le

theorem mathRound_mono {x y : ℚ} (h : x ≤ y) : mathRound x ≤ mathRound y :=
  Int.floor_mono (by linarith)

theorem mathRound_nonneg {x : ℚ} (hx : 0 ≤ x) : 0 ≤ mathRound x :=
  Int.floor_nonneg.2 (by linarith)

theorem log_two_eq {x : ℚ} {e : ℤ} (h1 : (2 : ℚ) ^ e ≤ x) (h2 : x < (2 : ℚ) ^ (e + 1)) :
    Int.log 2 x = e := by
  have hx : 0 < x := lt_of_lt_of_le (zpow_pos (by norm_num) _) h1
  have a : e ≤ Int.log 2 x := (Int.zpow_le_iff_le_log one_lt_two hx).1 (by simpa using h1)
  have b : Int.log 2 x < e + 1 := (Int.lt_zpow_iff_log_lt one_lt_two hx).1 (by simpa using h2)
  omega

theorem roundHalfEven_eq {y : ℚ} {k : ℤ} (h1 : (k : ℚ) - 1 / 2 < y) (h2 : y < k + 1 / 2) :
    roundHalfEven y = k := by
  have a := Int.floor_le y
  have b := Int.lt_floor_add_one y
  have c : ⌊y⌋ < k + 1 := by
    have : (⌊y⌋ : ℚ) < ((k + 1 : ℤ) : ℚ) := by push_cast; linarith
    exact_mod_cast this
  have d : k - 2 < ⌊y⌋ := by
    have : ((k - 2 : ℤ) : ℚ) < (⌊y⌋ : ℚ) := by push_cast; linarith
    exact_mod_cast this
  have hk : ⌊y⌋ = k ∨ ⌊y⌋ = k - 1 := by omega
  unfold roundHalfEven
  rcases hk with hk | hk
  · rw [hk]
    rw [if_pos (by linarith)]
  · rw [hk]
    rw [if_neg (by push_cast; linarith), if_pos (by push_cast; linarith)]
    ring

/-- The double nearest to `x`, from the exponent `e` of `x` and the integer `k`
nearest to `x / 2^(e-52)`. -/
theorem toDouble_eq {x : ℚ} {e k : ℤ} (h1 : (2 : ℚ) ^ e ≤ x) (h2 : x < (2 : ℚ) ^ (e + 1))
    (h3 : (k : ℚ) - 1 / 2 < x / 2 ^ (e - 52)) (h4 : x / 2 ^ (e - 52) < k + 1 / 2) :
    toDouble x = k * 2 ^ (e - 52) := by
  have hx : 0 < x := lt_of_lt_of_le (zpow_pos (by norm_num) _) h1
  unfold toDouble
  rw [abs_of_pos hx, log_two_eq h1 h2, roundHalfEven_eq h3 h4]

theorem toDouble_one : toDouble 1 = 1 := by
  rw [toDouble_eq (e := 0) (k := 2 ^ 52) (by norm_num) (by norm_num) (by norm_num)
    (by norm_num)]
  norm_num

theorem toDouble_hundred : toDouble 100 = 100 := by
  rw [toDouble_eq (e := 6) (k := 100 * 2 ^ 46) (by norm_num) (by norm_num) (by norm_num)
    (by norm_num)]
  norm_num

theorem roundHalfEven_error (y : ℚ) : |((roundHalfEven y : ℤ) : ℚ) - y| ≤ 1 / 2 := by
  have a := Int.floor_le y
  have b := Int.lt_floor_add_one y
  unfold roundHalfEven
  rw [abs_le]
  split_ifs <;> constructor <;> push_cast <;> linarith

/-- The relative error of a rounding to the nearest double is at most `2^-53`. -/
theorem toDouble_error {x : ℚ} (hx : 0 < x) : |toDouble x - x| ≤ x * 2 ^ (-53 : ℤ) := by
  have h1 : (2 : ℚ) ^ Int.log 2 x ≤ x := by
    simpa using Int.zpow_log_le_self (b := 2) (R := ℚ) one_lt_two hx
  have hu : (0 : ℚ) < 2 ^ (Int.log 2 x - 52) := zpow_pos (by norm_num) _
  have e1 : (2 : ℚ) ^ Int.log 2 x = 2 ^ (52 : ℤ) * 2 ^ (Int.log 2 x - 52) := by
    rw [← zpow_add₀ (by norm_num)]
    congr 1
    ring
  have hr := roundHalfEven_error (x / 2 ^ (Int.log 2 x - 52))
  have hd : toDouble x - x =
      (((roundHalfEven (x / 2 ^ (Int.log 2 x - 52)) : ℤ) : ℚ) - x / 2 ^ (Int.log 2 x - 52)) *
        2 ^ (Int.log 2 x - 52) := by
    unfold toDouble
    rw [abs_of_pos hx]
    field_simp
  rw [hd, abs_mul, abs_of_pos hu]
  calc |((roundHalfEven (x / 2 ^ (Int.log 2 x - 52)) : ℤ) : ℚ) - x / 2 ^ (Int.log 2 x - 52)| *
        2 ^ (Int.log 2 x - 52)
      ≤ 1 / 2 * 2 ^ (Int.log 2 x - 52) := mul_le_mul_of_nonneg_right hr hu.le
    _ = 2 ^ Int.log 2 x * 2 ^ (-53 : ℤ) := by
        rw [e1]
        norm_num
        ring
    _ ≤ x * 2 ^ (-53 : ℤ) := mul_le_mul_of_nonneg_right h1 (by norm_num)

end JS

namespace Index

open Api

/-! ## The progress of a transfer -/

theorem percent_le (received : Nat) (total : Int) : percent received total ≤ 99 :=
  min_le_right _ _

theorem percent_nonneg (received : Nat) {total : Int} (ht : 0 < total) :
    0 ≤ percent received total := by
  have hq : (0 : ℚ) ≤ (received : ℚ) / (total : ℚ) :=
    div_nonneg (Nat.cast_nonneg _) (by exact_mod_cast ht.le)
  exact le_min (JS.mathRound_nonneg (JS.toDouble_nonneg
    (mul_nonneg (JS.toDouble_nonneg hq) (by norm_num)))) (by norm_num)

theorem percent_mono {r₁ r₂ : Nat} (h : r₁ ≤ r₂) {total : Int} (ht : 0 < total) :
    percent r₁ total ≤ percent r₂ total := by
  have ht' : (0 : ℚ) ≤ (total : ℚ) := by exact_mod_cast ht.le
  have hq : (0 : ℚ) ≤ (r₁ : ℚ) / (total : ℚ) := div_nonneg (Nat.cast_nonneg _) ht'
  have hle : (r₁ : ℚ) / (total : ℚ) ≤ (r₂ : ℚ) / (total : ℚ) :=
    div_le_div_of_nonneg_right (by exact_mod_cast h) ht'
  exact min_le_min_right _ (JS.mathRound_mono (JS.toDouble_mono
    (mul_nonneg (JS.toDouble_nonneg hq) (by norm_num))
    (mul_le_mul_of_nonneg_right (JS.toDouble_mono hq hle) (by norm_num))))

theorem percent_of_total_le {received : Nat} {total : Int} (ht : 0 < total)
    (h : total ≤ received) : percent received total = 99 := by
  have ht' : (0 : ℚ) < (total : ℚ) := by exact_mod_cast ht
  have hq : (1 : ℚ) ≤ (received : ℚ) / (total : ℚ) := by
    rw [le_div_iff₀ ht', one_mul]
    exact_mod_cast h
  have h1 : (1 : ℚ) ≤ JS.toDouble ((received : ℚ) / (total : ℚ)) := by
    have := JS.toDouble_mono (by norm_num) hq
    rwa [JS.toDouble_one] at this
  have h2 : (100 : ℚ) ≤ JS.toDouble (JS.toDouble ((received : ℚ) / (total : ℚ)) * 100) := by
    have := JS.toDouble_mono (x := 100) (by norm_num)
      (show (100 : ℚ) ≤ JS.toDouble ((received : ℚ) / (total : ℚ)) * 100 by linarith)
    rwa [JS.toDouble_hundred] at this
  have h3 : (100 : ℤ) ≤ JS.mathRound (JS.toDouble (JS.toDouble ((received : ℚ) / (total : ℚ)) * 100)) := by
    unfold JS.mathRound
    rw [Int.le_floor]
    push_cast
    linarith
  unfold percent
  exact min_eq_right (by omega)

theorem percentExact_of_total_le {received : Nat} {total : Int} (ht : 0 < total)
    (h : total ≤ received) : percentExact received total = 99 := by
  have ht' : (0 : ℚ) < (total : ℚ) := by exact_mod_cast ht
  have hq : (100 : ℚ) ≤ 100 * (received : ℚ) / (total : ℚ) := by
    rw [le_div_iff₀ ht']
    have : (total : ℚ) ≤ (received : ℚ) := by exact_mod_cast h
    linarith
  have h3 : (100 : ℤ) ≤ JS.mathRound (100 * (received : ℚ) / (total : ℚ)) := by
    unfold JS.mathRound
    rw [Int.le_floor]
    push_cast
    linarith
  unfold percentExact
  exact min_eq_right (by omega)

/-- The published percentage is within one of the exactly computed one. -/
theorem percent_near_exact (received : Nat) {total : Int} (ht : 0 < total) :
    percentExact received total - 1 ≤ percent received total ∧
      percent received total ≤ percentExact received total + 1 := by
  rcases le_or_lt total (received : Int) with hge | hlt
  · rw [percent_of_total_le ht hge, percentExact_of_total_le ht hge]
    omega
  have ht' : (0 : ℚ) < (total : ℚ) := by exact_mod_cast ht
  have hlt' : (received : ℚ) < (total : ℚ) := by exact_mod_cast hlt
  have hq1 : (received : ℚ) / (total : ℚ) < 1 := (div_lt_one ht').2 hlt'
  have hq0 : (0 : ℚ) ≤ (received : ℚ) / (total : ℚ) := div_nonneg (Nat.cast_nonneg _) ht'.le
  have hclose : |JS.toDouble (JS.toDouble ((received : ℚ) / (total : ℚ)) * 100) -
      100 * (received : ℚ) / (total : ℚ)| < 1 := by
    rcases hq0.eq_or_lt with h0 | hpos
    · have e : 100 * (received : ℚ) / (total : ℚ) = 0 := by
        rw [mul_div_assoc, ← h0, mul_zero]
      rw [e, ← h0, JS.toDouble_zero, zero_mul, JS.toDouble_zero]
      norm_num
    · have ha := JS.toDouble_error hpos
      have hapos : 0 < JS.toDouble ((received : ℚ) / (total : ℚ)) :=
        lt_of_lt_of_le (zpow_pos (by norm_num) _) (JS.toDouble_bounds hpos).1
      have hd := JS.toDouble_error (x := JS.toDouble ((received : ℚ) / (total : ℚ)) * 100)
        (by positivity)
      rw [abs_le] at ha hd
      have he : (2 : ℚ) ^ (-53 : ℤ) = 1 / 9007199254740992 := by norm_num
      rw [he] at ha hd
      rw [mul_div_assoc, abs_lt]
      constructor <;> nlinarith
  have hfloor : JS.mathRound (100 * (received : ℚ) / (total : ℚ)) - 1 ≤
      JS.mathRound (JS.toDouble (JS.toDouble ((received : ℚ) / (total : ℚ)) * 100)) ∧
      JS.mathRound (JS.toDouble (JS.toDouble ((received : ℚ) / (total : ℚ)) * 100)) ≤
        JS.mathRound (100 * (received : ℚ) / (total : ℚ)) + 1 := by
    obtain ⟨hc1, hc2⟩ := abs_lt.1 hclose
    unfold JS.mathRound
    constructor
    · rw [Int.le_floor]
      have := Int.floor_le (100 * (received : ℚ) / (total : ℚ) + 1 / 2)
      push_cast
      linarith
    · have h1 : ⌊JS.toDouble (JS.toDouble ((received : ℚ) / (total : ℚ)) * 100) + 1 / 2⌋ - 1 ≤
          ⌊100 * (received : ℚ) / (total : ℚ) + 1 / 2⌋ := by
        rw [Int.le_floor]
        have := Int.floor_le (JS.toDouble (JS.toDouble ((received : ℚ) / (total : ℚ)) * 100) + 1 / 2)
        push_cast
        linarith
      omega
  unfold percent percentExact
  omega

/-- The Number `(29 / 200) * 100`: the quotient is the double just below 0.145,
and the product the double just below 14.5. -/
theorem double_29_200 :
    JS.toDouble (JS.toDouble ((29 : ℚ) / 200) * 100) = 8162774324609023 * 2 ^ (-49 : ℤ) := by
  have hq : JS.toDouble ((29 : ℚ) / 200) = 5224175567749775 * 2 ^ (-55 : ℤ) := by
    have h := JS.toDouble_eq (x := (29 : ℚ) / 200) (e := -3) (k := 5224175567749775)
      (by norm_num) (by norm_num) (by norm_num) (by norm_num)
    rw [h]
    norm_num
  rw [hq]
  have h := JS.toDouble_eq (x := (5224175567749775 * 2 ^ (-55 : ℤ) : ℚ) * 100) (e := 3)
    (k := 8162774324609023) (by norm_num) (by norm_num) (by norm_num) (by norm_num)
  rw [h]
  norm_num

/-- The Number `(1 / 200) * 100`: the quotient is the double just above 0.005,
and the product is 0.5. -/
theorem double_1_200 :
    JS.toDouble (JS.toDouble ((1 : ℚ) / 200) * 100) = 1 / 2 := by
  have hq : JS.toDouble ((1 : ℚ) / 200) = 5764607523034235 * 2 ^ (-60 : ℤ) := by
    have h := JS.toDouble_eq (x := (1 : ℚ) / 200) (e := -8) (k := 5764607523034235)
      (by norm_num) (by norm_num) (by norm_num) (by norm_num)
    rw [h]
    norm_num
  rw [hq]
  have h := JS.toDouble_eq (x := (5764607523034235 * 2 ^ (-60 : ℤ) : ℚ) * 100) (e := -1)
    (k := 4503599627370496) (by norm_num) (by norm_num) (by norm_num) (by norm_num)
  rw [h]
  norm_num

theorem percent_29_200 : percent 29 200 = 14 := by
  have h : JS.mathRound (8162774324609023 * 2 ^ (-49 : ℤ)) = 14 := by
    unfold JS.mathRound
    rw [Int.floor_eq_iff]
    constructor <;> norm_num
  have e : percent 29 200 =
      min (JS.mathRound (JS.toDouble (JS.toDouble ((29 : ℚ) / 200) * 100))) 99 := by
    unfold percent
    norm_num
  rw [e, double_29_200, h]
  rfl

theorem percent_1_200 : percent 1 200 = 1 := by
  have h : JS.mathRound (1 / 2) = 1 := by
    unfold JS.mathRound
    rw [Int.floor_eq_iff]
    constructor <;> norm_num
  have e : percent 1 200 =
      min (JS.mathRound (JS.toDouble (JS.toDouble ((1 : ℚ) / 200) * 100))) 99 := by
    unfold percent
    norm_num
  rw [e, double_1_200, h]
  rfl

theorem percentExact_29_200 : percentExact 29 200 = 15 := by
  have h : JS.mathRound (100 * ((29 : ℕ) : ℚ) / ((200 : ℤ) : ℚ)) = 15 := by
    unfold JS.mathRound
    rw [Int.floor_eq_iff]
    constructor <;> norm_num
  unfold percentExact
  rw [h]
  rfl

theorem update_hundred {m : String → Option Int} {id k : String} {v : Option Int}
    (h : update m id v k = some 100) : (k = id ∧ v = some 100) ∨ m k = some 100 := by
  by_cases e : k = id
  · subst e
    rw [update_self] at h
    exact Or.inl ⟨rfl, h⟩
  · rw [update_ne _ _ _ _ e] at h
    exact Or.inr h

/-- The pass of the read loop for a chunk, with a truthy `total`. -/
theorem step_chunk (s : System) (i : Nat) (a : Attempt) (filename url : String)
    (total : Option Int) (received lastSpeedTime lastSpeedBytes length now : Nat) (t : Int)
    (hi : s.attempts.get? i = some a)
    (hph : a.phase = .reading filename url total received lastSpeedTime lastSpeedBytes)
    (ht : truthyTotal total = some t) :
    (step s (.read i (.chunk length now))).store.downloadProgress a.id =
        some (percent (received + length) t) ∧
      ∃ l b, (step s (.read i (.chunk length now))).attempts.get? i =
        some { a with phase := .reading filename url total (received + length) l b } := by
  have hlt : i < s.attempts.length := by
    rcases Nat.lt_or_ge i s.attempts.length with h | h
    · exact h
    · rw [List.get?_eq_none.2 h] at hi
      cases hi
  simp only [step, hi, hph, ht]
  split
  · exact ⟨update_self _ _ _, now, received + length, by simp [List.get?_eq_getElem?, hlt]⟩
  · exact ⟨update_self _ _ _, lastSpeedTime, lastSpeedBytes,
      by simp [List.get?_eq_getElem?, hlt]⟩

/-- The statements before the read loop, after an `ok` answer of the `fetch`. -/
theorem step_fetched (s : System) (i : Nat) (a : Attempt) (filename url : String)
    (contentLength : Option String) (now : Nat)
    (hi : s.attempts.get? i = some a) (hph : a.phase = .fetching filename url) :
    (step s (.fetched i (.response true contentLength now))).store.downloadProgress a.id =
        some 0 ∧
      (step s (.fetched i (.response true contentLength now))).attempts.get? i =
        some { a with phase := .reading filename url (totalOf contentLength) 0 now 0 } := by
  have hlt : i < s.attempts.length := by
    rcases Nat.lt_or_ge i s.attempts.length with h | h
    · exact h
    · rw [List.get?_eq_none.2 h] at hi
      cases hi
  simp only [step, hi, hph]
  exact ⟨update_self _ _ _, by simp [List.get?_eq_getElem?, hlt]⟩

/-- The passes of the read loop for a sequence of chunks, with a truthy `total`:
the call stays in the loop, `received` grows by the lengths, and the progress
after the last chunk is the percentage of the bytes received so far. -/
theorem readChunks_progress (i : Nat) (filename url : String) (total : Option Int) (t : Int)
    (ht : truthyTotal total = some t) :
    ∀ (chunks : List (Nat × Nat)) (s : System) (a : Attempt) (received l b : Nat),
      s.attempts.get? i = some a → a.phase = .reading filename url total received l b →
      (∃ l' b', (readChunks s i chunks).attempts.get? i = some
        { a with phase := .reading filename url total (received + (chunks.map Prod.fst).sum) l' b' }) ∧
      (chunks ≠ [] → (readChunks s i chunks).store.downloadProgress a.id =
        some (percent (received + (chunks.map Prod.fst).sum) t))
  | [], s, a, received, l, b, hi, hph => by
      refine ⟨⟨l, b, ?_⟩, fun h => absurd rfl h⟩
      simp only [readChunks, List.foldl_nil, List.map_nil, List.sum_nil, Nat.add_zero, hi,
        ← hph]
  | c :: cs, s, a, received, l, b, hi, hph => by
      obtain ⟨hp, l1, b1, h1⟩ := step_chunk s i a filename url total received l b c.1 c.2 t
        hi hph ht
      obtain ⟨⟨l2, b2, h2⟩, h3⟩ := readChunks_progress i filename url total t ht cs _ _
        (received + c.1) l1 b1 h1 rfl
      have hsum : received + ((c :: cs).map Prod.fst).sum =
          received + c.1 + (cs.map Prod.fst).sum := by
        simp only [List.map_cons, List.sum_cons]
        omega
      have hrun : readChunks s i (c :: cs) =
          readChunks (step s (.read i (.chunk c.1 c.2))) i cs := rfl
      rw [hsum, hrun]
      refine ⟨⟨l2, b2, h2⟩, fun _ => ?_⟩
      cases cs with
      | nil => simpa [readChunks] using hp
      | cons c' cs' => exact h3 (List.cons_ne_nil _ _)

/-- A step that publishes the progress 100 for `k` runs the completion
statements of a call for `k`: its read loop has ended with `done`, or its
transfer has failed and fallen back to navigation. -/
theorem step_progress_hundred (s : System) (ev : Event) (k : String)
    (h : (step s ev).store.downloadProgress k = some 100) :
    s.store.downloadProgress k = some 100 ∨
    ∃ i a, s.attempts.get? i = some a ∧ a.id = k ∧
      ((∃ filename url total received l b,
          a.phase = .reading filename url total received l b ∧ ev = .read i .done) ∨
        ∃ url, IsTransferFailureOf i a url ev) := by
  have none_case : ∀ {m : String → Option Int} {id : String},
      update m id none k = some 100 → m k = some 100 := by
    intro m id h
    rcases update_hundred h with ⟨_, h⟩ | h
    · cases h
    · exact h
  cases ev with
  | download episode episodeNum seasonNum seriesTitle titleFormat =>
    simp only [step] at h
    split at h <;> exact Or.inl h
  | abort id =>
    simp only [step] at h
    split at h <;> exact Or.inl h
  | resolved i r =>
    simp only [step] at h
    split at h
    · split at h
      · exact Or.inl (none_case h)
      · exact Or.inl (none_case h)
      · split at h
        · split at h
          · exact Or.inl h
          · exact Or.inl (none_case h)
        · exact Or.inl (none_case h)
      · exact Or.inl h
    · exact Or.inl h
  | fetched i r =>
    simp only [step] at h
    split at h
    · next a hg =>
      split at h
      · exact Or.inl (none_case h)
      · next f u hph =>
        rcases update_hundred h with ⟨e, _⟩ | h
        · exact Or.inr ⟨i, a, hg, e.symm, Or.inr ⟨u, Or.inl ⟨f, hph, Or.inl rfl⟩⟩⟩
        · exact Or.inl h
      · next f u cl now hph =>
        rcases update_hundred h with ⟨e, _⟩ | h
        · exact Or.inr ⟨i, a, hg, e.symm, Or.inr ⟨u, Or.inl ⟨f, hph, Or.inr ⟨cl, now, rfl⟩⟩⟩⟩
        · exact Or.inl h
      · rcases update_hundred h with ⟨_, e⟩ | h
        · cases e
        · exact Or.inl h
      · exact Or.inl h
    · exact Or.inl h
  | read i r =>
    simp only [step] at h
    split at h
    · next a hg =>
      split at h
      · have hp : ∀ {received : Nat} {total : Option Int},
            (match truthyTotal total with
              | some t => update s.store.downloadProgress a.id (some (percent received t))
              | none => s.store.downloadProgress) k = some 100 →
            s.store.downloadProgress k = some 100 := by
          intro received total h
          cases ht : truthyTotal total with
          | none =>
            simp only [ht] at h
            exact h
          | some t =>
            simp only [ht] at h
            rcases update_hundred h with ⟨_, e⟩ | h
            · have := percent_le received t
              simp only [Option.some.injEq] at e
              omega
            · exact h
        split at h
        · exact Or.inl (hp h)
        · exact Or.inl (hp h)
      · next f u total received l b hph =>
        rcases update_hundred h with ⟨e, _⟩ | h
        · exact Or.inr ⟨i, a, hg, e.symm, Or.inl ⟨f, u, total, received, l, b, hph, rfl⟩⟩
        · exact Or.inl h
      · exact Or.inl (none_case h)
      · next f u total received l b hph =>
        rcases update_hundred h with ⟨e, _⟩ | h
        · exact Or.inr ⟨i, a, hg, e.symm,
            Or.inr ⟨u, Or.inr ⟨f, total, received, l, b, hph, rfl⟩⟩⟩
        · exact Or.inl h
      · exact Or.inl h
    · exact Or.inl h
  | timer i =>
    simp only [step] at h
    split at h
    · exact Or.inl (none_case h)
    · exact Or.inl h

/-- The end of the read loop with `done`. -/
theorem step_done (s : System) (i : Nat) (a : Attempt) (filename url : String)
    (total : Option Int) (received l b : Nat) (hi : s.attempts.get? i = some a)
    (hph : a.phase = .reading filename url total received l b) :
    step s (.read i .done) = endCompleted s i a.id (.save filename) := by
  simp only [step, hi, hph]

theorem startedTransfer_reading :
    (run startedTransfer).attempts.get? 0 =
      some { sampleAttempt with
        phase := .reading "Teo - T1xC1 - Pilot.mp4"
          "https://mp4-down-high-es.3catvideos.cat/1.mp4" (some 200) 0 0 0 } := by
  decide

/-- C22, as stated, fails.  With a total of 200 bytes, a first chunk of 29 bytes
publishes 14, although `100 * 29 / 200` is 14.5 and `Math.round` gives 15 for
it: the Number `(29 / 200) * 100` is the double just below 14.5.  No other
reading of `round` helps: a first chunk of 1 byte publishes 1, where
`100 * 1 / 200` is 0.5 and the rounding of ties to even gives 0. -/
theorem progress_published_counterexample :
    ((readChunks (run startedTransfer) 0 [(29, 10)]).store.downloadProgress "e1" = some 14 ∧
      (100 * 29 / 200 : ℚ) = 14 + 1 / 2 ∧ percentExact 29 200 = 15) ∧
    ((readChunks (run startedTransfer) 0 [(1, 10)]).store.downloadProgress "e1" = some 1 ∧
      (100 * 1 / 200 : ℚ) = 0 + 1 / 2 ∧ JS.roundHalfEven (100 * 1 / 200) = 0) := by
  have h := fun chunks => (readChunks_progress 0 "Teo - T1xC1 - Pilot.mp4"
    "https://mp4-down-high-es.3catvideos.cat/1.mp4" (some 200) 200 (by decide) chunks
    (run startedTransfer) _ 0 0 0 startedTransfer_reading rfl).2
  refine ⟨⟨?_, by norm_num, percentExact_29_200⟩, ?_, by norm_num, ?_⟩
  · rw [← percent_29_200]
    exact h [(29, 10)] (by decide)
  · rw [← percent_1_200]
    exact h [(1, 10)] (by decide)
  · have hf : ⌊(100 * 1 / 200 : ℚ)⌋ = 0 := by
      rw [Int.floor_eq_iff]
      constructor <;> norm_num
    unfold JS.roundHalfEven
    rw [hf]
    norm_num

/-- C22, amended: for a call whose transfer starts with a truthy `total > 0`, the
progress 0 is published before the read loop; after every non-empty sequence of
chunks the published progress is `percent received total` with `received` the
sum of their lengths, which is `Math.min(Math.round(d), 99)` for the Number `d`
that `(received / total) * 100` gives in double arithmetic; this value is an
integer between 0 and 99, never 100, it is 99 as soon as `received >= total`, it
is non-decreasing in `received`, and it is within one of the exactly computed
`min(round(100 * received / total), 99)`.  A step publishes 100 only with the
completion statements of a call, whose read loop has ended with `done` or whose
transfer has failed and fallen back to navigation; and the end of the loop with
`done` does publish it. -/
theorem progress_published (s : System) (i : Nat) (a : Attempt) (filename url : String)
    (contentLength : Option String) (now : Nat) (total : Int)
    (hi : s.attempts.get? i = some a) (hph : a.phase = .fetching filename url)
    (ht : truthyTotal (totalOf contentLength) = some total) (hpos : 0 < total) :
    (step s (.fetched i (.response true contentLength now))).store.downloadProgress a.id =
      some 0 ∧
    (∀ chunks : List (Nat × Nat), chunks ≠ [] →
      (readChunks (step s (.fetched i (.response true contentLength now))) i
          chunks).store.downloadProgress a.id =
        some (percent (chunks.map Prod.fst).sum total)) ∧
    (∀ received : Nat,
      percent received total =
        min (JS.mathRound (JS.toDouble (JS.toDouble ((received : ℚ) / (total : ℚ)) * 100))) 99 ∧
      0 ≤ percent received total ∧ percent received total ≤ 99 ∧
      percent received total ≠ 100 ∧
      (total ≤ (received : Int) → percent received total = 99) ∧
      percentExact received total - 1 ≤ percent received total ∧
      percent received total ≤ percentExact received total + 1) ∧
    (∀ r₁ r₂ : Nat, r₁ ≤ r₂ → percent r₁ total ≤ percent r₂ total) ∧
    (∀ (s' : System) (ev : Event) (k : String),
      (step s' ev).store.downloadProgress k = some 100 →
      s'.store.downloadProgress k = some 100 ∨
      ∃ j b, s'.attempts.get? j = some b ∧ b.id = k ∧
        ((∃ filename url total received l c,
            b.phase = .reading filename url total received l c ∧ ev = .read j .done) ∨
          ∃ url, IsTransferFailureOf j b url ev)) ∧
    (∀ chunks : List (Nat × Nat),
      (step (readChunks (step s (.fetched i (.response true contentLength now))) i chunks)
        (.read i .done)).store.downloadProgress a.id = some 100) := by
  obtain ⟨h0, h1⟩ := step_fetched s i a filename url contentLength now hi hph
  have hrun := fun chunks => readChunks_progress i filename url (totalOf contentLength) total ht
    chunks _ _ 0 now 0 h1 rfl
  refine ⟨h0, ?_, ?_, fun r₁ r₂ h => percent_mono h hpos, step_progress_hundred, ?_⟩
  · intro chunks hne
    have h := (hrun chunks).2 hne
    rw [Nat.zero_add] at h
    exact h
  · intro received
    have hle := percent_le received total
    exact ⟨rfl, percent_nonneg received hpos, hle, by omega,
      fun h => percent_of_total_le hpos h, percent_near_exact received hpos⟩
  · intro chunks
    obtain ⟨l, b, h⟩ := (hrun chunks).1
    rw [step_done _ i _ _ _ _ _ _ _ h rfl]
    exact update_self _ _ _

theorem progress_published_witness :
    (run startedTransfer).store.downloadProgress "e1" = some 0 ∧
    (readChunks (run startedTransfer) 0 [(29, 10), (71, 700)]).store.downloadProgress "e1" =
      some (percent 100 200) ∧
    (0 ≤ percent 100 200 ∧ percent 100 200 ≤ 99) ∧
    (step (readChunks (run startedTransfer) 0 [(29, 10), (71, 700)])
      (.read 0 .done)).store.downloadProgress "e1" = some 100 := by
  have h := progress_published
    (run [.download sampleEpisode 1 1 "Teo" "txcx", .resolved 0 (.response true sampleVideoData)])
    0 { sampleAttempt with
        phase := .fetching "Teo - T1xC1 - Pilot.mp4"
          "https://mp4-down-high-es.3catvideos.cat/1.mp4" }
    "Teo - T1xC1 - Pilot.mp4" "https://mp4-down-high-es.3catvideos.cat/1.mp4" (some "200") 0 200
    (by decide) rfl (by decide) (by decide)
  exact ⟨h.1, h.2.1 [(29, 10), (71, 700)] (by decide),
    ⟨(h.2.2.1 100).2.1, (h.2.2.1 100).2.2.1⟩, h.2.2.2.2.2 [(29, 10), (71, 700)]⟩

end Index

namespace JS

/-! ## The Number of a natural number and the nearest double -/

/-- The rounding of a natural number to a multiple of `u` is the rounding of the
quotient by `u` to the nearest integer, ties to even. -/
theorem roundToMultiple_cast (n u : Nat) (hu : 0 < u) :
    ((roundToMultiple n u : Nat) : ℚ) = (roundHalfEven ((n : ℚ) / (u : ℚ)) : ℚ) * (u : ℚ) := by
  have hu' : (0 : ℚ) < (u : ℚ) := by exact_mod_cast hu
  have hdm : (n : ℚ) = (u : ℚ) * ((n / u : Nat) : ℚ) + ((n % u : Nat) : ℚ) := by
    exact_mod_cast (Nat.div_add_mod n u).symm
  have hmlt : n % u < u := Nat.mod_lt n hu
  unfold roundToMultiple
  generalize n / u = q at hdm ⊢
  generalize n % u = m at hdm hmlt ⊢
  have hm : (m : ℚ) < (u : ℚ) := by exact_mod_cast hmlt
  have hm0 : (0 : ℚ) ≤ (m : ℚ) := Nat.cast_nonneg _
  have hy : (n : ℚ) / (u : ℚ) = (q : ℚ) + (m : ℚ) / (u : ℚ) := by
    rw [hdm]
    field_simp
    ring
  have hfrac0 : (0 : ℚ) ≤ (m : ℚ) / (u : ℚ) := div_nonneg hm0 hu'.le
  have hfrac1 : (m : ℚ) / (u : ℚ) < 1 := (div_lt_one hu').2 hm
  have hfl : ⌊(n : ℚ) / (u : ℚ)⌋ = (q : ℤ) := by
    rw [Int.floor_eq_iff, hy]
    push_cast
    constructor <;> linarith
  have hsub : (n : ℚ) / (u : ℚ) - ((q : ℤ) : ℚ) = (m : ℚ) / (u : ℚ) := by
    rw [hy]
    push_cast
    ring
  have hlt : (m : ℚ) / (u : ℚ) < 1 / 2 ↔ 2 * m < u := by
    rw [div_lt_iff₀ hu']
    constructor
    · intro h
      have : ((2 * m : Nat) : ℚ) < (u : ℚ) := by push_cast; linarith
      exact_mod_cast this
    · intro h
      have : ((2 * m : Nat) : ℚ) < (u : ℚ) := by exact_mod_cast h
      push_cast at this
      linarith
  have hgt : 1 / 2 < (m : ℚ) / (u : ℚ) ↔ u < 2 * m := by
    rw [lt_div_iff₀ hu']
    constructor
    · intro h
      have : (u : ℚ) < ((2 * m : Nat) : ℚ) := by push_cast; linarith
      exact_mod_cast this
    · intro h
      have : (u : ℚ) < ((2 * m : Nat) : ℚ) := by exact_mod_cast h
      push_cast at this
      linarith
  have hpar : (q : ℤ) % 2 = 0 ↔ q % 2 = 0 := by omega
  unfold roundHalfEven
  rw [hfl, hsub]
  simp only [hlt, hgt, hpar]
  split_ifs <;> push_cast <;> ring

/-- A natural number below `2^53` is a double. -/
theorem toDouble_natCast_small (n : Nat) (h : n < 2 ^ 53) : toDouble (n : ℚ) = (n : ℚ) := by
  rcases Nat.eq_zero_or_pos n with h0 | hpos
  · subst h0
    simpa using toDouble_zero
  · have hx : (0 : ℚ) < (n : ℚ) := by exact_mod_cast hpos
    have hlog : Int.log 2 (n : ℚ) < 53 := by
      rw [← Int.lt_zpow_iff_log_lt one_lt_two hx]
      have h' : (n : ℚ) < 2 ^ 53 := by exact_mod_cast h
      norm_num at h' ⊢
      exact h'
    obtain ⟨d, hd⟩ : ∃ d : ℕ, Int.log 2 (n : ℚ) - 52 = -(d : ℤ) :=
      ⟨(52 - Int.log 2 (n : ℚ)).toNat, by omega⟩
    have hpow : (0 : ℚ) < 2 ^ d := pow_pos (by norm_num) d
    have hint : (n : ℚ) / ((2 : ℚ) ^ d)⁻¹ = (((n * 2 ^ d : ℕ) : ℤ) : ℚ) := by
      push_cast
      field_simp
    unfold toDouble
    rw [abs_of_pos hx, hd, zpow_neg, zpow_natCast, hint, roundHalfEven_intCast]
    push_cast
    field_simp

/-- The double nearest to a natural number, as `nearestDouble` computes it on the
natural numbers, is the one that `toDouble` gives on the rationals. -/
theorem nearestDouble_eq_toDouble (n : Nat) : ((nearestDouble n : Nat) : ℚ) = toDouble (n : ℚ) := by
  obtain ⟨⟨k, hk⟩, hlt, hge⟩ := roundingUnit_nearest n
  by_cases hsmall : n < 2 ^ 53
  · rw [nearestDouble_exact n hsmall.le, toDouble_natCast_small n hsmall]
  · have hge' : 2 ^ 52 * roundingUnit n n 1 ≤ n := by
      rcases hge with h | h
      · rw [h] at hlt
        omega
      · exact h
    rw [hk] at hlt hge'
    have hx : (0 : ℚ) < (n : ℚ) := by
      have : 0 < n := by omega
      exact_mod_cast this
    have h1 : (2 : ℚ) ^ ((52 + k : ℕ) : ℤ) ≤ (n : ℚ) := by
      rw [zpow_natCast]
      have : ((2 ^ 52 * 2 ^ k : ℕ) : ℚ) ≤ (n : ℚ) := by exact_mod_cast hge'
      rw [pow_add]
      exact_mod_cast this
    have h2 : (n : ℚ) < (2 : ℚ) ^ (((52 + k : ℕ) : ℤ) + 1) := by
      have e : ((52 + k : ℕ) : ℤ) + 1 = ((53 + k : ℕ) : ℤ) := by push_cast; ring
      rw [e, zpow_natCast, pow_add]
      have : ((n : ℕ) : ℚ) < ((2 ^ 53 * 2 ^ k : ℕ) : ℚ) := by exact_mod_cast hlt
      exact_mod_cast this
    have hlog := log_two_eq h1 h2
    have hunit : (2 : ℚ) ^ (((52 + k : ℕ) : ℤ) - 52) = ((2 ^ k : ℕ) : ℚ) := by
      have e : ((52 + k : ℕ) : ℤ) - 52 = (k : ℤ) := by push_cast; ring
      rw [e, zpow_natCast]
      push_cast
      rfl
    have hdef : nearestDouble n = roundToMultiple n (2 ^ k) := by
      unfold nearestDouble
      rw [hk]
    rw [hdef, roundToMultiple_cast n (2 ^ k) (Nat.two_pow_pos k)]
    unfold toDouble
    rw [abs_of_pos hx, hlog, hunit]

end JS

namespace JS

theorem numberOfNat_finite {n : Nat} {v : Int} (h : numberOfNat n = .finite v) :
    v = (nearestDouble n : Int) := by
  rcases numberOfNat_cases n with ⟨h1, _⟩ | ⟨h1, _⟩
  · rw [h1] at h
    cases h
    rfl
  · rw [h1] at h
    cases h

/-- A finite Number of a natural number `n`: a non-negative integer, the double
that `toDouble` gives for `n`, at a relative distance of at most `2^-53`. -/
theorem numberOfNat_finite_spec {n : Nat} {v : Int} (h : numberOfNat n = .finite v) :
    0 ≤ v ∧ (v : ℚ) = toDouble (n : ℚ) ∧ 2 ^ 53 * |v - (n : Int)| ≤ (n : Int) := by
  have hv := numberOfNat_finite h
  obtain ⟨h1, h2⟩ := nearestDouble_error n
  subst hv
  refine ⟨Int.natCast_nonneg _, ?_, ?_⟩
  · rw [← nearestDouble_eq_toDouble]
    norm_cast
  · rcases abs_cases ((nearestDouble n : Int) - (n : Int)) with ⟨e, _⟩ | ⟨e, _⟩ <;> rw [e] <;>
      omega

/-- The Number of a natural number is a non-negative integer or `Infinity`. -/
theorem numberOfNat_range (n : Nat) :
    (∃ v : Nat, numberOfNat n = .finite (v : Int)) ∨ numberOfNat n = .infinity := by
  rcases numberOfNat_cases n with ⟨h1, _⟩ | ⟨h1, _⟩
  · exact Or.inl ⟨_, h1⟩
  · exact Or.inr h1

end JS

namespace VideoUrl

/-! ## The quality rank -/

theorem qualityToNumber_run (label : String) (pre run post : List Char)
    (e : label.data = pre ++ run ++ post) (hpre : ∀ c ∈ pre, JS.isDigit c = false)
    (hne : run ≠ []) (hrun : ∀ c ∈ run, JS.isDigit c = true)
    (hpost : ∀ c, post.head? = some c → JS.isDigit c = false) :
    qualityToNumber label = JS.numberOfNat (JS.decimalValue run) := by
  cases run with
  | nil => exact absurd rfl hne
  | cons c cs =>
    have hc : JS.isDigit c = true := hrun c (List.mem_cons_self _ _)
    have hd : label.data.dropWhile (fun x => !JS.isDigit x) = c :: (cs ++ post) := by
      rw [e, List.append_assoc]
      exact JS.dropWhile_not_digit pre (cs ++ post) c hpre hc
    have ht : (c :: (cs ++ post)).takeWhile JS.isDigit = c :: cs :=
      JS.takeWhile_digit (c :: cs) post hrun hpost
    simp only [qualityToNumber, JS.matchDigits, hd, ht]
    exact JS.parseInt_eq_decimalValue (c :: cs)

set_option maxRecDepth 100000 in
theorem qualityToNumber_long_run :
    JS.matchDigits ("1" ++ String.mk (List.replicate 400 '0')) =
        some ('1' :: List.replicate 400 '0') ∧
      qualityToNumber ("1" ++ String.mk (List.replicate 400 '0')) = .infinity := by
  decide

/-- C19, as stated, fails.  The first maximal run of digits of the label
`9007199254740993p` has the decimal value `2^53 + 1`, and `qualityToNumber`
gives `2^53`: `parseInt` returns the nearest double.  For the label made of a 1
and 400 zeros it gives `Infinity`, which is no integer. -/
theorem qualityToNumber_first_run_counterexample :
    (JS.matchDigits "9007199254740993p" = some "9007199254740993".data ∧
      JS.decimalValue "9007199254740993".data = 2 ^ 53 + 1 ∧
      qualityToNumber "9007199254740993p" = .finite (2 ^ 53)) ∧
    (JS.matchDigits ("1" ++ String.mk (List.replicate 400 '0')) =
        some ('1' :: List.replicate 400 '0') ∧
      qualityToNumber ("1" ++ String.mk (List.replicate 400 '0')) = .infinity) :=
  ⟨⟨by decide, by decide, by decide⟩, qualityToNumber_long_run⟩

/-- C19, amended: `qualityToNumber(label)` is the Number of the decimal value of
the first maximal run of ASCII digits of the label: that value itself when it is
at most `2^53`; `Infinity` exactly when it is at least `2^1024 - 2^970`; and
otherwise the double nearest to it (the one `toDouble` gives), at a relative
distance of at most `2^-53`.  It is 0 when the label has no digit; every label
falls under one of the two cases, and the result is a non-negative integer or
`Infinity`: `720p` gives 720, `HD` and `?` give 0. -/
theorem qualityToNumber_first_run (label : String) :
    (∀ pre run post, label.data = pre ++ run ++ post →
      (∀ c ∈ pre, JS.isDigit c = false) → run ≠ [] → (∀ c ∈ run, JS.isDigit c = true) →
      (∀ c, post.head? = some c → JS.isDigit c = false) →
      qualityToNumber label = JS.numberOfNat (JS.decimalValue run) ∧
      (JS.decimalValue run ≤ 2 ^ 53 →
        qualityToNumber label = .finite (JS.decimalValue run)) ∧
      (qualityToNumber label = .infinity ↔ 2 ^ 1024 - 2 ^ 970 ≤ JS.decimalValue run) ∧
      (∀ v, qualityToNumber label = .finite v →
        0 ≤ v ∧ (v : ℚ) = JS.toDouble (JS.decimalValue run : ℚ) ∧
        2 ^ 53 * |v - (JS.decimalValue run : Int)| ≤ (JS.decimalValue run : Int))) ∧
    ((∀ c ∈ label.data, JS.isDigit c = false) → qualityToNumber label = .finite 0) ∧
    ((∀ c ∈ label.data, JS.isDigit c = false) ∨
      ∃ pre run post, label.data = pre ++ run ++ post ∧ (∀ c ∈ pre, JS.isDigit c = false) ∧
        run ≠ [] ∧ (∀ c ∈ run, JS.isDigit c = true) ∧
        (∀ c, post.head? = some c → JS.isDigit c = false)) ∧
    ((∃ v : Nat, qualityToNumber label = .finite (v : Int)) ∨
      qualityToNumber label = .infinity) ∧
    qualityToNumber "720p" = .finite 720 ∧ qualityToNumber "HD" = .finite 0 ∧
    qualityToNumber "?" = .finite 0 := by
  refine ⟨?_, qualityToNumber_no_digit label, JS.first_run_exists label.data, ?_,
    by decide, by decide, by decide⟩
  · intro pre run post e hpre hne hrun hpost
    have h := qualityToNumber_run label pre run post e hpre hne hrun hpost
    rw [h]
    exact ⟨rfl, fun hle => JS.numberOfNat_exact _ hle, JS.numberOfNat_infinity_iff _,
      fun v hv => JS.numberOfNat_finite_spec hv⟩
  · rcases JS.first_run_exists label.data with hnd | ⟨pre, run, post, e, hpre, hne, hrun, hpost⟩
    · exact Or.inl ⟨0, qualityToNumber_no_digit label hnd⟩
    · rw [qualityToNumber_run label pre run post e hpre hne hrun hpost]
      exact JS.numberOfNat_range _

theorem qualityToNumber_first_run_witness :
    qualityToNumber "a12b34" = .finite 12 ∧ qualityToNumber "Alta" = .finite 0 := by
  have h := ((qualityToNumber_first_run "a12b34").1 ['a'] ['1', '2'] ['b', '3', '4']
    (by decide) (by decide) (by decide) (by decide) (by decide)).2.1 (by decide)
  exact ⟨h, (qualityToNumber_first_run "Alta").2.1 (by decide)⟩

end VideoUrl
